import Mathlib

/-! fluent-bit-to-loki: record pipeline and namespace controller

A shallow embedding of `pkg/lokiplugin/{loki,utils}.go`, `cmd/controller.go` and
`pkg/controller/controller.go`.

Modelling conventions.

* A Go `interface{}` value is a `Value`.  A Go string is a Lean `String`, so every
  string of the model is well-formed UTF-8; floating point values are not modelled.
* A Go map is an association list.  A list stands for a map when its keys are pairwise
  distinct; reading takes the first binding, deleting removes every binding, `range`
  visits the bindings in list order (one of the orders Go may choose).
* Functions of third-party libraries (jsoniter, logfmt, regexp, net/url, the Prometheus
  label grammar, the Loki client constructor) are fields of a `Lib` record, so that a
  theorem quantified over `lib` holds whatever those libraries do.  `refLib` is one
  concrete instance, used where a statement is evaluated on a concrete input.
* A run-time panic is an explicit result (`AutoLabels.panicked`, `Outcome.panicked`,
  `none` for `Stop`).
-/

namespace FluentBit

/-! ## Data model -/

/-- A dynamically typed Go value.  `bytes s` is the byte slice holding the UTF-8
encoding of `s`, `rawMap` is a `map[interface{}]interface{}` and `strMap` is a
`map[string]interface{}`; `seq xs` is a non-nil `[]interface{}` and `nilSeq` is the nil
`[]interface{}`, which has length 0 like `seq []`. -/
inductive Value where
  | nil
  | bool (b : Bool)
  | int (i : Int)
  | str (s : String)
  | bytes (s : String)
  | seq (xs : List Value)
  | rawMap (kvs : List (Value × Value))
  | strMap (kvs : List (String × Value))
  | nilSeq
  deriving Repr

/-- The Go type `map[string]interface{}`: records after normalisation, mapping trees. -/
abbrev Fields := List (String × Value)

/-- The Go type `model.LabelSet`, a map from label name to label value. -/
abbrev LabelSet := List (String × String)

/-- Map assignment `m[k] = v`. -/
def setKey {β : Type} (m : List (String × β)) (k : String) (v : β) : List (String × β) :=
  m.filter (fun p => p.1 != k) ++ [(k, v)]

/-- The builtin `delete(m, k)`. -/
def deleteKey {β : Type} (m : List (String × β)) (k : String) : List (String × β) :=
  m.filter (fun p => p.1 != k)

/-- Lexicographic comparison of character sequences by code point, which is the
byte-wise order of their UTF-8 encodings. -/
def leChars : List Char → List Char → Bool
  | [], _ => true
  | _ :: _, [] => false
  | c :: cs, d :: ds =>
      if c.toNat < d.toNat then true
      else if d.toNat < c.toNat then false
      else leChars cs ds

/-- The Go comparison `a <= b` of two strings. -/
def strLe (a b : String) : Bool :=
  leChars a.data b.data

/-- Insertion of a string into an ascending list. -/
def insertSorted (k : String) : List String → List String
  | [] => [k]
  | x :: xs => if strLe k x then k :: x :: xs else x :: insertSorted k xs

/-- The call `sort.Strings(keys)`. -/
def sortStrings : List String → List String
  | [] => []
  | x :: xs => insertSorted x (sortStrings xs)

/-- Insertion of a rendered map entry into a list ascending by key. -/
def insertEntry (e : String × String) : List (String × String) → List (String × String)
  | [] => [e]
  | x :: xs => if strLe e.1 x.1 then e :: x :: xs else x :: insertEntry e xs

/-- Rendered map entries in ascending key order, the order in which `fmt` prints a map. -/
def sortEntries : List (String × String) → List (String × String)
  | [] => []
  | x :: xs => insertEntry x (sortEntries xs)

/-- Join strings with single spaces. -/
def joinSpace : List String → String
  | [] => ""
  | [x] => x
  | x :: y :: rest => x ++ " " ++ joinSpace (y :: rest)

mutual
/-- The call `fmt.Sprintf("%v", v)` (and `"%+v"`, which differs only on structs).  A map
prints as `map[k:v ...]` with its entries in ascending key order (exact for string keys),
a slice as `[a b ...]`. -/
def sprintV : Value → String
  | .nil => "<nil>"
  | .bool b => if b then "true" else "false"
  | .int i => toString i
  | .str s => s
  | .bytes s => "[" ++ joinSpace (s.toUTF8.toList.map (fun b => toString b.toNat)) ++ "]"
  | .seq xs => "[" ++ joinSpace (sprintSeq xs) ++ "]"
  | .rawMap kvs =>
      "map[" ++ joinSpace ((sortEntries (sprintRaw kvs)).map (fun e => e.1 ++ ":" ++ e.2)) ++ "]"
  | .strMap kvs =>
      "map[" ++ joinSpace ((sortEntries (sprintFields kvs)).map (fun e => e.1 ++ ":" ++ e.2)) ++ "]"
  | .nilSeq => "[]"
/-- The elements of a slice, each rendered by `sprintV`. -/
def sprintSeq : List Value → List String
  | [] => []
  | v :: rest => sprintV v :: sprintSeq rest
/-- The entries of a `map[interface{}]interface{}`, key and value rendered by `sprintV`. -/
def sprintRaw : List (Value × Value) → List (String × String)
  | [] => []
  | (k, v) :: rest => (sprintV k, sprintV v) :: sprintRaw rest
/-- The entries of a `map[string]interface{}`, each value rendered by `sprintV`. -/
def sprintFields : List (String × Value) → List (String × String)
  | [] => []
  | (k, v) :: rest => (k, sprintV v) :: sprintFields rest
end

/-- The type `config.Format`, an `int`. -/
abbrev Format := Int

/-- The constant `config.JsonFormat`. -/
def JsonFormat : Format := 0

/-- The constant `config.KvPairFormat`. -/
def KvPairFormat : Format := 1

/-- What one `EncodeKeyval` call of the logfmt encoder does with a key and a value: the
text of the pair, `ErrUnsupportedValueType`, or any other error. -/
inductive Keyval where
  | text (s : String)
  | unsupported
  | failed
  deriving DecidableEq, Repr

/-- The type `lokiclient.Config`; `URL` is `none` while no URL has been set. -/
structure ClientConfig where
  URL : Option String
  TenantID : String
  BatchWait : Int
  BatchSize : Int
  Timeout : Int
  ExternalLabels : LabelSet
  deriving DecidableEq, Repr

/-- A non-nil `lokiclient.Client`: the `id` tells apart the clients that successive
calls of `lokiclient.New` return, `cfg` is the configuration it was built from. -/
structure Client where
  id : Nat
  cfg : ClientConfig
  deriving DecidableEq, Repr

/-- Behaviour of the libraries the plugin calls. -/
structure Lib where
  /-- The method `model.LabelName.IsValid`. -/
  labelNameIsValid : String → Bool
  /-- The method `model.LabelValue.IsValid`. -/
  labelValueIsValid : String → Bool
  /-- The call `jsoniter.ConfigCompatibleWithStandardLibrary.Marshal` on a record. -/
  jsonMarshal : Fields → Except String String
  /-- The method `logfmt.Encoder.EncodeKeyval`, without the separator the encoder puts in front. -/
  encodeKeyval : String → Value → Keyval
  /-- The method `(*regexp.Regexp).Match` of the compiled pattern given first. -/
  regexpMatch : String → String → Bool
  /-- The method `flagext.URLValue.Set`: the parsed URL, `none` on a parse error. -/
  urlSet : String → Option String
  /-- Whether `lokiclient.New` returns an error for this configuration. -/
  clientNewFails : ClientConfig → Bool

/-! ## pkg/lokiplugin/utils.go -/

/-- The slice `s` that `toStringSlice` returns, given its elements: declared by
`var s []interface{}`, it is nil unless an element has been appended. -/
def sliceOf : List Value → Value
  | [] => .nilSeq
  | x :: xs => .seq (x :: xs)

mutual
/-- The type switch in the loop bodies of `toStringSlice` and `toStringMap`. -/
def toStringValue : Value → Value
  | .bytes s => .str s
  | .rawMap kvs => .strMap (toStringMap kvs)
  | .seq xs => sliceOf (toStringSlice xs)
  | v => v
/-- The elements of the slice that the function `toStringSlice` returns. -/
def toStringSlice : List Value → List Value
  | [] => []
  | v :: rest => toStringValue v :: toStringSlice rest
/-- The function `toStringMap`: entries whose key is not a string are skipped. -/
def toStringMap : List (Value × Value) → Fields
  | [] => []
  | (.str key, v) :: rest => (key, toStringValue v) :: toStringMap rest
  | (_, _) :: rest => toStringMap rest
end

/-- The `strings.NewReplacer("/", "_", ".", "_", "-", "_")` of `autoLabels`, applied to a string. -/
def replacer (s : String) : String :=
  String.mk (s.data.map (fun c => if c = '/' ∨ c = '.' ∨ c = '-' then '_' else c))

/-- Result of `autoLabels`: the label set after the call when it returned `nil`, the
error it returned (the label set is then untouched), or a panic of a type assertion. -/
inductive AutoLabels where
  | done (lbs : LabelSet)
  | notFound (err : String)
  | panicked
  deriving DecidableEq, Repr

/-- The inner loop of `autoLabels` over the entries of `kubernetes.labels`. -/
def autoLabelsInner : Fields → LabelSet → LabelSet
  | [], lbs => lbs
  | (m, n) :: rest, lbs => autoLabelsInner rest (setKey lbs (replacer m) (sprintV n))

/-- The outer loop of `autoLabels` over the entries of the `kubernetes` mapping; `none`
is the panic of `v.(map[string]interface{})`. -/
def autoLabelsLoop : Fields → LabelSet → Option LabelSet
  | [], lbs => some lbs
  | (k, v) :: rest, lbs =>
      if k = "labels" then
        match v with
        | .strMap ls => autoLabelsLoop rest (autoLabelsInner ls lbs)
        | _ => none
      else if k = "docker_id" ∨ k = "pod_id" ∨ k = "annotations" then
        autoLabelsLoop rest lbs
      else
        autoLabelsLoop rest (setKey lbs k (sprintV v))

/-- The function `autoLabels`. -/
def autoLabels (records : Fields) (kuberneteslbs : LabelSet) : AutoLabels :=
  match records.lookup "kubernetes" with
  | none => .notFound "kubernetes labels not found, no labels will be added"
  | some (.strMap kube) =>
      match autoLabelsLoop kube kuberneteslbs with
      | some lbs => .done lbs
      | none => .panicked
  | some _ => .panicked

/-- The loop of `extractLabels`, `res` being the set built so far. -/
def extractLabelsLoop (lib : Lib) (records : Fields) : List String → LabelSet → LabelSet
  | [], res => res
  | k :: keys, res =>
      match records.lookup k with
      | none => extractLabelsLoop lib records keys res
      | some v =>
          if !lib.labelNameIsValid k then extractLabelsLoop lib records keys res
          else if !lib.labelValueIsValid (sprintV v) then extractLabelsLoop lib records keys res
          else extractLabelsLoop lib records keys (setKey res k (sprintV v))

/-- The function `extractLabels`. -/
def extractLabels (lib : Lib) (records : Fields) (keys : List String) : LabelSet :=
  extractLabelsLoop lib records keys []

/-- The function `getRecordValue`; `none` is the result `("", false)`. -/
def getRecordValue (key : String) (records : Fields) : Option String :=
  match records.lookup key with
  | some (.str typedVal) => some typedVal
  | some (.bytes typedVal) => some typedVal
  | some typedVal => some (sprintV typedVal)
  | none => none

mutual
/-- The body of the loop of `mapLabels` for the mapping entry `k ↦ v`. -/
def mapLabelsEntry (lib : Lib) (records : Fields) (k : String) : Value → LabelSet → LabelSet
  | .strMap nextKey, res =>
      match records.lookup k with
      | some (.strMap nextValue) => mapLabels lib nextValue nextKey res
      | _ => res
  | .str nextKey, res =>
      match getRecordValue k records with
      | some value =>
          if lib.labelValueIsValid value && lib.labelNameIsValid nextKey then setKey res nextKey value
          else res
      | none => res
  | _, res => res
/-- The function `mapLabels`; the result is the label set `res` after the call. -/
def mapLabels (lib : Lib) (records : Fields) : Fields → LabelSet → LabelSet
  | [], res => res
  | (k, v) :: rest, res => mapLabels lib records rest (mapLabelsEntry lib records k v res)
end

mutual
/-- The body of the loop of `getDynamicHostName` for the mapping entry `k ↦ v`:
`some s` when it returns `s`, `none` when the loop goes on. -/
def getDynamicHostNameEntry (records : Fields) (k : String) : Value → Option String
  | .strMap nextKey =>
      match records.lookup k with
      | some (.strMap nextValue) => some (getDynamicHostName nextValue nextKey)
      | _ => none
  | .str _ => getRecordValue k records
  | _ => none
/-- The function `getDynamicHostName`. -/
def getDynamicHostName (records : Fields) : Fields → String
  | [] => ""
  | (k, v) :: rest =>
      match getDynamicHostNameEntry records k v with
      | some s => s
      | none => getDynamicHostName records rest
end

/-- The function `removeKeys`; the result is the record after the call. -/
def removeKeys (records : Fields) : List String → Fields
  | [] => records
  | k :: keys => removeKeys (deleteKey records k) keys

/-- The loop of the `KvPairFormat` branch of `createLine`: `buf` is the buffer of the
encoder, `needSep` whether it writes a space first; `none` is an early `return "", nil`. -/
def kvLoop (lib : Lib) (records : Fields) : List String → String → Bool → Option String
  | [], buf, _ => some buf
  | k :: keys, buf, needSep =>
      let sep := if needSep then " " else ""
      let v := (records.lookup k).getD .nil
      match lib.encodeKeyval k v with
      | .text s => kvLoop lib records keys (buf ++ sep ++ s) true
      | .unsupported =>
          match lib.encodeKeyval k (.str (sprintV v)) with
          | .text s => kvLoop lib records keys (buf ++ sep ++ s) true
          | _ => none
      | .failed => none

/-- The function `createLine`. -/
def createLine (lib : Lib) (records : Fields) (f : Format) : Except String String :=
  if f = JsonFormat then
    match lib.jsonMarshal records with
    | .error err => .error err
    | .ok js => .ok js
  else if f = KvPairFormat then
    match kvLoop lib records (sortStrings (records.map Prod.fst)) "" false with
    | some line => .ok line
    | none => .ok ""
  else .error ("invalid line format: " ++ toString f)

/-! ## cmd/controller.go and pkg/controller/controller.go

Both files declare the same controller; `getNamespaceNameIfMatch`, `getClientConfig`,
`isDynamicHost`, `delFunc` and `Stop` are the same text in both, `addFunc` differs
(`Cmd.addFunc`, `Pkg.addFunc`).  The model covers a controller built with a compiled
name pattern and an allocated client map. -/

/-- The part of a `*corev1.Namespace` the controller reads. -/
structure Namespace where
  Name : String
  Labels : List (String × String)
  deriving DecidableEq, Repr

/-- The argument of an event handler: a namespace, or an object of another type. -/
inductive Obj where
  | ns (namespace_ : Namespace)
  | other
  deriving DecidableEq, Repr

/-- The controller.  In `clients` the value `none` is a nil `lokiclient.Client`;
`stopChnClosed` tells whether `stopChn` has been closed. -/
structure Controller where
  clients : List (String × Option Client)
  clientConfig : ClientConfig
  labelSelector : List (String × String)
  dynamicHostPrefix : String
  dynamicHostSulfix : String
  dynamicHostRegex : String
  stopChnClosed : Bool
  deriving DecidableEq, Repr

/-- What the controller does to its surroundings: `created` lists the clients that
`lokiclient.New` has returned (a client runs from its creation on), `stopped` has one
entry for each call of a client's `Stop`, `errors` the error messages logged. -/
structure World where
  created : List Client
  stopped : List Client
  errors : List String
  deriving DecidableEq, Repr

/-- The call `lokiclient.New(conf, logger)`: an error, or a client not seen before. -/
def lokiclientNew (lib : Lib) (conf : ClientConfig) (w : World) : Option Client × World :=
  if lib.clientNewFails conf then (none, w)
  else (some ⟨w.created.length, conf⟩, { w with created := w.created ++ [⟨w.created.length, conf⟩] })

/-- The method `labels.SelectorFromSet(sel).Matches(lbls)` of k8s.io/apimachinery. -/
def selectorMatches (sel lbls : List (String × String)) : Bool :=
  sel.all (fun p => lbls.lookup p.1 == some p.2)

/-- The method `isDynamicHost`. -/
def isDynamicHost (lib : Lib) (ctl : Controller) (dynamicHostName : String) : Bool :=
  lib.regexpMatch ctl.dynamicHostRegex dynamicHostName

/-- The method `getNamespaceNameIfMatch`. -/
def getNamespaceNameIfMatch (lib : Lib) (ctl : Controller) (w : World) : Obj → String × World
  | .other => ("", { w with errors := w.errors ++ ["is not a namespace"] })
  | .ns namespace_ => if !isDynamicHost lib ctl namespace_.Name then ("", w) else (namespace_.Name, w)

/-- The method `getClientConfig`; `none` is the nil result. -/
def getClientConfig (lib : Lib) (ctl : Controller) (w : World) (namespaces : String) :
    Option ClientConfig × World :=
  match lib.urlSet (ctl.dynamicHostPrefix ++ namespaces ++ ctl.dynamicHostSulfix) with
  | none => (none, { w with errors := w.errors ++ ["failed to parse client URL"] })
  | some clientURL => (some { ctl.clientConfig with URL := some clientURL }, w)

/-- What both `addFunc` do once the namespace has passed their gate. -/
def addClient (lib : Lib) (ctl : Controller) (w : World) (nsName : String) : Controller × World :=
  match getClientConfig lib ctl w nsName with
  | (none, w1) => (ctl, w1)
  | (some clientConf, w1) =>
      match lokiclientNew lib clientConf w1 with
      | (none, w2) =>
          (ctl, { w2 with errors := w2.errors ++ ["failed to make new loki client for namespace"] })
      | (some client, w2) => ({ ctl with clients := setKey ctl.clients nsName (some client) }, w2)

/-- The method `delFunc`, the same in both files. -/
def delFunc (lib : Lib) (ctl : Controller) (w : World) (obj : Obj) : Controller × World :=
  match getNamespaceNameIfMatch lib ctl w obj with
  | (nsName, w1) =>
      if nsName = "" then (ctl, w1)
      else
        match ctl.clients.lookup nsName with
        | some (some client) =>
            ({ ctl with clients := deleteKey ctl.clients nsName },
             { w1 with stopped := w1.stopped ++ [client] })
        | _ => (ctl, w1)

/-- The loop of `Stop` over the registry; `none` is the panic of calling `Stop` on a
nil client. -/
def stopClients : List (String × Option Client) → World → Option World
  | [], w => some w
  | (_, some client) :: rest, w => stopClients rest { w with stopped := w.stopped ++ [client] }
  | (_, none) :: _, _ => none

/-- The method `Stop`, the same in both files; `none` is a panic (closing a closed
channel, or stopping a nil client). -/
def Stop (ctl : Controller) (w : World) : Option (Controller × World) :=
  if ctl.stopChnClosed then none
  else
    match stopClients ctl.clients w with
    | some w1 => some ({ ctl with stopChnClosed := true }, w1)
    | none => none

namespace Cmd

/-- The method `getClient` of cmd/controller.go; `none` is the nil result. -/
def getClient (ctl : Controller) (name : String) : Option Client :=
  match ctl.clients.lookup name with
  | some client => client
  | none => none

/-- The method `addFunc` of cmd/controller.go. -/
def addFunc (lib : Lib) (ctl : Controller) (w : World) (obj : Obj) : Controller × World :=
  match getNamespaceNameIfMatch lib ctl w obj with
  | (nsName, w1) => if nsName = "" then (ctl, w1) else addClient lib ctl w1 nsName

end Cmd

namespace Pkg

/-- The method `GetClient` of pkg/controller/controller.go; `none` is the nil result. -/
def GetClient (ctl : Controller) (name : String) : Option Client :=
  match ctl.clients.lookup name with
  | some client => client
  | none => none

/-- The method `addFunc` of pkg/controller/controller.go.  The source passes the
namespace object where the map key and the host name are expected; its name is used. -/
def addFunc (lib : Lib) (ctl : Controller) (w : World) : Obj → Controller × World
  | .other => (ctl, { w with errors := w.errors ++ ["is not a namespace"] })
  | .ns namespace_ =>
      if selectorMatches [("gardener.cloud/role", "shoot")] namespace_.Labels then
        addClient lib ctl w namespace_.Name
      else (ctl, w)

end Pkg

/-! ## pkg/lokiplugin/loki.go -/

/-- The configuration `SendRecord` reads; `labelMap` and `dynamicHostPath` are `none`
when the map is nil. -/
structure config where
  autoKubernetesLabels : Bool
  labelMap : Option Fields
  labelKeys : List String
  removeKeys : List String
  dropSingleKey : Bool
  lineFormat : Format
  dynamicHostPath : Option Fields

/-- The plugin; `client` is the default (static) client. -/
structure loki where
  cfg : config
  client : Client
  controller : Controller

/-- Result of `SendRecord`: `skipped` is `return nil` without a send, `handled` is the
result of `c.Handle(lbs, ts, line)`, `failed` an error returned without a send. -/
inductive Outcome where
  | skipped
  | handled (c : Client) (lbs : LabelSet) (ts : Int) (line : String)
  | failed (err : String)
  | panicked
  deriving DecidableEq, Repr

/-- The method `getClient` of the plugin; `none` is the nil result. -/
def loki.getClient (lib : Lib) (l : loki) (dynamicHosName : String) : Option Client :=
  if dynamicHosName != "" && isDynamicHost lib l.controller dynamicHosName then
    Cmd.getClient l.controller dynamicHosName
  else some l.client

/-- The label set of `SendRecord` after lines 55-66; `none` is a panic in `autoLabels`. -/
def sendLabels (lib : Lib) (cfg : config) (records : Fields) : Option LabelSet :=
  let auto : Option LabelSet :=
    if cfg.autoKubernetesLabels then
      match autoLabels records [] with
      | .done lbs => some lbs
      | .notFound _ => some []
      | .panicked => none
    else some []
  match auto with
  | none => none
  | some lbs =>
      match cfg.labelMap with
      | some labelMap => some (mapLabels lib records labelMap lbs)
      | none => some (extractLabels lib records cfg.labelKeys)

/-- The method `SendRecord`. -/
def SendRecord (lib : Lib) (l : loki) (r : List (Value × Value)) (ts : Int) : Outcome :=
  let records := toStringMap r
  match sendLabels lib l.cfg records with
  | none => .panicked
  | some lbs =>
      let dynamicHostName := getDynamicHostName records (l.cfg.dynamicHostPath.getD [])
      let records := removeKeys records (l.cfg.labelKeys ++ l.cfg.removeKeys)
      if records.length = 0 then .skipped
      else
        match l.cfg.dropSingleKey && records.length == 1, records with
        | true, (_, v) :: _ => .handled l.client lbs ts (sprintV v)
        | _, _ =>
            match createLine lib records l.cfg.lineFormat with
            | .error err => .failed ("error creating line: " ++ err)
            | .ok line =>
                match loki.getClient lib l dynamicHostName with
                | none => .failed ("could not found client for " ++ dynamicHostName)
                | some client => .handled client lbs ts line

/-! ## A reference instance of the libraries -/

/-- First character of a Prometheus label name: a letter or the underscore. -/
def isNameStart (c : Char) : Bool :=
  c.isAlpha || c == '_'

/-- The method `model.LabelName.IsValid`: the name matches `^[a-zA-Z_][a-zA-Z0-9_]*$`. -/
def labelNameIsValid (s : String) : Bool :=
  match s.data with
  | [] => false
  | c :: cs => isNameStart c && cs.all (fun d => isNameStart d || d.isDigit)

/-- Whether the characters `p` occur consecutively in `s`. -/
def hasInfix (p : List Char) : List Char → Bool
  | [] => p.isEmpty
  | c :: cs => p.isPrefixOf (c :: cs) || hasInfix p cs

/-- Text of a character inside a JSON string, for the characters the encoder escapes
by a short form; other characters stand for themselves. -/
def jsonChar (c : Char) : List Char :=
  if c = '"' then ['\\', '"']
  else if c = '\\' then ['\\', '\\']
  else if c = '\n' then ['\\', 'n']
  else if c = '\r' then ['\\', 'r']
  else if c = '\t' then ['\\', 't']
  else [c]

/-- A JSON string literal. -/
def jsonString (s : String) : String :=
  "\"" ++ String.mk (s.data.flatMap jsonChar) ++ "\""

/-- Join strings with commas. -/
def joinComma : List String → String
  | [] => ""
  | [x] => x
  | x :: y :: rest => x ++ "," ++ joinComma (y :: rest)

mutual
/-- Compact JSON text of a value, object keys ascending; `none` for a value that holds
a byte slice or a `map[interface{}]interface{}`, which a normalised record never does. -/
def jsonValue : Value → Option String
  | .nil => some "null"
  | .bool b => some (if b then "true" else "false")
  | .int i => some (toString i)
  | .str s => some (jsonString s)
  | .bytes _ => none
  | .seq xs => (jsonSeq xs).map (fun ts => "[" ++ joinComma ts ++ "]")
  | .rawMap _ => none
  | .nilSeq => some "null"
  | .strMap kvs =>
      (jsonFields kvs).map
        (fun es => "\x7b" ++ joinComma ((sortEntries es).map (fun e => jsonString e.1 ++ ":" ++ e.2)) ++ "\x7d")
/-- JSON texts of the elements of a slice. -/
def jsonSeq : List Value → Option (List String)
  | [] => some []
  | v :: rest =>
      match jsonValue v, jsonSeq rest with
      | some t, some ts => some (t :: ts)
      | _, _ => none
/-- Keys and JSON texts of the entries of a map. -/
def jsonFields : List (String × Value) → Option (List (String × String))
  | [] => some []
  | (k, v) :: rest =>
      match jsonValue v, jsonFields rest with
      | some t, some ts => some ((k, t) :: ts)
      | _, _ => none
end

/-- Whether logfmt drops the character from a key and quotes a value holding it. -/
def logfmtSpecial (c : Char) : Bool :=
  c.toNat ≤ 32 || c == '=' || c == '"'

/-- Text logfmt writes for a string value. -/
def logfmtString (s : String) : String :=
  if s = "null" then "\"null\""
  else if s.data.any logfmtSpecial then jsonString s
  else s

/-- One `EncodeKeyval` call of logfmt on a string key. -/
def logfmtKeyval (k : String) (v : Value) : Keyval :=
  let key := String.mk (k.data.filter (fun c => !logfmtSpecial c))
  if key = "" then .failed
  else
    match v with
    | .nil => .text (key ++ "=null")
    | .str s => .text (key ++ "=" ++ logfmtString s)
    | .bytes s => .text (key ++ "=" ++ logfmtString s)
    | .bool b => .text (key ++ "=" ++ logfmtString (sprintV (.bool b)))
    | .int i => .text (key ++ "=" ++ logfmtString (sprintV (.int i)))
    | _ => .unsupported

/-- The reference instance: the Prometheus label-name grammar, every string a valid
label value (strings of the model are valid UTF-8), JSON with ascending keys, logfmt,
a pattern without metacharacters matching the names that contain it, URLs failing to
parse when they hold a control character, client construction failing without a URL. -/
def refLib : Lib where
  labelNameIsValid := labelNameIsValid
  labelValueIsValid := fun _ => true
  jsonMarshal := fun records =>
    match jsonValue (.strMap records) with
    | some js => .ok js
    | none => .error "unsupported value"
  encodeKeyval := logfmtKeyval
  regexpMatch := fun pattern s => hasInfix pattern.data s.data
  urlSet := fun s => if s.data.any (fun c => c.toNat < 32 || c.toNat == 127) then none else some s
  clientNewFails := fun conf => conf.URL.isNone

/-! ## Concrete inputs -/

/-- The client configuration template of the examples. -/
def exClientConfig : ClientConfig :=
  { URL := some "http://localhost:3100/loki/api/v1/push", TenantID := "", BatchWait := 1,
    BatchSize := 102400, Timeout := 10, ExternalLabels := [("job", "fluent-bit")] }

/-- The default client of the examples. -/
def exDefaultClient : Client := ⟨1000, exClientConfig⟩

/-- A controller with the name pattern `shoot--` and an empty registry. -/
def exController : Controller :=
  { clients := [], clientConfig := exClientConfig, labelSelector := [],
    dynamicHostPrefix := "http://loki.", dynamicHostSulfix := ".svc:3100/loki/api/v1/push",
    dynamicHostRegex := "shoot--", stopChnClosed := false }

/-- A world in which nothing has happened yet. -/
def exWorld : World := { created := [], stopped := [], errors := [] }

/-- The namespace `shoot--foo`. -/
def exShootFoo : Obj := .ns { Name := "shoot--foo", Labels := [("gardener.cloud/role", "shoot")] }

/-- The record of Scenario A. -/
def exRecordA : List (Value × Value) :=
  [(.str "kubernetes",
      .rawMap [(.str "namespace_name", .str "shoot--foo"), (.str "labels", .rawMap [(.str "tier", .str "x")])]),
   (.str "message", .str "hello")]

/-- The host mapping of Scenario A: `kubernetes.namespace_name`. -/
def exHostPath : Fields := [("kubernetes", .strMap [("namespace_name", .str "namespace")])]

/-- The URL of the client that `addFunc` builds for the namespace `shoot--foo`. -/
def exShootFooClient : Client :=
  ⟨0, { exClientConfig with URL := some "http://loki.shoot--foo.svc:3100/loki/api/v1/push" }⟩

/-- The controller after the `Added` event of `shoot--foo` has been handled. -/
def exControllerFoo : Controller :=
  (Cmd.addFunc refLib exController exWorld exShootFoo).1

/-- Scenario A: automatic labels on, explicit-key mode without keys, structured format,
host mapping `kubernetes.namespace_name`, drop-single-key on. -/
def exConfigA : config :=
  { autoKubernetesLabels := true, labelMap := none, labelKeys := [], removeKeys := [],
    dropSingleKey := true, lineFormat := JsonFormat, dynamicHostPath := some exHostPath }

/-- The plugin of Scenario A, with a live client registered for `shoot--foo`. -/
def exLokiA : loki :=
  { cfg := exConfigA, client := exDefaultClient, controller := exControllerFoo }

/-- Scenario A with `kubernetes` among the remove keys, so that one field is left. -/
def exLokiDrop : loki :=
  { cfg := { exConfigA with removeKeys := ["kubernetes"] }, client := exDefaultClient,
    controller := exControllerFoo }

/-- Scenario B with `kubernetes` among the remove keys: no client is registered. -/
def exLokiDropNoClient : loki :=
  { cfg := { exConfigA with removeKeys := ["kubernetes"] }, client := exDefaultClient,
    controller := exController }

/-- Scenario A in mapping-tree mode with an empty tree. -/
def exLokiMap : loki :=
  { cfg := { exConfigA with labelMap := some [] }, client := exDefaultClient,
    controller := exControllerFoo }

/-- A record whose Kubernetes metadata carries the pod label `2nd-tier`. -/
def exRecordDigit : List (Value × Value) :=
  [(.str "kubernetes",
      .rawMap [(.str "namespace_name", .str "shoot--foo"), (.str "labels", .rawMap [(.str "2nd-tier", .str "x")])]),
   (.str "message", .str "hello")]

/-- A record whose `kubernetes` field is a string. -/
def exRecordKubeString : List (Value × Value) :=
  [(.str "kubernetes", .str "shoot--foo"), (.str "message", .str "hello")]

/-- A record whose `kubernetes.labels` field is a sequence. -/
def exRecordLabelsSeq : List (Value × Value) :=
  [(.str "kubernetes", .rawMap [(.str "labels", .seq [.str "tier"])]), (.str "message", .str "hello")]

/-- A controller of pkg/controller configured with the selector `env=prod`. -/
def exControllerPkg : Controller :=
  { exController with labelSelector := [("env", "prod")] }

/-- A namespace that carries the label `gardener.cloud/role=shoot`, lacks `env=prod`,
and whose name does not contain `shoot--`. -/
def exGarden : Obj := .ns { Name := "garden", Labels := [("gardener.cloud/role", "shoot")] }

/-- The client that `addFunc` builds for the namespace `garden`. -/
def exGardenClient : Client :=
  ⟨0, { exClientConfig with URL := some "http://loki.garden.svc:3100/loki/api/v1/push" }⟩

/-- A namespace whose name contains `shoot--` and which carries no label. -/
def exShootBar : Obj := .ns { Name := "shoot--bar", Labels := [] }

/-- The world after the `Added` event of `shoot--foo` has been handled. -/
def exWorldFoo : World :=
  (Cmd.addFunc refLib exController exWorld exShootFoo).2

/-- The controller of pkg/controller after the `Added` event of `garden`. -/
def exControllerGarden : Controller :=
  (Pkg.addFunc refLib exController exWorld exGarden).1

/-- The world after the `Added` event of `garden` has been handled. -/
def exWorldGarden : World :=
  (Pkg.addFunc refLib exController exWorld exGarden).2

/-! ## Specification predicates -/

/-- The gate of `Cmd.addFunc` and of `delFunc`: the name is not empty and matches the
name pattern. -/
def nameMatches (lib : Lib) (ctl : Controller) (name : String) : Prop :=
  name ≠ "" ∧ isDynamicHost lib ctl name = true

/-- No entry of the registry is a nil client. -/
def noNilClient (ctl : Controller) : Prop :=
  ∀ p ∈ ctl.clients, p.2 ≠ none

/-- The number of registry entries whose key is `name`. -/
def entryCount (ctl : Controller) (name : String) : Nat :=
  (ctl.clients.filter (fun p => p.1 == name)).length

/-- States of cmd/controller.go reachable from an empty registry by `Added` and
`Deleted` events. -/
inductive Cmd.Reachable (lib : Lib) : Controller → World → Prop where
  | start (ctl : Controller) (w : World) (h : ctl.clients = []) : Cmd.Reachable lib ctl w
  | added (ctl : Controller) (w : World) (obj : Obj) (h : Cmd.Reachable lib ctl w) :
      Cmd.Reachable lib (Cmd.addFunc lib ctl w obj).1 (Cmd.addFunc lib ctl w obj).2
  | deleted (ctl : Controller) (w : World) (obj : Obj) (h : Cmd.Reachable lib ctl w) :
      Cmd.Reachable lib (delFunc lib ctl w obj).1 (delFunc lib ctl w obj).2

/-- States of pkg/controller/controller.go reachable from an empty registry by `Added`
and `Deleted` events. -/
inductive Pkg.Reachable (lib : Lib) : Controller → World → Prop where
  | start (ctl : Controller) (w : World) (h : ctl.clients = []) : Pkg.Reachable lib ctl w
  | added (ctl : Controller) (w : World) (obj : Obj) (h : Pkg.Reachable lib ctl w) :
      Pkg.Reachable lib (Pkg.addFunc lib ctl w obj).1 (Pkg.addFunc lib ctl w obj).2
  | deleted (ctl : Controller) (w : World) (obj : Obj) (h : Pkg.Reachable lib ctl w) :
      Pkg.Reachable lib (delFunc lib ctl w obj).1 (delFunc lib ctl w obj).2

/-- What handling the `Added` event of the name `n` twice does, `s1` being the state
after the first call and `s2` the state after the second, `conf` the configuration
built for `n`: each call creates a client, the registry has one entry for `n`, bound
after each call to the client that call created, nothing is stopped and the other
entries are as before. -/
def AddedTwice (ctl : Controller) (w : World) (n : String) (conf : ClientConfig)
    (s1 s2 : Controller × World) : Prop :=
  s1.2.created = w.created ++ [⟨w.created.length, conf⟩] ∧
  s2.2.created = w.created ++ [⟨w.created.length, conf⟩, ⟨w.created.length + 1, conf⟩] ∧
  s1.1.clients.lookup n = some (some ⟨w.created.length, conf⟩) ∧
  s2.1.clients.lookup n = some (some ⟨w.created.length + 1, conf⟩) ∧
  entryCount s1.1 n = 1 ∧ entryCount s2.1 n = 1 ∧
  s2.2.stopped = w.stopped ∧
  ∀ j, j ≠ n → s2.1.clients.lookup j = ctl.clients.lookup j

/-- What the claim says of `delFunc` for the name `n`, `s` being the state after the
call: no entry for `n`, every other entry as before, the client of an entry that
existed stopped once, and nothing done and no error logged when none existed. -/
def Deleted (ctl : Controller) (w : World) (n : String) (s : Controller × World) : Prop :=
  s.1.clients.lookup n = none ∧
  (∀ j, j ≠ n → s.1.clients.lookup j = ctl.clients.lookup j) ∧
  (∀ c, ctl.clients.lookup n = some (some c) →
    s.2.stopped = w.stopped ++ [c] ∧ s.2.created = w.created) ∧
  (ctl.clients.lookup n = none → s = (ctl, w)) ∧
  s.2.errors = w.errors

/-- The client configuration `getClientConfig` returns when the URL parses to `u`: a
copy of the template with `URL` set. -/
def confFor (ctl : Controller) (u : String) : ClientConfig :=
  { ctl.clientConfig with URL := some u }

/-- The controller with the registry entry `n` assigned the client `c`. -/
def withClient (ctl : Controller) (n : String) (c : Client) : Controller :=
  { ctl with clients := setKey ctl.clients n (some c) }

/-- The world after `lokiclient.New` has returned the client `c`. -/
def withCreated (w : World) (c : Client) : World :=
  { w with created := w.created ++ [c] }

/-- Every key of the registry passes the name gate and no entry is a nil client. -/
def keysMatch (lib : Lib) (ctl : Controller) : Prop :=
  ∀ p ∈ ctl.clients, nameMatches lib ctl p.1 ∧ p.2 ≠ none

/-! ## Update events -/

/-- The match predicate of the controller as the spec states it: the namespace satisfies
the configured label selector and its name matches the name pattern. -/
def matchesPredicate (lib : Lib) (ctl : Controller) (ns : Namespace) : Bool :=
  selectorMatches ctl.labelSelector ns.Labels && isDynamicHost lib ctl ns.Name

namespace Pkg

/-- Modelled from the spec: the method `updateFunc`, which `NewController` of
pkg/controller/controller.go registers as `UpdateFunc` and which no file of the
repository defines.  The spec: "re-evaluates the match predicate; if the namespace
transitions from non-matching to matching, behaves as Added; if from matching to
non-matching, behaves as Deleted; otherwise no-op." -/
def updateFunc (lib : Lib) (ctl : Controller) (w : World) (oldObj newObj : Obj) :
    Controller × World :=
  match oldObj, newObj with
  | .ns oldNs, .ns newNs =>
      if !matchesPredicate lib ctl oldNs && matchesPredicate lib ctl newNs then
        addFunc lib ctl w newObj
      else if matchesPredicate lib ctl oldNs && !matchesPredicate lib ctl newNs then
        delFunc lib ctl w newObj
      else (ctl, w)
  | _, _ => (ctl, w)

end Pkg

namespace Cmd

/-- What an `Updated` event does in cmd/controller.go: `NewController` registers
`AddFunc` and `DeleteFunc` only, so the event reaches no handler. -/
def onUpdate (ctl : Controller) (w : World) (_oldObj _newObj : Obj) : Controller × World :=
  (ctl, w)

end Cmd

/-- A namespace without the label `env=prod` whose name contains `shoot--`. -/
def exShootBazOld : Namespace := { Name := "shoot--baz", Labels := [] }

/-- The namespace `shoot--baz` after it has received the labels `env=prod` and
`gardener.cloud/role=shoot`. -/
def exShootBazNew : Namespace :=
  { Name := "shoot--baz", Labels := [("env", "prod"), ("gardener.cloud/role", "shoot")] }

/-! ## Mapping trees -/

mutual
/-- The values at the string leaves below the mapping entry `k ↦ v` whose whole path
resolves in the record, in depth-first order. -/
def resolvedLeavesEntry (records : Fields) (k : String) : Value → List String
  | .strMap nextKey =>
      match records.lookup k with
      | some (.strMap nextValue) => resolvedLeaves nextValue nextKey
      | _ => []
  | .str _ =>
      match getRecordValue k records with
      | some value => [value]
      | none => []
  | _ => []
/-- The values at the string leaves of a mapping tree whose whole path resolves in the
record: every inner key on the path is a nested mapping of the record and the key of
the leaf is a field there; in depth-first order. -/
def resolvedLeaves (records : Fields) : Fields → List String
  | [] => []
  | (k, v) :: rest => resolvedLeavesEntry records k v ++ resolvedLeaves records rest
end

/-- What the claim says `getDynamicHostName` returns: the value at the first string
leaf, in depth-first order, whose whole path resolves, and the empty string when
there is none. -/
def firstResolvedLeaf (records : Fields) (mapping : Fields) : String :=
  (resolvedLeaves records mapping).headD ""

/-- A host mapping with the inner mapping `a` in front of the leaf `b`. -/
def exHostPathTwo : Fields := [("a", .strMap [("x", .str "host")]), ("b", .str "host")]

/-- A record in which `a` is a mapping without the field `x` and `b` is a string. -/
def exRecordTwo : Fields := [("a", .strMap [("y", .str "1")]), ("b", .str "shoot--foo")]

/-- The same mapping tree read in another iteration order: at every level of the tree
the entries may come in any order. -/
inductive Reordered : Fields → Fields → Prop where
  | nil : Reordered [] []
  | cons (k : String) (v : Value) {l l2 : Fields} (h : Reordered l l2) :
      Reordered ((k, v) :: l) ((k, v) :: l2)
  | inner (k : String) {s s2 l l2 : Fields} (hs : Reordered s s2) (h : Reordered l l2) :
      Reordered ((k, .strMap s) :: l) ((k, .strMap s2) :: l2)
  | swap (a b : String × Value) (l : Fields) : Reordered (a :: b :: l) (b :: a :: l)
  | trans {l1 l2 l3 : Fields} (h1 : Reordered l1 l2) (h2 : Reordered l2 l3) : Reordered l1 l3

/-- Whether the mapping entry `k ↦ v` ends the loop of `getDynamicHostName`: a string
leaf whose key is a field of the record, or an inner mapping whose key is a nested
mapping of the record. -/
def endsWalk (records : Fields) (k : String) : Value → Bool
  | .strMap _ =>
      match records.lookup k with
      | some (.strMap _) => true
      | _ => false
  | .str _ => (records.lookup k).isSome
  | _ => false

mutual
/-- The condition `singleWalk` for the subtree that the walk enters at the entry `k ↦ v`. -/
def singleWalkEntry (records : Fields) (k : String) : Value → Bool
  | .strMap nextKey =>
      match records.lookup k with
      | some (.strMap nextValue) => singleWalk nextValue nextKey
      | _ => true
  | _ => true
/-- At this level of the tree, and at every level the walk can enter, at most one
entry ends the loop of `getDynamicHostName`. -/
def singleWalk (records : Fields) : Fields → Bool
  | [] => true
  | (k, v) :: rest =>
      (!endsWalk records k v || rest.all (fun e => !endsWalk records e.1 e.2)) &&
        singleWalkEntry records k v && singleWalk records rest
end

/-- A host mapping with two leaves at the top level. -/
def exHostPathLeaves : Fields := [("namespace_name", .str "host"), ("pod_name", .str "host")]

/-- A record with the fields `namespace_name` and `pod_name`. -/
def exRecordLeaves : Fields := [("namespace_name", .str "shoot--foo"), ("pod_name", .str "web-1")]

/-- The host mapping of Scenario A with the leaf `cluster` in front. -/
def exHostPathCluster : Fields :=
  [("cluster", .str "host"), ("kubernetes", .strMap [("namespace_name", .str "host")])]

/-- The label set after the assignments `res[name] = value` for the pairs of `ps`, made
in list order. -/
def applyPairs (res : LabelSet) (ps : List (String × String)) : LabelSet :=
  ps.foldl (fun acc p => setKey acc p.1 p.2) res

mutual
/-- The assignments below the mapping entry `k ↦ v`, see `assignments`. -/
def assignmentsEntry (lib : Lib) (records : Fields) (k : String) : Value → List (String × String)
  | .strMap nextKey =>
      match records.lookup k with
      | some (.strMap nextValue) => assignments lib nextValue nextKey
      | _ => []
  | .str nextKey =>
      match getRecordValue k records with
      | some value =>
          if lib.labelValueIsValid value && lib.labelNameIsValid nextKey then [(nextKey, value)]
          else []
      | none => []
  | _ => []
/-- The pairs (label name, value) of the string leaves of a mapping tree whose whole
path resolves in the record and whose name and value are valid, in depth-first order. -/
def assignments (lib : Lib) (records : Fields) : Fields → List (String × String)
  | [] => []
  | (k, v) :: rest => assignmentsEntry lib records k v ++ assignments lib records rest
end

mutual
/-- The destination label names of the string leaves below a mapping entry. -/
def leafNamesEntry : Value → List String
  | .strMap nextKey => leafNames nextKey
  | .str nextKey => [nextKey]
  | _ => []
/-- The destination label names of all string leaves of a mapping tree, one for each
leaf. -/
def leafNames : Fields → List String
  | [] => []
  | (_, v) :: rest => leafNamesEntry v ++ leafNames rest
end

/-- The mapping tree has a string leaf that designates the label `name`, below a path
of inner-mapping keys each of which is a nested mapping of the record, and the record's
mapping at that path has the leaf's key as a field, whose string form (the string
itself, or its `%v` text) is `value`. -/
inductive LeafAt : Fields → Fields → String → String → Prop where
  | atLeaf {records mapping : Fields} (k name value : String)
      (hm : (k, Value.str name) ∈ mapping) (hv : getRecordValue k records = some value) :
      LeafAt records mapping name value
  | inSub {records mapping : Fields} (k : String) (sub r : Fields) (name value : String)
      (hm : (k, Value.strMap sub) ∈ mapping) (hr : records.lookup k = some (.strMap r))
      (h : LeafAt r sub name value) : LeafAt records mapping name value

/-- A label mapping whose two leaves designate the same label `name`. -/
def exLabelMapSame : Fields := [("namespace_name", .str "name"), ("pod_name", .str "name")]

/-- The label mapping `kubernetes.namespace_name ↦ namespace`, `kubernetes.pod_name ↦ pod`. -/
def exLabelMap : Fields :=
  [("kubernetes", .strMap [("namespace_name", .str "namespace"), ("pod_name", .str "pod")]),
   ("stream", .str "stream")]

/-- A normalised record with Kubernetes metadata and a stream. -/
def exRecordPod : Fields :=
  [("kubernetes", .strMap [("namespace_name", .str "shoot--foo"), ("pod_name", .str "web-1")]),
   ("stream", .str "stderr"), ("log", .str "hello")]



/-- The pairs (label name, value) the claim lists for the entry `k ↦ v` of the
`kubernetes` mapping: for `labels` holding a mapping one pair for each of its entries,
the name with `/`, `.` and `-` replaced by `_`; nothing for `docker_id`, `pod_id` and
`annotations`; otherwise the pair of `k` and the string form of `v`. -/
def autoPairsEntry (k : String) (v : Value) : List (String × String) :=
  if k = "labels" then
    match v with
    | .strMap ls => ls.map (fun e => (replacer e.1, sprintV e.2))
    | _ => []
  else if k = "docker_id" ∨ k = "pod_id" ∨ k = "annotations" then []
  else [(k, sprintV v)]

/-- The pairs the claim lists for all entries of the `kubernetes` mapping. -/
def autoPairs : Fields → List (String × String)
  | [] => []
  | (k, v) :: rest => autoPairsEntry k v ++ autoPairs rest

/-- Kubernetes metadata in which the pod label `host` meets the field `host`. -/
def exKubeHost : Fields := [("host", .str "node-1"), ("labels", .strMap [("host", .str "edge")])]

/-- Kubernetes metadata of Scenario A, with a pod id. -/
def exKubeA : Fields :=
  [("namespace_name", .str "shoot--foo"), ("pod_id", .str "0a1b"),
   ("labels", .strMap [("app.kubernetes.io/name", .str "web")])]

/-- The pair `extractLabels` assigns for the explicit key `k`, if any. -/
def extractPair (lib : Lib) (records : Fields) (k : String) : Option (String × String) :=
  match records.lookup k with
  | none => none
  | some v =>
      if lib.labelNameIsValid k && lib.labelValueIsValid (sprintV v) then some (k, sprintV v)
      else none

/-- The text the loop of the `KvPairFormat` branch writes for the key `k`: the output
of `EncodeKeyval` for the key and its value, or, when the encoder reports an
unsupported value type, its output for the key and the `%+v` text of the value;
`none` when the loop returns early. -/
def pairText (lib : Lib) (records : Fields) (k : String) : Option String :=
  match lib.encodeKeyval k ((records.lookup k).getD .nil) with
  | .text s => some s
  | .unsupported =>
      match lib.encodeKeyval k (.str (sprintV ((records.lookup k).getD .nil))) with
      | .text s => some s
      | _ => none
  | .failed => none

/-- The line of the claim for `KvPairFormat`: the texts of the pairs of all keys, the
keys in ascending order, separated by single spaces. -/
def kvLine (lib : Lib) (records : Fields) : String :=
  joinSpace ((sortStrings (records.map Prod.fst)).map (fun k => (pairText lib records k).getD ""))

/-- A record with the empty string as a key. -/
def exRecordEmptyKey : Fields := [("", .str "x"), ("msg", .str "hi")]

/-- A record with the key `=`. -/
def exRecordEqualsKey : Fields := [("1", .str "a"), ("=", .str "b")]

/-- A record with a string, a number and a nested mapping. -/
def exRecordKv : Fields :=
  [("msg", .str "hello world"), ("code", .int 7), ("kubernetes", .strMap [("pod_name", .str "web-1")])]

/-! ## A generic JSON decoder -/

/-- The input without its leading JSON white space. -/
def skipWs : List Char → List Char
  | [] => []
  | c :: cs => if c = ' ' ∨ c = '\n' ∨ c = '\t' ∨ c = '\r' then skipWs cs else c :: cs

/-- A JSON string after its opening quote: the decoded string and the rest of the
input; `acc` holds the characters read so far, last first. -/
def parseString : List Char → List Char → Option (String × List Char)
  | [], _ => none
  | '"' :: rest, acc => some (String.mk acc.reverse, rest)
  | '\\' :: 'n' :: rest, acc => parseString rest ('\n' :: acc)
  | '\\' :: 't' :: rest, acc => parseString rest ('\t' :: acc)
  | '\\' :: 'r' :: rest, acc => parseString rest ('\r' :: acc)
  | '\\' :: '"' :: rest, acc => parseString rest ('"' :: acc)
  | '\\' :: '\\' :: rest, acc => parseString rest ('\\' :: acc)
  | '\\' :: '/' :: rest, acc => parseString rest ('/' :: acc)
  | '\\' :: _, _ => none
  | c :: rest, acc => parseString rest (c :: acc)

/-- The decimal digits in front of the input, as a number continuing `acc`, and the
rest of the input. -/
def parseDigits : List Char → Nat → Nat × List Char
  | [], acc => (acc, [])
  | c :: cs, acc => if c.isDigit then parseDigits cs (acc * 10 + (c.toNat - 48)) else (acc, c :: cs)

mutual
/-- A JSON value in front of the input, decoded as `json.Unmarshal` decodes into an
`interface{}`, and the rest of the input; numbers are integers (a fraction or an
exponent is not modelled and reads as an error).  The first argument bounds the
number of nested calls. -/
def parseValue : Nat → List Char → Option (Value × List Char)
  | 0, _ => none
  | fuel + 1, cs =>
      match skipWs cs with
      | 'n' :: 'u' :: 'l' :: 'l' :: rest => some (.nil, rest)
      | 't' :: 'r' :: 'u' :: 'e' :: rest => some (.bool true, rest)
      | 'f' :: 'a' :: 'l' :: 's' :: 'e' :: rest => some (.bool false, rest)
      | '"' :: rest =>
          match parseString rest [] with
          | some (s, rest2) => some (.str s, rest2)
          | none => none
      | '[' :: rest =>
          match skipWs rest with
          | ']' :: rest2 => some (.seq [], rest2)
          | _ =>
              match parseElems fuel rest with
              | some (xs, rest2) => some (.seq xs, rest2)
              | none => none
      | '\x7b' :: rest =>
          match skipWs rest with
          | '\x7d' :: rest2 => some (.strMap [], rest2)
          | _ =>
              match parseMembers fuel rest with
              | some (kvs, rest2) => some (.strMap kvs, rest2)
              | none => none
      | '-' :: c :: rest =>
          if c.isDigit then
            match parseDigits (c :: rest) 0 with
            | (n, rest2) => some (.int (-(n : Int)), rest2)
          else none
      | c :: rest =>
          if c.isDigit then
            match parseDigits (c :: rest) 0 with
            | (n, rest2) => some (.int (n : Int), rest2)
          else none
      | [] => none
/-- The elements of a JSON array after its opening bracket, up to and including the
closing bracket. -/
def parseElems : Nat → List Char → Option (List Value × List Char)
  | 0, _ => none
  | fuel + 1, cs =>
      match parseValue fuel cs with
      | none => none
      | some (v, rest) =>
          match skipWs rest with
          | ',' :: rest2 =>
              match parseElems fuel rest2 with
              | some (vs, rest3) => some (v :: vs, rest3)
              | none => none
          | ']' :: rest2 => some ([v], rest2)
          | _ => none
/-- The members of a JSON object after its opening brace, up to and including the
closing brace; a key that occurs again replaces the earlier member. -/
def parseMembers : Nat → List Char → Option (Fields × List Char)
  | 0, _ => none
  | fuel + 1, cs =>
      match skipWs cs with
      | '"' :: rest =>
          match parseString rest [] with
          | none => none
          | some (k, rest2) =>
              match skipWs rest2 with
              | ':' :: rest3 =>
                  match parseValue fuel rest3 with
                  | none => none
                  | some (v, rest4) =>
                      match skipWs rest4 with
                      | ',' :: rest5 =>
                          match parseMembers fuel rest5 with
                          | some (kvs, rest6) =>
                              some ((k, v) :: kvs.filter (fun p => p.1 != k), rest6)
                          | none => none
                      | '\x7d' :: rest5 => some ([(k, v)], rest5)
                      | _ => none
              | _ => none
      | _ => none
end

/-- A generic JSON decoder: the value of a JSON text, `none` when the text is not JSON. -/
def jsonDecode (s : String) : Option Value :=
  match parseValue (2 * s.length + 2) s.data with
  | some (v, rest) => if skipWs rest = [] then some v else none
  | none => none

/-- The call `json.Unmarshal(data, &m)` for a nil `map[string]interface{}` `m`: `none`
is an error, `some none` leaves `m` nil (the text `null`), `some (some kvs)` sets it. -/
def jsonUnmarshalMap (s : String) : Option (Option Fields) :=
  match jsonDecode s with
  | some (.strMap kvs) => some (some kvs)
  | some .nil => some none
  | _ => none

/-! ## pkg/config/config.go -/

/-- The type `config.Config`; a nil map is `none`, a nil slice of strings is `[]`. -/
structure Config where
  ClientConfig : ClientConfig
  LogLevel : String
  AutoKubernetesLabels : Bool
  RemoveKeys : List String
  LabelKeys : List String
  LineFormat : Format
  DropSingleKey : Bool
  LabelMap : Option Fields
  LabelSelector : Option (List (String × String))
  DynamicHostPath : Option Fields
  DynamicHostPrefix : String
  DynamicHostSulfix : String
  DynamicHostRegex : String

/-- What `ParseConfig` takes from its surroundings. -/
structure ConfEnv where
  /-- The variable `defaultClientCfg` after `flagext.RegisterFlags`. -/
  defaultClientCfg : ClientConfig
  /-- The call `logql.ParseMatchers` followed by the loop that builds the label set;
  `none` on an error. -/
  parseMatchers : String → Option LabelSet
  /-- Whether `logging.Level.Set` accepts the level. -/
  levelSet : String → Bool
  /-- The call `ioutil.ReadFile`; `none` on an error. -/
  readFile : String → Option String
  /-- The call `json.Unmarshal` into a nil `map[string]interface{}`: `some (some m)`
  for a JSON object, `some none` for the JSON value `null`, which leaves the map nil,
  and `none`, an error, for any other text. -/
  unmarshalMap : String → Option (Option Fields)

/-- The pieces of the input between the separators, see `stringsSplit`; `acc` holds the
characters of the current piece, last first. -/
def splitChars (sep : Char) : List Char → List Char → List String
  | [], acc => [String.mk acc.reverse]
  | c :: cs, acc =>
      if c = sep then String.mk acc.reverse :: splitChars sep cs [] else splitChars sep cs (c :: acc)

/-- The call `strings.Split(s, sep)` for a separator of one character. -/
def stringsSplit (s : String) (sep : Char) : List String :=
  splitChars sep s.data []

/-- Whether the string is a decimal integer: an optional sign and one or more digits. -/
def isDecimalInteger (s : String) : Bool :=
  match s.data with
  | '+' :: c :: cs => (c :: cs).all Char.isDigit
  | '-' :: c :: cs => (c :: cs).all Char.isDigit
  | c :: cs => (c :: cs).all Char.isDigit
  | [] => false

/-- The value of a 64-bit `int` after an overflow of the mathematical value `i`. -/
def wrapInt64 (i : Int) : Int :=
  (i + 9223372036854775808) % 18446744073709551616 - 9223372036854775808

/-- The call `strconv.Atoi` on a 64-bit platform; `none` is an error (bad syntax, or a
value out of range). -/
def atoi (s : String) : Option Int :=
  if isDecimalInteger s then
    let v : Int :=
      match s.data with
      | '+' :: cs => ((parseDigits cs 0).1 : Int)
      | '-' :: cs => -((parseDigits cs 0).1 : Int)
      | cs => ((parseDigits cs 0).1 : Int)
    if -9223372036854775808 ≤ v ∧ v ≤ 9223372036854775807 then some v else none
  else none

/-- Lines 56-69 of `ParseConfig`: the defaults and the URL. -/
def parseURL (lib : Lib) (env : ConfEnv) (cfg : String → String) : Except String Config :=
  let url := if cfg "URL" = "" then "http://localhost:3100/loki/api/v1/push" else cfg "URL"
  match lib.urlSet url with
  | none => .error "failed to parse client URL"
  | some clientURL =>
      .ok { ClientConfig := { env.defaultClientCfg with URL := some clientURL },
            LogLevel := "", AutoKubernetesLabels := false, RemoveKeys := [], LabelKeys := [],
            LineFormat := 0, DropSingleKey := false, LabelMap := none, LabelSelector := none,
            DynamicHostPath := none, DynamicHostPrefix := "", DynamicHostSulfix := "",
            DynamicHostRegex := "" }

/-- Lines 71-90 of `ParseConfig`: the tenant, the batch wait and the batch size. -/
def parseBatch (cfg : String → String) (res : Config) : Except String Config :=
  let res1 : Config := { res with ClientConfig := { res.ClientConfig with TenantID := cfg "TenantID" } }
  let wait : Except String Config :=
    if cfg "BatchWait" = "" then .ok res1
    else
      match atoi (cfg "BatchWait") with
      | none => .error ("failed to parse BatchWait: " ++ cfg "BatchWait")
      | some batchWaitValue =>
          .ok { res1 with ClientConfig :=
                  { res1.ClientConfig with BatchWait := wrapInt64 (batchWaitValue * 1000000000) } }
  match wait with
  | .error e => .error e
  | .ok res2 =>
      if cfg "BatchSize" = "" then .ok res2
      else
        match atoi (cfg "BatchSize") with
        | none => .error ("failed to parse BatchSize: " ++ cfg "BatchSize")
        | some batchSizeValue =>
            .ok { res2 with ClientConfig := { res2.ClientConfig with BatchSize := batchSizeValue } }

/-- Lines 92-114 of `ParseConfig`: the external labels and the log level. -/
def parseLabelsLevel (env : ConfEnv) (cfg : String → String) (res : Config) : Except String Config :=
  let labels := if cfg "Labels" = "" then "\x7bjob=\"fluent-bit\"\x7d" else cfg "Labels"
  match env.parseMatchers labels with
  | none => .error "invalid labels"
  | some labelSet =>
      let logLevel := if cfg "LogLevel" = "" then "info" else cfg "LogLevel"
      if env.levelSet logLevel then
        .ok { res with ClientConfig := { res.ClientConfig with ExternalLabels := labelSet },
                       LogLevel := logLevel }
      else .error ("invalid log level: " ++ logLevel)

/-- Lines 116-124 of `ParseConfig`: the switch on `AutoKubernetesLabels`. -/
def parseAuto (cfg : String → String) (res : Config) : Except String Config :=
  if cfg "AutoKubernetesLabels" = "false" ∨ cfg "AutoKubernetesLabels" = "" then
    .ok { res with AutoKubernetesLabels := false }
  else if cfg "AutoKubernetesLabels" = "true" then .ok { res with AutoKubernetesLabels := true }
  else .error ("invalid boolean AutoKubernetesLabels: " ++ cfg "AutoKubernetesLabels")

/-- Lines 126-134 of `ParseConfig`: the remove keys and the label keys. -/
def parseKeys (cfg : String → String) (res : Config) : Config :=
  let res1 : Config :=
    if cfg "RemoveKeys" = "" then res else { res with RemoveKeys := stringsSplit (cfg "RemoveKeys") ',' }
  if cfg "LabelKeys" = "" then res1 else { res1 with LabelKeys := stringsSplit (cfg "LabelKeys") ',' }

/-- Lines 136-144 of `ParseConfig`: the switch on `DropSingleKey`. -/
def parseDropSingleKey (cfg : String → String) (res : Config) : Except String Config :=
  if cfg "DropSingleKey" = "false" then .ok { res with DropSingleKey := false }
  else if cfg "DropSingleKey" = "true" ∨ cfg "DropSingleKey" = "" then
    .ok { res with DropSingleKey := true }
  else .error ("invalid boolean DropSingleKey: " ++ cfg "DropSingleKey")

/-- Lines 146-154 of `ParseConfig`: the switch on `LineFormat`. -/
def parseLineFormat (cfg : String → String) (res : Config) : Except String Config :=
  if cfg "LineFormat" = "json" ∨ cfg "LineFormat" = "" then .ok { res with LineFormat := JsonFormat }
  else if cfg "LineFormat" = "key_value" then .ok { res with LineFormat := KvPairFormat }
  else .error ("invalid format: " ++ cfg "LineFormat")

/-- Lines 156-166 of `ParseConfig`: the label map file. -/
def parseLabelMap (env : ConfEnv) (cfg : String → String) (res : Config) : Except String Config :=
  if cfg "LabelMapPath" = "" then .ok res
  else
    match env.readFile (cfg "LabelMapPath") with
    | none => .error "failed to open LabelMap file"
    | some content =>
        match env.unmarshalMap content with
        | none => .error "failed to Unmarshal LabelMap file"
        | some none => .ok { res with LabelKeys := [] }
        | some (some labelMap) => .ok { res with LabelMap := some labelMap, LabelKeys := [] }

/-- The loop of lines 172-178: an entry `name:value` is stored, any other piece is
skipped. -/
def selectorLoop : List String → List (String × String) → List (String × String)
  | [], m => m
  | label :: rest, m =>
      match stringsSplit label ':' with
      | [name, value] => selectorLoop rest (setKey m name value)
      | _ => selectorLoop rest m

/-- Lines 168-179 of `ParseConfig`: the label selector. -/
def parseLabelSelector (cfg : String → String) (res : Config) : Config :=
  if cfg "LabelSelector" = "" then res
  else { res with LabelSelector := some (selectorLoop (stringsSplit (cfg "LabelSelector") ',') []) }

/-- Lines 181-195 of `ParseConfig`: the dynamic host settings. -/
def parseDynamicHost (env : ConfEnv) (cfg : String → String) (res : Config) : Except String Config :=
  let path : Except String Config :=
    if cfg "DynamicHostPath" = "" then .ok res
    else
      match env.unmarshalMap (cfg "DynamicHostPath") with
      | none => .error "failed to Unmarshal DynamicHostPath json"
      | some none => .ok res
      | some (some dynamicHostPath) => .ok { res with DynamicHostPath := some dynamicHostPath }
  match path with
  | .error e => .error e
  | .ok res1 =>
      .ok { res1 with
              DynamicHostPrefix := cfg "DynamicHostPrefix",
              DynamicHostSulfix := cfg "DynamicHostSulfix",
              DynamicHostRegex := if cfg "DynamicHostRegex" = "" then "*" else cfg "DynamicHostRegex" }

/-- The function `ParseConfig`; `cfg` is the method `Get` of the `ConfigGetter`. -/
def ParseConfig (lib : Lib) (env : ConfEnv) (cfg : String → String) : Except String Config :=
  (parseURL lib env cfg).bind fun r1 =>
  (parseBatch cfg r1).bind fun r2 =>
  (parseLabelsLevel env cfg r2).bind fun r3 =>
  (parseAuto cfg r3).bind fun r4 =>
  (parseDropSingleKey cfg (parseKeys cfg r4)).bind fun r5 =>
  (parseLineFormat cfg r5).bind fun r6 =>
  (parseLabelMap env cfg r6).bind fun r7 =>
  parseDynamicHost env cfg (parseLabelSelector cfg r7)

/-- One matcher `name="value"` in front of the input, and the rest of the input. -/
def parseMatcher (cs : List Char) : Option ((String × String) × List Char) :=
  let name := cs.takeWhile (fun c => isNameStart c || c.isDigit)
  match cs.dropWhile (fun c => isNameStart c || c.isDigit) with
  | '=' :: '"' :: rest =>
      if name = [] then none
      else
        match parseString rest [] with
        | some (value, rest2) => some ((String.mk name, value), rest2)
        | none => none
  | _ => none

/-- The matchers of a selector after its opening brace, up to the closing brace. -/
def parseMatcherList : Nat → List Char → Option LabelSet
  | 0, _ => none
  | fuel + 1, cs =>
      match parseMatcher cs with
      | none => none
      | some (m, rest) =>
          match rest with
          | ['\x7d'] => some [m]
          | ',' :: rest2 =>
              match parseMatcherList fuel rest2 with
              | some ms => some (if (ms.lookup m.1).isSome then ms else m :: ms)
              | none => none
          | _ => none

/-- A reference instance of the surroundings of `ParseConfig`: the client defaults of
the examples, selectors of the form `name="value",...` in braces, the four log levels
of weaveworks/common, no readable file, and the generic JSON decoder. -/
def refEnv : ConfEnv where
  defaultClientCfg :=
    { URL := none, TenantID := "", BatchWait := 1000000000, BatchSize := 102400, Timeout := 10000000000,
      ExternalLabels := [] }
  parseMatchers := fun s =>
    match s.data with
    | '\x7b' :: rest => parseMatcherList rest.length rest
    | _ => none
  levelSet := fun s => s = "debug" || s = "info" || s = "warn" || s = "error"
  readFile := fun _ => none
  unmarshalMap := jsonUnmarshalMap

/-- The configuration in which every key is unset. -/
def exEmptyConf : String → String := fun _ => ""

/-- The configuration in which only `DynamicHostPath` is set, to the text `null`. -/
def exNullPathConf : String → String := fun key => if key = "DynamicHostPath" then "null" else ""

/-- The configuration in which only the entry `name` is set, to the text `a`. -/
def exBadConf (name : String) : String → String := fun key => if key = name then "a" else ""

/-! ## The stripped record and the normal form of records -/

/-- The fields of a record whose key is not among `keys`. -/
def withoutKeys (records : Fields) (keys : List String) : Fields :=
  records.filter (fun p => !keys.contains p.1)

/-- The entry that `toStringMap` stores for an entry of the raw record, if any. -/
def stringEntry (e : Value × Value) : Option (String × Value) :=
  match e.1 with
  | .str key => some (key, toStringValue e.2)
  | _ => none

/-- The length of a slice; 0 for a value that is no slice. -/
def seqLength : Value → Nat
  | .seq xs => xs.length
  | _ => 0

mutual
/-- Whether a value is built from the types the record decoder produces: scalars, byte
slices, `[]interface{}` and `map[interface{}]interface{}`, at every depth. -/
def isRawValue : Value → Bool
  | .seq xs => isRawSeq xs
  | .rawMap kvs => isRawMap kvs
  | .strMap _ => false
  | _ => true
/-- Whether every element of a slice is built from the decoder types. -/
def isRawSeq : List Value → Bool
  | [] => true
  | v :: rest => isRawValue v && isRawSeq rest
/-- Whether every value of a raw map is built from the decoder types. -/
def isRawMap : List (Value × Value) → Bool
  | [] => true
  | (_, v) :: rest => isRawValue v && isRawMap rest
end

mutual
/-- Whether a value is in normal form: no byte slice and no
`map[interface{}]interface{}` occurs in it at any depth. -/
def normalValue : Value → Bool
  | .bytes _ => false
  | .rawMap _ => false
  | .seq xs => normalSeq xs
  | .strMap kvs => normalFields kvs
  | _ => true
/-- Whether every element of a slice is in normal form. -/
def normalSeq : List Value → Bool
  | [] => true
  | v :: rest => normalValue v && normalSeq rest
/-- Whether every value of a record is in normal form. -/
def normalFields : List (String × Value) → Bool
  | [] => true
  | (_, v) :: rest => normalValue v && normalFields rest
end

/-- Whether a text is a JSON object, for the generic decoder. -/
def isJsonObject (s : String) : Bool :=
  match jsonDecode s with
  | some (.strMap _) => true
  | _ => false

/-- What `addFunc` has done for the name `n` whose host string parsed to `u`, `s` being
the state after the call: a client built from the template with `URL` set to `u` and
every other field as in the template has been created and is bound to `n`, the other
entries and the template of the controller are as before. -/
def Registered (ctl : Controller) (w : World) (n u : String) (s : Controller × World) : Prop :=
  s.1.clients.lookup n = some (some ⟨w.created.length, confFor ctl u⟩) ∧
  s.2.created = w.created ++ [⟨w.created.length, confFor ctl u⟩] ∧
  (confFor ctl u).URL = some u ∧
  (confFor ctl u).TenantID = ctl.clientConfig.TenantID ∧
  (confFor ctl u).BatchWait = ctl.clientConfig.BatchWait ∧
  (confFor ctl u).BatchSize = ctl.clientConfig.BatchSize ∧
  (confFor ctl u).Timeout = ctl.clientConfig.Timeout ∧
  (confFor ctl u).ExternalLabels = ctl.clientConfig.ExternalLabels ∧
  s.1.clientConfig = ctl.clientConfig ∧
  ∀ j, j ≠ n → s.1.clients.lookup j = ctl.clients.lookup j

/-- What `addFunc` has done for a name whose host string does not parse, `s` being the
state after the call: the controller is as before, no client has been created, and
the parse error has been logged. -/
def Skipped (ctl : Controller) (w : World) (s : Controller × World) : Prop :=
  s.1 = ctl ∧ s.2.created = w.created ∧ s.2.stopped = w.stopped ∧
  s.2.errors = w.errors ++ ["failed to parse client URL"]

/-- A raw record with an empty sequence and an empty nested mapping. -/
def exRecordEmptySeq : List (Value × Value) :=
  [(.str "tags", .seq []), (.str "meta", .rawMap [])]

/-- The record of Scenario C. -/
def exRecordC : List (Value × Value) :=
  [(.str "app", .str "x"), (.str "msg", .str "hi")]

/-- Scenario C: the explicit label key `app`, drop-single-key on, no host mapping. -/
def exLokiC : loki :=
  { cfg := { autoKubernetesLabels := false, labelMap := none, labelKeys := ["app"], removeKeys := [],
             dropSingleKey := true, lineFormat := JsonFormat, dynamicHostPath := none },
    client := exDefaultClient, controller := exController }

/-- Scenario A with `kubernetes` among the remove keys and drop-single-key off. -/
def exLokiRemoveKube : loki :=
  { cfg := { exConfigA with removeKeys := ["kubernetes"], dropSingleKey := false },
    client := exDefaultClient, controller := exControllerFoo }

/-- Scenario A with both fields of the record among the remove keys. -/
def exLokiRemoveAll : loki :=
  { cfg := { exConfigA with removeKeys := ["kubernetes", "message"] }, client := exDefaultClient,
    controller := exControllerFoo }

/-- As `exLokiRemoveAll`, with automatic labels off. -/
def exLokiRemoveAllNoAuto : loki :=
  { cfg := { exConfigA with removeKeys := ["kubernetes", "message"], autoKubernetesLabels := false },
    client := exDefaultClient, controller := exControllerFoo }

/-- A raw record with a byte slice inside a sequence inside a nested mapping, and an
entry whose key is not a string. -/
def exRecordBytes : List (Value × Value) :=
  [(.str "log", .bytes "hi"), (.int 7, .str "dropped"),
   (.str "k", .rawMap [(.str "tags", .seq [.bytes "a", .int 1])])]

/-- The reference libraries, except that `lokiclient.New` returns an error for every
configuration. -/
def exLibNewFails : Lib :=
  { refLib with clientNewFails := fun _ => true }

/-- A namespace whose name holds a control character, so that its host string does not
parse as a URL. -/
def exBadHost : Namespace :=
  { Name := "shoot--\n", Labels := [("gardener.cloud/role", "shoot")] }















/-! ## Theorems -/

/-! ### Association lists -/

theorem lookup_cons_self {β : Type} (m : List (String × β)) (k : String) (v : β) :
    ((k, v) :: m).lookup k = some v := by
  simp [List.lookup]

theorem lookup_cons_other {β : Type} (m : List (String × β)) (k j : String) (v : β)
    (hj : j ≠ k) : ((k, v) :: m).lookup j = m.lookup j := by
  have h : (j == k) = false := by simpa using hj
  simp [List.lookup, h]

theorem lookup_filter_ne_self {β : Type} (m : List (String × β)) (k : String) :
    (m.filter (fun p => p.1 != k)).lookup k = none := by
  induction m with
  | nil => rfl
  | cons p rest ih =>
      obtain ⟨a, b⟩ := p
      by_cases h : a = k
      · have h1 : (a != k) = false := by simpa using h
        rw [List.filter_cons_of_neg (by simp [h1])]
        exact ih
      · have h1 : (a != k) = true := by simpa using h
        rw [List.filter_cons_of_pos (by simp [h1])]
        rw [lookup_cons_other _ _ _ _ (fun e => h e.symm)]
        exact ih

theorem lookup_filter_ne_other {β : Type} (m : List (String × β)) (k j : String) (hj : j ≠ k) :
    (m.filter (fun p => p.1 != k)).lookup j = m.lookup j := by
  induction m with
  | nil => rfl
  | cons p rest ih =>
      obtain ⟨a, b⟩ := p
      by_cases h : a = k
      · have h1 : (a != k) = false := by simpa using h
        rw [List.filter_cons_of_neg (by simp [h1])]
        rw [lookup_cons_other _ _ _ _ (by rw [h]; exact hj)]
        exact ih
      · have h1 : (a != k) = true := by simpa using h
        rw [List.filter_cons_of_pos (by simp [h1])]
        by_cases h3 : j = a
        · subst h3; rw [lookup_cons_self, lookup_cons_self]
        · rw [lookup_cons_other _ _ _ _ h3, lookup_cons_other _ _ _ _ h3]
          exact ih

theorem lookup_append_of_none {β : Type} (m n : List (String × β)) (j : String)
    (h : m.lookup j = none) : (m ++ n).lookup j = n.lookup j := by
  induction m with
  | nil => rfl
  | cons p rest ih =>
      obtain ⟨a, b⟩ := p
      by_cases h3 : j = a
      · subst h3; simp [List.lookup] at h
      · have h4 : (j == a) = false := by simpa using h3
        simp only [List.lookup, h4] at h
        simp [List.lookup, h4, ih h]

theorem lookup_append_of_some {β : Type} (m n : List (String × β)) (j : String) (v : β)
    (h : m.lookup j = some v) : (m ++ n).lookup j = some v := by
  induction m with
  | nil => simp [List.lookup] at h
  | cons p rest ih =>
      obtain ⟨a, b⟩ := p
      by_cases h3 : j = a
      · subst h3; simpa [List.lookup] using h
      · have h4 : (j == a) = false := by simpa using h3
        simp only [List.lookup, h4] at h
        simp [List.lookup, h4, ih h]

theorem lookup_setKey_self {β : Type} (m : List (String × β)) (k : String) (v : β) :
    (setKey m k v).lookup k = some v := by
  unfold setKey
  rw [lookup_append_of_none _ _ _ (lookup_filter_ne_self m k)]
  simp [List.lookup]

theorem lookup_setKey_other {β : Type} (m : List (String × β)) (k j : String) (v : β)
    (hj : j ≠ k) : (setKey m k v).lookup j = m.lookup j := by
  unfold setKey
  have h4 : (j == k) = false := by simpa using hj
  cases h : m.lookup j with
  | none =>
      rw [lookup_append_of_none _ _ _ (by rw [lookup_filter_ne_other m k j hj]; exact h)]
      simp [List.lookup, h4]
  | some v2 =>
      exact lookup_append_of_some _ _ _ _ (by rw [lookup_filter_ne_other m k j hj]; exact h)

/-! ### The dispatcher -/

/-- C1, the code at Scenario A: `autoLabels` derives `namespace_name=shoot--foo` and
`tier=x` from the record, yet with automatic labels on and no label mapping tree the
label set that `SendRecord` hands to the client is empty, because the assignment
`lbs = extractLabels(...)` replaces the automatic labels. -/
theorem C1_auto_labels_replaced_by_explicit :
    autoLabels (toStringMap exRecordA) [] = .done [("namespace_name", "shoot--foo"), ("tier", "x")] ∧
    exConfigA.autoKubernetesLabels = true ∧ exConfigA.labelMap.isNone = true ∧
    SendRecord refLib exLokiA exRecordA 7 =
      .handled exShootFooClient [] 7
        "\x7b\"kubernetes\":\x7b\"labels\":\x7b\"tier\":\"x\"\x7d,\"namespace_name\":\"shoot--foo\"\x7d,\"message\":\"hello\"\x7d" := by
  decide

/-- C2, the code at a record with one field left: the destination key `shoot--foo` is
not empty, matches the name pattern and has a registered client, which is the client
the encoded-line path uses (`getClient`), yet with drop-single-key on `SendRecord`
hands the line `hello` to the default client. -/
theorem C2_single_key_goes_to_default_client :
    getDynamicHostName (toStringMap exRecordA) exHostPath = "shoot--foo" ∧
    (removeKeys (toStringMap exRecordA) (exLokiDrop.cfg.labelKeys ++ exLokiDrop.cfg.removeKeys)).length = 1 ∧
    loki.getClient refLib exLokiDrop "shoot--foo" = some exShootFooClient ∧
    exShootFooClient ≠ exDefaultClient ∧
    SendRecord refLib exLokiDrop exRecordA 7 = .handled exDefaultClient [] 7 "hello" := by
  decide

/-- C3, the code at a record with one field left and no registered client: the
destination key `shoot--foo` is not empty and matches the name pattern, the registry
is empty, the stripped record is not empty, yet with drop-single-key on `SendRecord`
returns no error and calls the send operation of the default client. -/
theorem C3_single_key_sent_without_registered_client :
    getDynamicHostName (toStringMap exRecordA) exHostPath = "shoot--foo" ∧
    isDynamicHost refLib exLokiDropNoClient.controller "shoot--foo" = true ∧
    Cmd.getClient exLokiDropNoClient.controller "shoot--foo" = none ∧
    (removeKeys (toStringMap exRecordA)
      (exLokiDropNoClient.cfg.labelKeys ++ exLokiDropNoClient.cfg.removeKeys)).length = 1 ∧
    SendRecord refLib exLokiDropNoClient exRecordA 7 = .handled exDefaultClient [] 7 "hello" := by
  decide

/-- C4: `loki.getClient` returns the default client when the key is empty or fails the
name pattern; for a non-empty key that matches the pattern it returns the result of the
registry lookup `Cmd.getClient`, that is the registered client when the registry binds
the key to one and the nil result when the registry has no entry for the key, so it
does not fall back to the default client. -/
theorem C4_getClient_routes (lib : Lib) (l : loki) (key : String) :
    ((key = "" ∨ isDynamicHost lib l.controller key = false) →
      loki.getClient lib l key = some l.client) ∧
    ((key ≠ "" ∧ isDynamicHost lib l.controller key = true) →
      loki.getClient lib l key = Cmd.getClient l.controller key ∧
      (∀ c, l.controller.clients.lookup key = some (some c) → loki.getClient lib l key = some c) ∧
      (l.controller.clients.lookup key = none → loki.getClient lib l key = none)) := by
  constructor
  · intro h
    rcases h with h | h
    · subst h; simp [loki.getClient]
    · simp [loki.getClient, h]
  · intro h
    obtain ⟨h1, h2⟩ := h
    have e : loki.getClient lib l key = Cmd.getClient l.controller key := by
      simp [loki.getClient, h1, h2]
    refine ⟨e, ?_, ?_⟩
    · intro c hc; rw [e]; simp [Cmd.getClient, hc]
    · intro hc; rw [e]; simp [Cmd.getClient, hc]

/-- C4 at concrete keys: the empty key and the key `kube-system` give the default
client, the key `shoot--foo` gives the registered client, and with an empty registry
the key `shoot--foo` gives the nil result. -/
theorem C4_getClient_routes_witness :
    loki.getClient refLib exLokiA "" = some exDefaultClient ∧
    loki.getClient refLib exLokiA "kube-system" = some exDefaultClient ∧
    loki.getClient refLib exLokiA "shoot--foo" = some exShootFooClient ∧
    loki.getClient refLib exLokiDropNoClient "shoot--foo" = none :=
  ⟨(C4_getClient_routes refLib exLokiA "").1 (Or.inl rfl),
   (C4_getClient_routes refLib exLokiA "kube-system").1 (Or.inr (by decide)),
   ((C4_getClient_routes refLib exLokiA "shoot--foo").2 ⟨by decide, by decide⟩).2.1
     exShootFooClient (by decide),
   ((C4_getClient_routes refLib exLokiDropNoClient "shoot--foo").2 ⟨by decide, by decide⟩).2.2
     (by decide)⟩

/-- C5, the code at a record with the pod label `2nd-tier`: in mapping-tree mode with
automatic labels on, the label set `SendRecord` computes holds the pair
`2nd_tier=x`, whose name is not a valid label name; `autoLabels` inserts its pairs
without the validity check that `extractLabels` and `mapLabels` make. -/
theorem C5_auto_label_with_invalid_name :
    SendRecord refLib exLokiMap exRecordDigit 7 =
      .handled exShootFooClient [("namespace_name", "shoot--foo"), ("2nd_tier", "x")] 7
        "\x7b\"kubernetes\":\x7b\"labels\":\x7b\"2nd-tier\":\"x\"\x7d,\"namespace_name\":\"shoot--foo\"\x7d,\"message\":\"hello\"\x7d" ∧
    refLib.labelNameIsValid "2nd_tier" = false := by
  decide

/-- C6, the code at records whose `kubernetes` field is a string and whose
`kubernetes.labels` field is a sequence: the unchecked type assertions of `autoLabels`
panic, and so does `SendRecord` with automatic labels on. -/
theorem C6_autoLabels_panics_on_non_mapping :
    autoLabels (toStringMap exRecordKubeString) [] = .panicked ∧
    autoLabels (toStringMap exRecordLabelsSeq) [] = .panicked ∧
    SendRecord refLib exLokiA exRecordKubeString 7 = .panicked ∧
    SendRecord refLib exLokiA exRecordLabelsSeq 7 = .panicked := by
  decide

/-! ### The controller -/

theorem mem_of_lookup_eq_some {β : Type} (m : List (String × β)) (k : String) (v : β)
    (h : m.lookup k = some v) : (k, v) ∈ m := by
  induction m with
  | nil => simp [List.lookup] at h
  | cons p rest ih =>
      obtain ⟨a, b⟩ := p
      by_cases h3 : k = a
      · subst h3
        rw [lookup_cons_self] at h
        injection h with h
        subst h
        exact List.mem_cons_self _ _
      · rw [lookup_cons_other _ _ _ _ h3] at h
        exact List.mem_cons_of_mem _ (ih h)

theorem entryCount_withClient (ctl : Controller) (k : String) (c : Client) :
    entryCount (withClient ctl k c) k = 1 := by
  have h : ∀ m : List (String × Option Client),
      (m.filter (fun p => p.1 != k)).filter (fun p => p.1 == k) = [] := by
    intro m
    rw [List.filter_filter]
    apply List.filter_eq_nil_iff.mpr
    intro p _
    by_cases e : p.1 = k <;> simp [e]
  simp [entryCount, withClient, setKey, List.filter_append, h]

theorem addClient_eq (lib : Lib) (ctl : Controller) (w : World) (n u : String)
    (hu : lib.urlSet (ctl.dynamicHostPrefix ++ n ++ ctl.dynamicHostSulfix) = some u)
    (hn : lib.clientNewFails (confFor ctl u) = false) :
    addClient lib ctl w n =
      (withClient ctl n ⟨w.created.length, confFor ctl u⟩,
       withCreated w ⟨w.created.length, confFor ctl u⟩) := by
  unfold confFor at hn
  simp [addClient, getClientConfig, hu, lokiclientNew, hn, withClient, withCreated, confFor]

theorem addClient_twice (lib : Lib) (ctl : Controller) (w : World) (n u : String)
    (hu : lib.urlSet (ctl.dynamicHostPrefix ++ n ++ ctl.dynamicHostSulfix) = some u)
    (hn : lib.clientNewFails (confFor ctl u) = false) :
    AddedTwice ctl w n (confFor ctl u) (addClient lib ctl w n)
      (addClient lib (addClient lib ctl w n).1 (addClient lib ctl w n).2 n) := by
  have e1 := addClient_eq lib ctl w n u hu hn
  rw [e1]
  have e2 := addClient_eq lib (withClient ctl n ⟨w.created.length, confFor ctl u⟩)
    (withCreated w ⟨w.created.length, confFor ctl u⟩) n u hu hn
  rw [e2]
  refine ⟨rfl, ?_, ?_, ?_, ?_, ?_, rfl, ?_⟩
  · simp [withCreated, confFor, withClient]
  · exact lookup_setKey_self _ _ _
  · simpa [withCreated, confFor, withClient] using lookup_setKey_self _ _ _
  · exact entryCount_withClient ctl n _
  · exact entryCount_withClient _ n _
  · intro j hj
    show (setKey (setKey ctl.clients n _) n _).lookup j = _
    rw [lookup_setKey_other _ _ _ _ hj, lookup_setKey_other _ _ _ _ hj]

theorem cmd_addFunc_of_match (lib : Lib) (ctl : Controller) (w : World) (ns : Namespace)
    (hm : nameMatches lib ctl ns.Name) :
    Cmd.addFunc lib ctl w (.ns ns) = addClient lib ctl w ns.Name := by
  obtain ⟨h1, h2⟩ := hm
  simp [Cmd.addFunc, getNamespaceNameIfMatch, h1, h2]

theorem pkg_addFunc_of_match (lib : Lib) (ctl : Controller) (w : World) (ns : Namespace)
    (hm : selectorMatches [("gardener.cloud/role", "shoot")] ns.Labels = true) :
    Pkg.addFunc lib ctl w (.ns ns) = addClient lib ctl w ns.Name := by
  simp [Pkg.addFunc, hm]

theorem addClient_keeps_settings (lib : Lib) (ctl : Controller) (w : World) (n : String) :
    nameMatches lib (addClient lib ctl w n).1 = nameMatches lib ctl := by
  funext k
  unfold nameMatches isDynamicHost addClient
  split
  · rfl
  · split <;> rfl

/-- C7, the claim refuted: starting from an empty registry, the second `Added` event
of `shoot--foo` creates a second client (two clients have been created after it) and
binds the name to that new client, so the registry is not as the first call left it;
this holds for the `addFunc` of cmd/controller.go and of pkg/controller. -/
theorem C7_second_add_creates_second_client :
    (Cmd.addFunc refLib exController exWorld exShootFoo).1.clients =
      [("shoot--foo", some exShootFooClient)] ∧
    (Cmd.addFunc refLib (Cmd.addFunc refLib exController exWorld exShootFoo).1
      (Cmd.addFunc refLib exController exWorld exShootFoo).2 exShootFoo).1.clients =
      [("shoot--foo", some ⟨1, exShootFooClient.cfg⟩)] ∧
    (Cmd.addFunc refLib (Cmd.addFunc refLib exController exWorld exShootFoo).1
      (Cmd.addFunc refLib exController exWorld exShootFoo).2 exShootFoo).2.created =
      [exShootFooClient, ⟨1, exShootFooClient.cfg⟩] ∧
    (Pkg.addFunc refLib (Pkg.addFunc refLib exController exWorld exShootFoo).1
      (Pkg.addFunc refLib exController exWorld exShootFoo).2 exShootFoo).1.clients =
      [("shoot--foo", some ⟨1, exShootFooClient.cfg⟩)] ∧
    (Pkg.addFunc refLib (Pkg.addFunc refLib exController exWorld exShootFoo).1
      (Pkg.addFunc refLib exController exWorld exShootFoo).2 exShootFoo).2.created =
      [exShootFooClient, ⟨1, exShootFooClient.cfg⟩] := by
  decide

/-- C7, amended: for every registry state and every namespace that passes the gate of
`addFunc` (cmd/controller.go: a non-empty name matching the pattern; pkg/controller:
the label `gardener.cloud/role=shoot`), whose host parses as a URL and for which the
client constructor succeeds, handling the `Added` event twice in succession leaves
exactly one registry entry for that name and creates a client in each call: the first
call binds the name to the first client, the second call binds it to the second client
without stopping the first, and every other entry is unchanged. -/
theorem C7_added_twice (lib : Lib) (ctl : Controller) (w : World) (ns : Namespace) (u : String)
    (hu : lib.urlSet (ctl.dynamicHostPrefix ++ ns.Name ++ ctl.dynamicHostSulfix) = some u)
    (hn : lib.clientNewFails (confFor ctl u) = false) :
    (nameMatches lib ctl ns.Name →
      AddedTwice ctl w ns.Name (confFor ctl u) (Cmd.addFunc lib ctl w (.ns ns))
        (Cmd.addFunc lib (Cmd.addFunc lib ctl w (.ns ns)).1 (Cmd.addFunc lib ctl w (.ns ns)).2 (.ns ns))) ∧
    (selectorMatches [("gardener.cloud/role", "shoot")] ns.Labels = true →
      AddedTwice ctl w ns.Name (confFor ctl u) (Pkg.addFunc lib ctl w (.ns ns))
        (Pkg.addFunc lib (Pkg.addFunc lib ctl w (.ns ns)).1 (Pkg.addFunc lib ctl w (.ns ns)).2 (.ns ns))) := by
  constructor
  · intro hm
    have hm2 : nameMatches lib (addClient lib ctl w ns.Name).1 ns.Name := by
      rw [addClient_keeps_settings]; exact hm
    rw [cmd_addFunc_of_match lib ctl w ns hm, cmd_addFunc_of_match lib _ _ ns hm2]
    exact addClient_twice lib ctl w ns.Name u hu hn
  · intro hm
    rw [pkg_addFunc_of_match lib ctl w ns hm, pkg_addFunc_of_match lib _ _ ns hm]
    exact addClient_twice lib ctl w ns.Name u hu hn

/-- C7 amended, at the namespace `shoot--foo` and an empty registry. -/
theorem C7_added_twice_witness :
    AddedTwice exController exWorld "shoot--foo" exShootFooClient.cfg
      (Cmd.addFunc refLib exController exWorld exShootFoo)
      (Cmd.addFunc refLib (Cmd.addFunc refLib exController exWorld exShootFoo).1
        (Cmd.addFunc refLib exController exWorld exShootFoo).2 exShootFoo) ∧
    AddedTwice exController exWorld "shoot--foo" exShootFooClient.cfg
      (Pkg.addFunc refLib exController exWorld exShootFoo)
      (Pkg.addFunc refLib (Pkg.addFunc refLib exController exWorld exShootFoo).1
        (Pkg.addFunc refLib exController exWorld exShootFoo).2 exShootFoo) :=
  ⟨(C7_added_twice refLib exController exWorld
      { Name := "shoot--foo", Labels := [("gardener.cloud/role", "shoot")] }
      "http://loki.shoot--foo.svc:3100/loki/api/v1/push" (by decide) (by decide)).1
      ⟨by decide, by decide⟩,
   (C7_added_twice refLib exController exWorld
      { Name := "shoot--foo", Labels := [("gardener.cloud/role", "shoot")] }
      "http://loki.shoot--foo.svc:3100/loki/api/v1/push" (by decide) (by decide)).2
      (by decide)⟩

/-- C8, the code at namespaces that fail a gate: the `addFunc` of pkg/controller
creates a client for `garden`, which fails both the configured selector `env=prod`
and the name pattern `shoot--`, because it tests the fixed selector
`gardener.cloud/role=shoot` and no pattern; the `addFunc` of cmd/controller.go
creates a client for `shoot--bar`, which fails the selector, because it tests the
pattern only. -/
theorem C8_client_created_for_non_matching_namespace :
    selectorMatches exControllerPkg.labelSelector [("gardener.cloud/role", "shoot")] = false ∧
    isDynamicHost refLib exControllerPkg "garden" = false ∧
    (Pkg.addFunc refLib exControllerPkg exWorld exGarden).1.clients =
      [("garden", some exGardenClient)] ∧
    (Pkg.addFunc refLib exControllerPkg exWorld exGarden).2.created = [exGardenClient] ∧
    selectorMatches exControllerPkg.labelSelector [] = false ∧
    (Cmd.addFunc refLib exControllerPkg exWorld exShootBar).1.clients =
      [("shoot--bar", some ⟨0, confFor exControllerPkg "http://loki.shoot--bar.svc:3100/loki/api/v1/push"⟩)] := by
  decide

theorem delFunc_of_no_match (lib : Lib) (ctl : Controller) (w : World) (ns : Namespace)
    (hm : ¬ nameMatches lib ctl ns.Name) : delFunc lib ctl w (.ns ns) = (ctl, w) := by
  unfold nameMatches at hm
  by_cases h2 : isDynamicHost lib ctl ns.Name = true
  · have h1 : ns.Name = "" := by
      by_contra h1
      exact hm ⟨h1, h2⟩
    simp [delFunc, getNamespaceNameIfMatch, h1]
  · simp [delFunc, getNamespaceNameIfMatch, h2]

theorem delFunc_of_match (lib : Lib) (ctl : Controller) (w : World) (ns : Namespace)
    (hm : nameMatches lib ctl ns.Name) :
    delFunc lib ctl w (.ns ns) =
      match ctl.clients.lookup ns.Name with
      | some (some client) =>
          ({ ctl with clients := deleteKey ctl.clients ns.Name },
           { w with stopped := w.stopped ++ [client] })
      | _ => (ctl, w) := by
  obtain ⟨h1, h2⟩ := hm
  simp [delFunc, getNamespaceNameIfMatch, h1, h2]

theorem deleted_of_match (lib : Lib) (ctl : Controller) (w : World) (ns : Namespace)
    (hm : nameMatches lib ctl ns.Name) (hnil : noNilClient ctl) :
    Deleted ctl w ns.Name (delFunc lib ctl w (.ns ns)) := by
  rw [delFunc_of_match lib ctl w ns hm]
  unfold Deleted
  cases h : ctl.clients.lookup ns.Name with
  | none =>
      refine ⟨h, fun _ _ => rfl, ?_, fun _ => rfl, rfl⟩
      intro c hc
      simp at hc
  | some v =>
      cases v with
      | none => exact absurd rfl (hnil _ (mem_of_lookup_eq_some _ _ _ h))
      | some c =>
          refine ⟨lookup_filter_ne_self _ _, ?_, ?_, ?_, rfl⟩
          · intro j hj
            exact lookup_filter_ne_other _ _ _ hj
          · intro c2 hc2
            simp only [Option.some.injEq] at hc2
            subst hc2
            exact ⟨rfl, rfl⟩
          · intro hc
            simp at hc

theorem addClient_cases (lib : Lib) (ctl : Controller) (w : World) (n : String) :
    (addClient lib ctl w n).1 = ctl ∨ ∃ c, (addClient lib ctl w n).1 = withClient ctl n c := by
  unfold addClient getClientConfig lokiclientNew
  cases lib.urlSet (ctl.dynamicHostPrefix ++ n ++ ctl.dynamicHostSulfix) with
  | none => exact Or.inl rfl
  | some u =>
      by_cases hn : lib.clientNewFails { ctl.clientConfig with URL := some u } = true
      · left; simp [hn]
      · right
        refine ⟨⟨w.created.length, { ctl.clientConfig with URL := some u }⟩, ?_⟩
        simp [hn, withClient]

theorem delFunc_cases (lib : Lib) (ctl : Controller) (w : World) (obj : Obj) :
    (delFunc lib ctl w obj).1 = ctl ∨
      ∃ n, (delFunc lib ctl w obj).1 = { ctl with clients := deleteKey ctl.clients n } := by
  unfold delFunc
  cases getNamespaceNameIfMatch lib ctl w obj with
  | mk nsName w1 =>
      by_cases h : nsName = ""
      · left; simp [h]
      · simp only [h, if_false]
        cases ctl.clients.lookup nsName with
        | none => exact Or.inl rfl
        | some v =>
            cases v with
            | none => exact Or.inl rfl
            | some c => exact Or.inr ⟨nsName, rfl⟩

theorem mem_setKey {β : Type} (m : List (String × β)) (k : String) (v : β) (p : String × β)
    (h : p ∈ setKey m k v) : p ∈ m ∨ p = (k, v) := by
  unfold setKey at h
  rcases List.mem_append.mp h with h | h
  · exact Or.inl (List.mem_filter.mp h).1
  · exact Or.inr (by simpa using h)

theorem keysMatch_withClient (lib : Lib) (ctl : Controller) (n : String) (c : Client)
    (hk : keysMatch lib ctl) (hm : nameMatches lib ctl n) : keysMatch lib (withClient ctl n c) := by
  intro p hp
  rcases mem_setKey _ _ _ _ hp with h | h
  · exact hk p h
  · subst h
    exact ⟨hm, by simp⟩

theorem keysMatch_deleteKey (lib : Lib) (ctl : Controller) (n : String)
    (hk : keysMatch lib ctl) : keysMatch lib { ctl with clients := deleteKey ctl.clients n } := by
  intro p hp
  exact hk p (List.mem_filter.mp hp).1

theorem cmd_addFunc_keysMatch (lib : Lib) (ctl : Controller) (w : World) (obj : Obj)
    (hk : keysMatch lib ctl) : keysMatch lib (Cmd.addFunc lib ctl w obj).1 := by
  cases obj with
  | other => simpa [Cmd.addFunc, getNamespaceNameIfMatch] using hk
  | ns ns =>
      by_cases hm : nameMatches lib ctl ns.Name
      · rw [cmd_addFunc_of_match lib ctl w ns hm]
        rcases addClient_cases lib ctl w ns.Name with h | ⟨c, h⟩
        · rw [h]; exact hk
        · rw [h]; exact keysMatch_withClient lib ctl ns.Name c hk hm
      · have e : Cmd.addFunc lib ctl w (.ns ns) = (ctl, w) := by
          unfold nameMatches at hm
          by_cases h2 : isDynamicHost lib ctl ns.Name = true
          · have h1 : ns.Name = "" := by
              by_contra h1
              exact hm ⟨h1, h2⟩
            simp [Cmd.addFunc, getNamespaceNameIfMatch, h1]
          · simp [Cmd.addFunc, getNamespaceNameIfMatch, h2]
        rw [e]; exact hk

theorem delFunc_keysMatch (lib : Lib) (ctl : Controller) (w : World) (obj : Obj)
    (hk : keysMatch lib ctl) : keysMatch lib (delFunc lib ctl w obj).1 := by
  rcases delFunc_cases lib ctl w obj with h | ⟨n, h⟩
  · rw [h]; exact hk
  · rw [h]; exact keysMatch_deleteKey lib ctl n hk

theorem cmd_reachable_keysMatch (lib : Lib) (ctl : Controller) (w : World)
    (h : Cmd.Reachable lib ctl w) : keysMatch lib ctl := by
  induction h with
  | start ctl w h0 =>
      intro p hp
      rw [h0] at hp
      cases hp
  | added ctl w obj _ ih => exact cmd_addFunc_keysMatch lib ctl w obj ih
  | deleted ctl w obj _ ih => exact delFunc_keysMatch lib ctl w obj ih

theorem pkg_addFunc_noNil (lib : Lib) (ctl : Controller) (w : World) (obj : Obj)
    (hk : noNilClient ctl) : noNilClient (Pkg.addFunc lib ctl w obj).1 := by
  cases obj with
  | other => simpa [Pkg.addFunc] using hk
  | ns ns =>
      by_cases hm : selectorMatches [("gardener.cloud/role", "shoot")] ns.Labels = true
      · rw [pkg_addFunc_of_match lib ctl w ns hm]
        rcases addClient_cases lib ctl w ns.Name with h | ⟨c, h⟩
        · rw [h]; exact hk
        · rw [h]
          intro p hp
          rcases mem_setKey _ _ _ _ hp with h2 | h2
          · exact hk p h2
          · subst h2; simp
      · have e : Pkg.addFunc lib ctl w (.ns ns) = (ctl, w) := by
          simp [Pkg.addFunc, hm]
        rw [e]; exact hk

theorem delFunc_noNil (lib : Lib) (ctl : Controller) (w : World) (obj : Obj)
    (hk : noNilClient ctl) : noNilClient (delFunc lib ctl w obj).1 := by
  rcases delFunc_cases lib ctl w obj with h | ⟨n, h⟩
  · rw [h]; exact hk
  · rw [h]
    intro p hp
    exact hk p (List.mem_filter.mp hp).1

theorem pkg_reachable_noNil (lib : Lib) (ctl : Controller) (w : World)
    (h : Pkg.Reachable lib ctl w) : noNilClient ctl := by
  induction h with
  | start ctl w h0 =>
      intro p hp
      rw [h0] at hp
      cases hp
  | added ctl w obj _ ih => exact pkg_addFunc_noNil lib ctl w obj ih
  | deleted ctl w obj _ ih => exact delFunc_noNil lib ctl w obj ih

theorem lookup_eq_none_of_not_mem {β : Type} (m : List (String × β)) (k : String)
    (h : ∀ p ∈ m, p.1 ≠ k) : m.lookup k = none := by
  cases e : m.lookup k with
  | none => rfl
  | some v => exact absurd rfl (h _ (mem_of_lookup_eq_some m k v e))

/-- C9, the code at the `Deleted` event of `garden` in pkg/controller: the `Added`
event of `garden`, a namespace with the label `gardener.cloud/role=shoot` whose name
fails the pattern `shoot--`, registers a client, because `addFunc` of pkg/controller
does not test the name; this state is reachable, and `delFunc` for `garden` returns at
its name gate, so the entry for `garden` is still there and nothing has been stopped. -/
theorem C9_pkg_entry_survives_delete :
    Pkg.Reachable refLib exControllerGarden exWorldGarden ∧
    exControllerGarden.clients.lookup "garden" = some (some exGardenClient) ∧
    (delFunc refLib exControllerGarden exWorldGarden exGarden).1.clients.lookup "garden" =
      some (some exGardenClient) ∧
    (delFunc refLib exControllerGarden exWorldGarden exGarden).2.stopped = [] :=
  ⟨Pkg.Reachable.added exController exWorld exGarden (Pkg.Reachable.start exController exWorld rfl),
   by decide, by decide, by decide⟩

/-- Where `delFunc` does remove the entry.  For every state of cmd/controller.go
reachable through add/delete events and every namespace, after `delFunc` the registry
has no entry for the name and every other entry is unchanged; if an entry existed its
client was stopped exactly once, and if none existed the call changes nothing, stops
nothing and logs no error.  The same holds for every reachable state of pkg/controller
and every namespace whose name is not empty and matches the name pattern; for any
other namespace `delFunc` changes nothing. -/
theorem delFunc_removes_entry (lib : Lib) (ctl : Controller) (w : World) (ns : Namespace) :
    (Cmd.Reachable lib ctl w → Deleted ctl w ns.Name (delFunc lib ctl w (.ns ns))) ∧
    (Pkg.Reachable lib ctl w → nameMatches lib ctl ns.Name →
      Deleted ctl w ns.Name (delFunc lib ctl w (.ns ns))) ∧
    (¬ nameMatches lib ctl ns.Name → delFunc lib ctl w (.ns ns) = (ctl, w)) := by
  refine ⟨?_, ?_, ?_⟩
  · intro hr
    have hk := cmd_reachable_keysMatch lib ctl w hr
    by_cases hm : nameMatches lib ctl ns.Name
    · exact deleted_of_match lib ctl w ns hm (fun p hp => (hk p hp).2)
    · rw [delFunc_of_no_match lib ctl w ns hm]
      have hnone : ctl.clients.lookup ns.Name = none := by
        apply lookup_eq_none_of_not_mem
        intro p hp e
        exact hm (e ▸ (hk p hp).1)
      refine ⟨hnone, fun _ _ => rfl, ?_, fun _ => rfl, rfl⟩
      intro c hc
      rw [hnone] at hc
      cases hc
  · intro hr hm
    exact deleted_of_match lib ctl w ns hm (pkg_reachable_noNil lib ctl w hr)
  · intro hm
    exact delFunc_of_no_match lib ctl w ns hm

/-- Deleting `shoot--foo` from the registry that holds it, in both controllers, and
deleting `garden`, whose name fails the pattern, from a registry without it. -/
theorem delFunc_removes_entry_examples :
    Deleted exControllerFoo exWorldFoo "shoot--foo"
      (delFunc refLib exControllerFoo exWorldFoo exShootFoo) ∧
    Deleted (Pkg.addFunc refLib exController exWorld exShootFoo).1
      (Pkg.addFunc refLib exController exWorld exShootFoo).2 "shoot--foo"
      (delFunc refLib (Pkg.addFunc refLib exController exWorld exShootFoo).1
        (Pkg.addFunc refLib exController exWorld exShootFoo).2 exShootFoo) ∧
    delFunc refLib exControllerFoo exWorldFoo exGarden = (exControllerFoo, exWorldFoo) :=
  ⟨(delFunc_removes_entry refLib exControllerFoo exWorldFoo
      { Name := "shoot--foo", Labels := [("gardener.cloud/role", "shoot")] }).1
      (Cmd.Reachable.added exController exWorld exShootFoo (Cmd.Reachable.start exController exWorld rfl)),
   (delFunc_removes_entry refLib (Pkg.addFunc refLib exController exWorld exShootFoo).1
      (Pkg.addFunc refLib exController exWorld exShootFoo).2
      { Name := "shoot--foo", Labels := [("gardener.cloud/role", "shoot")] }).2.1
      (Pkg.Reachable.added exController exWorld exShootFoo (Pkg.Reachable.start exController exWorld rfl))
      ⟨by decide, by decide⟩,
   (delFunc_removes_entry refLib exControllerFoo exWorldFoo
      { Name := "garden", Labels := [("gardener.cloud/role", "shoot")] }).2.2
      (fun h => absurd h.2 (by decide))⟩

theorem stopClients_eq (m : List (String × Option Client)) (w : World)
    (hnil : ∀ p ∈ m, p.2 ≠ none) :
    stopClients m w = some { w with stopped := w.stopped ++ m.filterMap Prod.snd } := by
  induction m generalizing w with
  | nil => simp [stopClients]
  | cons p rest ih =>
      obtain ⟨k, v⟩ := p
      cases v with
      | none => exact absurd rfl (hnil (k, none) (List.mem_cons_self _ _))
      | some c =>
          have h2 : ∀ p ∈ rest, p.2 ≠ none := fun p hp => hnil p (List.mem_cons_of_mem _ hp)
          simp [stopClients, ih _ h2, List.filterMap_cons]

/-- C10, the claim refuted: after `Stop` the client registered for `shoot--foo` has
been stopped and the lookups of both controllers still return it. -/
theorem C10_lookup_after_Stop_returns_stopped_client :
    (Stop exControllerFoo exWorldFoo).map (fun s => s.2.stopped) = some [exShootFooClient] ∧
    (Stop exControllerFoo exWorldFoo).map (fun s => Cmd.getClient s.1 "shoot--foo") =
      some (some exShootFooClient) ∧
    (Stop exControllerFoo exWorldFoo).map (fun s => Pkg.GetClient s.1 "shoot--foo") =
      some (some exShootFooClient) := by
  decide

/-- C10, amended: for every registry state without a nil client and with the stop
channel open, `Stop` returns, calls `Stop` once on the client of every registry entry
(each registered client exactly once when the entries hold distinct clients), closes
the stop channel and leaves the registry as it was, so that afterwards the lookups
`getClient` and `GetClient` return for every name the same, now stopped, client as
before. -/
theorem C10_Stop_stops_every_client (ctl : Controller) (w : World)
    (hopen : ctl.stopChnClosed = false) (hnil : noNilClient ctl) :
    ∃ ctl2 w2, Stop ctl w = some (ctl2, w2) ∧
      w2.stopped = w.stopped ++ ctl.clients.filterMap Prod.snd ∧
      ((ctl.clients.filterMap Prod.snd).Nodup →
        ∀ name c, ctl.clients.lookup name = some (some c) →
          w2.stopped.count c = w.stopped.count c + 1) ∧
      w2.created = w.created ∧
      ctl2.stopChnClosed = true ∧
      ctl2.clients = ctl.clients ∧
      ∀ name, Cmd.getClient ctl2 name = Cmd.getClient ctl name ∧
        Pkg.GetClient ctl2 name = Pkg.GetClient ctl name := by
  refine ⟨{ ctl with stopChnClosed := true },
    { w with stopped := w.stopped ++ ctl.clients.filterMap Prod.snd }, ?_, rfl, ?_, rfl, rfl, rfl,
    fun _ => ⟨rfl, rfl⟩⟩
  · simp [Stop, hopen, stopClients_eq ctl.clients w hnil]
  · intro hnd name c hc
    have hmem : c ∈ ctl.clients.filterMap Prod.snd :=
      List.mem_filterMap.mpr ⟨(name, some c), mem_of_lookup_eq_some _ _ _ hc, rfl⟩
    show (w.stopped ++ ctl.clients.filterMap Prod.snd).count c = _
    rw [List.count_append, List.count_eq_one_of_mem hnd hmem]

/-- C10 amended, at the registry that holds the client of `shoot--foo`. -/
theorem C10_Stop_stops_every_client_witness :
    ∃ ctl2 w2, Stop exControllerFoo exWorldFoo = some (ctl2, w2) ∧
      w2.stopped = exWorldFoo.stopped ++ exControllerFoo.clients.filterMap Prod.snd ∧
      ((exControllerFoo.clients.filterMap Prod.snd).Nodup →
        ∀ name c, exControllerFoo.clients.lookup name = some (some c) →
          w2.stopped.count c = exWorldFoo.stopped.count c + 1) ∧
      w2.created = exWorldFoo.created ∧
      ctl2.stopChnClosed = true ∧
      ctl2.clients = exControllerFoo.clients ∧
      ∀ name, Cmd.getClient ctl2 name = Cmd.getClient exControllerFoo name ∧
        Pkg.GetClient ctl2 name = Pkg.GetClient exControllerFoo name :=
  C10_Stop_stops_every_client exControllerFoo exWorldFoo (by decide)
    (by unfold noNilClient; decide)

/-! ### Update events -/

/-- C11: with `updateFunc` modelled from the spec, for every `Updated` event of
pkg/controller the state afterwards is what `addFunc` produces for the new namespace
when the namespace goes from not matching to matching the predicate, what `delFunc`
produces when it goes from matching to not matching, and the state before otherwise.
In cmd/controller.go, whose gate reads the name only, an update of a namespace (which
keeps its name) changes neither the gate nor the registry. -/
theorem C11_update_follows_predicate (lib : Lib) (ctl : Controller) (w : World)
    (oldNs newNs : Namespace) :
    (matchesPredicate lib ctl oldNs = false → matchesPredicate lib ctl newNs = true →
      Pkg.updateFunc lib ctl w (.ns oldNs) (.ns newNs) = Pkg.addFunc lib ctl w (.ns newNs)) ∧
    (matchesPredicate lib ctl oldNs = true → matchesPredicate lib ctl newNs = false →
      Pkg.updateFunc lib ctl w (.ns oldNs) (.ns newNs) = delFunc lib ctl w (.ns newNs)) ∧
    (matchesPredicate lib ctl oldNs = matchesPredicate lib ctl newNs →
      Pkg.updateFunc lib ctl w (.ns oldNs) (.ns newNs) = (ctl, w)) ∧
    (oldNs.Name = newNs.Name →
      (nameMatches lib ctl oldNs.Name ↔ nameMatches lib ctl newNs.Name) ∧
      Cmd.onUpdate ctl w (.ns oldNs) (.ns newNs) = (ctl, w)) := by
  refine ⟨?_, ?_, ?_, ?_⟩
  · intro h1 h2
    simp [Pkg.updateFunc, h1, h2]
  · intro h1 h2
    simp [Pkg.updateFunc, h1, h2]
  · intro h
    cases h2 : matchesPredicate lib ctl newNs <;> simp [Pkg.updateFunc, h, h2]
  · intro h
    exact ⟨by rw [h], rfl⟩

/-- C11 at the namespace `shoot--baz`: when it gains the configured label the update
acts as `addFunc`, when it loses it the update acts as `delFunc`, and an update that
keeps the labels changes nothing. -/
theorem C11_update_follows_predicate_witness :
    Pkg.updateFunc refLib exControllerPkg exWorld (.ns exShootBazOld) (.ns exShootBazNew) =
      Pkg.addFunc refLib exControllerPkg exWorld (.ns exShootBazNew) ∧
    Pkg.updateFunc refLib exControllerPkg exWorld (.ns exShootBazNew) (.ns exShootBazOld) =
      delFunc refLib exControllerPkg exWorld (.ns exShootBazOld) ∧
    Pkg.updateFunc refLib exControllerPkg exWorld (.ns exShootBazNew) (.ns exShootBazNew) =
      (exControllerPkg, exWorld) ∧
    ((nameMatches refLib exControllerPkg exShootBazOld.Name ↔
        nameMatches refLib exControllerPkg exShootBazNew.Name) ∧
      Cmd.onUpdate exControllerPkg exWorld (.ns exShootBazOld) (.ns exShootBazNew) =
        (exControllerPkg, exWorld)) :=
  ⟨(C11_update_follows_predicate refLib exControllerPkg exWorld exShootBazOld exShootBazNew).1
      (by decide) (by decide),
   (C11_update_follows_predicate refLib exControllerPkg exWorld exShootBazNew exShootBazOld).2.1
      (by decide) (by decide),
   (C11_update_follows_predicate refLib exControllerPkg exWorld exShootBazNew exShootBazNew).2.2.1
      rfl,
   (C11_update_follows_predicate refLib exControllerPkg exWorld exShootBazOld exShootBazNew).2.2.2
      rfl⟩

/-! ### The host mapping -/

/-- C12, the code at a tree with two entries: the leaf `b` resolves in the record to
`shoot--foo` and is the only leaf that does, so the claim asks for `shoot--foo`; the
walk meets the inner mapping `a` first, finds `a` as a mapping in the record, and
returns the result of that subtree, the empty string, without going on to `b`. -/
theorem C12_inner_mapping_ends_the_walk :
    resolvedLeaves exRecordTwo exHostPathTwo = ["shoot--foo"] ∧
    firstResolvedLeaf exRecordTwo exHostPathTwo = "shoot--foo" ∧
    getDynamicHostName exRecordTwo exHostPathTwo = "" := by
  decide

mutual
theorem hostEntry_of_no_leaf (records : Fields) (k : String) :
    (v : Value) → resolvedLeavesEntry records k v = [] →
      getDynamicHostNameEntry records k v = none ∨ getDynamicHostNameEntry records k v = some ""
  | .strMap nextKey, h => by
      unfold resolvedLeavesEntry at h
      unfold getDynamicHostNameEntry
      cases hl : records.lookup k with
      | none => left; rfl
      | some x =>
          cases x with
          | strMap nextValue =>
              right
              rw [hl] at h
              simp only at h
              simp only
              rw [host_of_no_leaf nextValue nextKey h]
          | _ => left; rfl
  | .str s, h => by
      unfold resolvedLeavesEntry at h
      unfold getDynamicHostNameEntry
      cases hl : getRecordValue k records with
      | none => left; rfl
      | some x => rw [hl] at h; simp at h
  | .nil, _ => Or.inl rfl
  | .bool _, _ => Or.inl rfl
  | .int _, _ => Or.inl rfl
  | .bytes _, _ => Or.inl rfl
  | .seq _, _ => Or.inl rfl
  | .rawMap _, _ => Or.inl rfl
  | .nilSeq, _ => Or.inl rfl
theorem host_of_no_leaf (records : Fields) :
    (m : Fields) → resolvedLeaves records m = [] → getDynamicHostName records m = ""
  | [], _ => rfl
  | (k, v) :: rest, h => by
      unfold resolvedLeaves at h
      have h1 := (List.append_eq_nil.mp h).1
      have h2 := (List.append_eq_nil.mp h).2
      unfold getDynamicHostName
      rcases hostEntry_of_no_leaf records k v h1 with e | e
      · rw [e]; exact host_of_no_leaf records rest h2
      · rw [e]
end

/-- C15: for every record `getDynamicHostName` returns the empty string on an empty
mapping tree, which is also what `SendRecord` passes for a nil tree, and for every
mapping tree it returns the empty string when no string leaf of the tree has a path
that resolves in the record. -/
theorem C15_empty_when_nothing_resolves (records : Fields) :
    getDynamicHostName records [] = "" ∧
    getDynamicHostName records ((none : Option Fields).getD []) = "" ∧
    ∀ mapping, resolvedLeaves records mapping = [] → getDynamicHostName records mapping = "" :=
  ⟨rfl, rfl, fun mapping h => host_of_no_leaf records mapping h⟩

/-- C15 at Scenario A's record: the tree `kubernetes.pod_name` has no leaf that
resolves, and the result is the empty string. -/
theorem C15_empty_when_nothing_resolves_witness :
    getDynamicHostName (toStringMap exRecordA) [("kubernetes", .strMap [("pod_name", .str "pod")])] = "" :=
  (C15_empty_when_nothing_resolves (toStringMap exRecordA)).2.2
    [("kubernetes", .strMap [("pod_name", .str "pod")])] (by decide)

theorem host_cons (records : Fields) (k : String) (v : Value) (rest : Fields) :
    getDynamicHostName records ((k, v) :: rest) =
      match getDynamicHostNameEntry records k v with
      | some s => s
      | none => getDynamicHostName records rest := by
  rw [getDynamicHostName]

theorem getRecordValue_isSome (k : String) (records : Fields) :
    (getRecordValue k records).isSome = (records.lookup k).isSome := by
  unfold getRecordValue
  cases records.lookup k with
  | none => rfl
  | some v => cases v <;> rfl

theorem endsWalk_iff (records : Fields) (k : String) (v : Value) :
    endsWalk records k v = (getDynamicHostNameEntry records k v).isSome := by
  cases v with
  | strMap s =>
      unfold endsWalk getDynamicHostNameEntry
      cases records.lookup k with
      | none => rfl
      | some x => cases x <;> rfl
  | str s =>
      unfold endsWalk getDynamicHostNameEntry
      exact (getRecordValue_isSome k records).symm
  | _ => rfl

theorem hostEntry_none_of_not_ends (records : Fields) (k : String) (v : Value)
    (h : endsWalk records k v = false) : getDynamicHostNameEntry records k v = none := by
  rw [endsWalk_iff] at h
  cases e : getDynamicHostNameEntry records k v with
  | none => rfl
  | some s => rw [e] at h; cases h

theorem host_of_none_ends (records : Fields) (l : Fields)
    (h : l.all (fun e => !endsWalk records e.1 e.2) = true) : getDynamicHostName records l = "" := by
  induction l with
  | nil => rfl
  | cons p rest ih =>
      obtain ⟨k, v⟩ := p
      simp only [List.all_cons, Bool.and_eq_true, Bool.not_eq_true'] at h
      rw [host_cons, hostEntry_none_of_not_ends records k v h.1]
      exact ih h.2

theorem reordered_none_ends (records : Fields) {l l2 : Fields} (h : Reordered l l2) :
    l.all (fun e => !endsWalk records e.1 e.2) = l2.all (fun e => !endsWalk records e.1 e.2) := by
  induction h with
  | nil => rfl
  | cons k v _ ih => simp only [List.all_cons, ih]
  | inner k _ _ _ ih =>
      simp only [List.all_cons, ih]
      rfl
  | swap a b l =>
      simp only [List.all_cons]
      rw [← Bool.and_assoc, ← Bool.and_assoc, Bool.and_comm (!endsWalk records a.1 a.2)]
  | trans _ _ ih1 ih2 => rw [ih1, ih2]

theorem singleWalk_cons (records : Fields) (k : String) (v : Value) (rest : Fields) :
    singleWalk records ((k, v) :: rest) = true ↔
      (endsWalk records k v = true → rest.all (fun e => !endsWalk records e.1 e.2) = true) ∧
        singleWalkEntry records k v = true ∧ singleWalk records rest = true := by
  rw [singleWalk]
  cases endsWalk records k v <;> simp [and_assoc]

theorem reordered_host {l l2 : Fields} (h : Reordered l l2) :
    ∀ records, singleWalk records l = true →
      singleWalk records l2 = true ∧ getDynamicHostName records l = getDynamicHostName records l2 := by
  induction h with
  | nil => intro records hs; exact ⟨hs, rfl⟩
  | @cons k v l l2 h ih =>
      intro records hs
      rw [singleWalk_cons] at hs
      obtain ⟨h1, h2, h3⟩ := hs
      obtain ⟨i1, i2⟩ := ih records h3
      refine ⟨?_, ?_⟩
      · rw [singleWalk_cons]
        exact ⟨fun e => by rw [← reordered_none_ends records h]; exact h1 e, h2, i1⟩
      · rw [host_cons, host_cons, i2]
  | @inner k s s2 l l2 hs h ihs ih =>
      intro records hw
      rw [singleWalk_cons] at hw
      obtain ⟨h1, h2, h3⟩ := hw
      obtain ⟨i1, i2⟩ := ih records h3
      have key : singleWalkEntry records k (.strMap s2) = true ∧
          getDynamicHostNameEntry records k (.strMap s) =
            getDynamicHostNameEntry records k (.strMap s2) := by
        unfold singleWalkEntry at h2
        unfold singleWalkEntry getDynamicHostNameEntry
        cases hl : records.lookup k with
        | none => exact ⟨rfl, rfl⟩
        | some x =>
            cases x with
            | strMap r =>
                rw [hl] at h2
                simp only at h2
                obtain ⟨j1, j2⟩ := ihs r h2
                exact ⟨j1, by simp only [j2]⟩
            | _ => exact ⟨rfl, rfl⟩
      refine ⟨?_, ?_⟩
      · rw [singleWalk_cons]
        refine ⟨fun e => ?_, key.1, i1⟩
        rw [← reordered_none_ends records h]
        exact h1 e
      · rw [host_cons, host_cons, key.2, i2]
  | swap a b l =>
      intro records hs
      obtain ⟨ka, va⟩ := a
      obtain ⟨kb, vb⟩ := b
      rw [singleWalk_cons, singleWalk_cons] at hs
      obtain ⟨h1, h2, h3, h4, h5⟩ := hs
      simp only [List.all_cons, Bool.and_eq_true, Bool.not_eq_true'] at h1
      refine ⟨?_, ?_⟩
      · rw [singleWalk_cons, singleWalk_cons]
        refine ⟨fun e => ?_, h4, fun e => ?_, h2, h5⟩
        · simp only [List.all_cons, Bool.and_eq_true, Bool.not_eq_true']
          cases ea : endsWalk records ka va with
          | false => exact ⟨rfl, h3 e⟩
          | true => rw [(h1 ea).1] at e; cases e
        · exact (h1 e).2
      · rw [host_cons, host_cons, host_cons, host_cons]
        cases ea : endsWalk records ka va with
        | false =>
            rw [hostEntry_none_of_not_ends records ka va ea]
        | true =>
            rw [hostEntry_none_of_not_ends records kb vb (h1 ea).1]
  | trans _ _ ih1 ih2 =>
      intro records hs
      obtain ⟨i1, i2⟩ := ih1 records hs
      obtain ⟨j1, j2⟩ := ih2 records i1
      exact ⟨j1, i2.trans j2⟩

/-- C13, the claim refuted: the tree with the two leaves `namespace_name` and
`pod_name`, read in its two iteration orders, gives two different host strings for the
same record. -/
theorem C13_host_depends_on_iteration_order :
    Reordered exHostPathLeaves [("pod_name", .str "host"), ("namespace_name", .str "host")] ∧
    getDynamicHostName exRecordLeaves exHostPathLeaves = "shoot--foo" ∧
    getDynamicHostName exRecordLeaves [("pod_name", .str "host"), ("namespace_name", .str "host")] =
      "web-1" :=
  ⟨Reordered.swap _ _ _, by decide, by decide⟩

/-- C13, amended: for a fixed record and a fixed host mapping tree in which, at every
level the walk can enter, at most one entry ends the loop (a string leaf whose key is a
field of the record, or an inner mapping whose key is a nested mapping of the record),
the host string returned by `getDynamicHostName` is the same for every order in which
the entries of each mapping level are iterated. -/
theorem C13_host_same_for_every_order (records mapping mapping2 : Fields)
    (h : Reordered mapping mapping2) (hs : singleWalk records mapping = true) :
    getDynamicHostName records mapping = getDynamicHostName records mapping2 :=
  (reordered_host h records hs).2

/-- C13 amended, at Scenario A's record and a tree whose leaf `cluster` is no field of
the record: both iteration orders give `shoot--foo`. -/
theorem C13_host_same_for_every_order_witness :
    getDynamicHostName (toStringMap exRecordA) exHostPathCluster =
      getDynamicHostName (toStringMap exRecordA)
        [("kubernetes", .strMap [("namespace_name", .str "host")]), ("cluster", .str "host")] :=
  C13_host_same_for_every_order (toStringMap exRecordA) exHostPathCluster
    [("kubernetes", .strMap [("namespace_name", .str "host")]), ("cluster", .str "host")]
    (Reordered.swap _ _ _) (by decide)

/-! ### Label assignments -/

theorem applyPairs_append (res : LabelSet) (a b : List (String × String)) :
    applyPairs res (a ++ b) = applyPairs (applyPairs res a) b := by
  unfold applyPairs
  rw [List.foldl_append]

theorem applyPairs_cons (res : LabelSet) (p : String × String) (ps : List (String × String)) :
    applyPairs res (p :: ps) = applyPairs (setKey res p.1 p.2) ps := rfl

theorem lookup_applyPairs_other (res : LabelSet) (ps : List (String × String)) (n : String)
    (h : ∀ p ∈ ps, p.1 ≠ n) : (applyPairs res ps).lookup n = res.lookup n := by
  induction ps generalizing res with
  | nil => rfl
  | cons p rest ih =>
      rw [applyPairs_cons, ih _ (fun q hq => h q (List.mem_cons_of_mem _ hq))]
      exact lookup_setKey_other _ _ _ _ (fun e => h p (List.mem_cons_self _ _) e.symm)

theorem lookup_applyPairs_mem (res : LabelSet) (ps : List (String × String)) (n v : String)
    (hm : (n, v) ∈ ps) (hf : ∀ v2, (n, v2) ∈ ps → v2 = v) :
    (applyPairs res ps).lookup n = some v := by
  induction ps generalizing res with
  | nil => cases hm
  | cons p rest ih =>
      rw [applyPairs_cons]
      by_cases hr : (n, v) ∈ rest
      · exact ih _ hr (fun v2 h2 => hf v2 (List.mem_cons_of_mem _ h2))
      · have hp : p = (n, v) := by
          rcases List.mem_cons.mp hm with e | e
          · exact e.symm
          · exact absurd e hr
        subst hp
        have hno : ∀ q ∈ rest, q.1 ≠ n := by
          intro q hq e
          have : q = (n, v) := by
            obtain ⟨a, b⟩ := q
            simp only at e
            subst e
            rw [hf b (List.mem_cons_of_mem _ hq)]
          exact hr (this ▸ hq)
        rw [lookup_applyPairs_other _ _ _ hno]
        exact lookup_setKey_self _ _ _

mutual
theorem mapLabelsEntry_eq (lib : Lib) (records : Fields) (k : String) :
    (v : Value) → (res : LabelSet) →
      mapLabelsEntry lib records k v res = applyPairs res (assignmentsEntry lib records k v)
  | .strMap nextKey, res => by
      unfold mapLabelsEntry assignmentsEntry
      cases hl : records.lookup k with
      | none => rfl
      | some x =>
          cases x with
          | strMap nextValue => exact mapLabels_eq lib nextValue nextKey res
          | _ => rfl
  | .str nextKey, res => by
      unfold mapLabelsEntry assignmentsEntry
      cases getRecordValue k records with
      | none => rfl
      | some value =>
          by_cases hc : (lib.labelValueIsValid value && lib.labelNameIsValid nextKey) = true
          · simp only [if_pos hc]; rfl
          · simp only [if_neg hc]; rfl
  | .nil, _ => rfl
  | .bool _, _ => rfl
  | .int _, _ => rfl
  | .bytes _, _ => rfl
  | .seq _, _ => rfl
  | .rawMap _, _ => rfl
  | .nilSeq, _ => rfl
theorem mapLabels_eq (lib : Lib) (records : Fields) :
    (m : Fields) → (res : LabelSet) →
      mapLabels lib records m res = applyPairs res (assignments lib records m)
  | [], _ => rfl
  | (k, v) :: rest, res => by
      rw [mapLabels, assignments, applyPairs_append, mapLabelsEntry_eq lib records k v res]
      exact mapLabels_eq lib records rest _
end

theorem reordered_assignments (lib : Lib) {l l2 : Fields} (h : Reordered l l2) :
    ∀ records, (assignments lib records l).Perm (assignments lib records l2) := by
  induction h with
  | nil => intro records; exact List.Perm.refl _
  | cons k v _ ih =>
      intro records
      rw [assignments, assignments]
      exact List.Perm.append_left _ (ih records)
  | @inner k s s2 l l2 _ _ ihs ih =>
      intro records
      rw [assignments, assignments]
      refine List.Perm.append ?_ (ih records)
      unfold assignmentsEntry
      cases records.lookup k with
      | none => exact List.Perm.refl _
      | some x =>
          cases x with
          | strMap r => exact ihs r
          | _ => exact List.Perm.refl _
  | swap a b l =>
      intro records
      obtain ⟨ka, va⟩ := a
      obtain ⟨kb, vb⟩ := b
      rw [assignments, assignments, assignments, assignments, ← List.append_assoc,
        ← List.append_assoc]
      exact List.Perm.append_right _ List.perm_append_comm
  | trans _ _ ih1 ih2 =>
      intro records
      exact (ih1 records).trans (ih2 records)

theorem lookup_applyPairs_perm (res : LabelSet) (ps qs : List (String × String))
    (hp : ps.Perm qs)
    (hf : ∀ n v v2, (n, v) ∈ ps → (n, v2) ∈ ps → v = v2) (n : String) :
    (applyPairs res ps).lookup n = (applyPairs res qs).lookup n := by
  by_cases hex : ∃ v, (n, v) ∈ ps
  · obtain ⟨v, hv⟩ := hex
    rw [lookup_applyPairs_mem res ps n v hv (fun v2 h2 => hf n v2 v h2 hv),
      lookup_applyPairs_mem res qs n v (hp.mem_iff.mp hv)
        (fun v2 h2 => hf n v2 v (hp.mem_iff.mpr h2) hv)]
  · have h1 : ∀ p ∈ ps, p.1 ≠ n := by
      intro p hpm e
      exact hex ⟨p.2, by rw [← e]; exact hpm⟩
    have h2 : ∀ p ∈ qs, p.1 ≠ n := fun p hpm => h1 p (hp.mem_iff.mpr hpm)
    rw [lookup_applyPairs_other res ps n h1, lookup_applyPairs_other res qs n h2]

/-- C14, the claim refuted: the tree whose leaves `namespace_name` and `pod_name` both
designate the label `name`, read in its two iteration orders, leaves two different
label sets for the same record. -/
theorem C14_labels_depend_on_iteration_order :
    Reordered exLabelMapSame [("pod_name", .str "name"), ("namespace_name", .str "name")] ∧
    mapLabels refLib exRecordLeaves exLabelMapSame [] = [("name", "web-1")] ∧
    mapLabels refLib exRecordLeaves [("pod_name", .str "name"), ("namespace_name", .str "name")] [] =
      [("name", "shoot--foo")] :=
  ⟨Reordered.swap _ _ _, by decide, by decide⟩

/-- C14, amended: for a fixed record, a fixed label mapping tree and a fixed initial
label set, the label set left by `mapLabels` binds every label name to the same value
for every order in which the entries of each mapping level are iterated, provided
that any two leaves that are assigned to the same label name carry the same value (of
two assigned leaves with one name and different values, the one visited later wins). -/
theorem C14_labels_same_for_every_order (lib : Lib) (records mapping mapping2 : Fields)
    (res : LabelSet) (h : Reordered mapping mapping2)
    (hf : ∀ n v v2, (n, v) ∈ assignments lib records mapping →
      (n, v2) ∈ assignments lib records mapping → v = v2) :
    ∀ n, (mapLabels lib records mapping res).lookup n =
      (mapLabels lib records mapping2 res).lookup n := by
  intro n
  rw [mapLabels_eq, mapLabels_eq]
  exact lookup_applyPairs_perm res _ _ (reordered_assignments lib h records) hf n

/-- C14 amended, at a record with Kubernetes metadata and a tree with three leaves
that designate three labels, read in two orders: the labels `pod`, `stream` and `job`
are bound alike. -/
theorem C14_labels_same_for_every_order_witness :
    (mapLabels refLib exRecordPod exLabelMap [("job", "fluent-bit")]).lookup "pod" =
      (mapLabels refLib exRecordPod
        [("stream", .str "stream"),
         ("kubernetes", .strMap [("namespace_name", .str "namespace"), ("pod_name", .str "pod")])]
        [("job", "fluent-bit")]).lookup "pod" ∧
    (mapLabels refLib exRecordPod exLabelMap [("job", "fluent-bit")]).lookup "stream" =
      (mapLabels refLib exRecordPod
        [("stream", .str "stream"),
         ("kubernetes", .strMap [("namespace_name", .str "namespace"), ("pod_name", .str "pod")])]
        [("job", "fluent-bit")]).lookup "stream" ∧
    (mapLabels refLib exRecordPod exLabelMap [("job", "fluent-bit")]).lookup "job" =
      (mapLabels refLib exRecordPod
        [("stream", .str "stream"),
         ("kubernetes", .strMap [("namespace_name", .str "namespace"), ("pod_name", .str "pod")])]
        [("job", "fluent-bit")]).lookup "job" := by
  have h := C14_labels_same_for_every_order refLib exRecordPod exLabelMap
    [("stream", .str "stream"),
     ("kubernetes", .strMap [("namespace_name", .str "namespace"), ("pod_name", .str "pod")])]
    [("job", "fluent-bit")] (Reordered.swap _ _ _)
    (by
      intro n v v2 h1 h2
      have e : assignments refLib exRecordPod exLabelMap =
          [("namespace", "shoot--foo"), ("pod", "web-1"), ("stream", "stderr")] := by decide
      rw [e] at h1 h2
      simp only [List.mem_cons, Prod.mk.injEq, List.mem_singleton, List.not_mem_nil, or_false] at h1 h2
      rcases h1 with ⟨a, b⟩ | ⟨a, b⟩ | ⟨a, b⟩ <;> rcases h2 with ⟨c, d⟩ | ⟨c, d⟩ | ⟨c, d⟩ <;>
        subst a <;> subst b <;> first | exact d.symm | (exact absurd c (by decide)))
  exact ⟨h "pod", h "stream", h "job"⟩

theorem assignmentsEntry_subset (lib : Lib) (records : Fields) (k : String) (v : Value)
    (m : Fields) (hm : (k, v) ∈ m) (p : String × String)
    (hp : p ∈ assignmentsEntry lib records k v) : p ∈ assignments lib records m := by
  induction m with
  | nil => cases hm
  | cons e rest ih =>
      obtain ⟨k2, v2⟩ := e
      rw [assignments]
      rcases List.mem_cons.mp hm with h | h
      · injection h with h1 h2
        subst h1; subst h2
        exact List.mem_append_left _ hp
      · exact List.mem_append_right _ (ih h)

theorem leafAt_assigned (lib : Lib) {records mapping : Fields} {name value : String}
    (hl : LeafAt records mapping name value) (hn : lib.labelNameIsValid name = true)
    (hv : lib.labelValueIsValid value = true) : (name, value) ∈ assignments lib records mapping := by
  induction hl with
  | atLeaf k name value hm hr =>
      apply assignmentsEntry_subset lib _ k (.str name) _ hm
      unfold assignmentsEntry
      rw [hr]
      simp [hn, hv]
  | inSub k sub r name value hm hr _ ih =>
      apply assignmentsEntry_subset lib _ k (.strMap sub) _ hm
      unfold assignmentsEntry
      rw [hr]
      exact ih hn hv

mutual
theorem assignmentsEntry_sublist (lib : Lib) (records : Fields) (k : String) :
    (v : Value) → ((assignmentsEntry lib records k v).map Prod.fst).Sublist (leafNamesEntry v)
  | .strMap nextKey => by
      unfold assignmentsEntry leafNamesEntry
      cases records.lookup k with
      | none => exact List.nil_sublist _
      | some x =>
          cases x with
          | strMap nextValue => exact assignments_sublist lib nextValue nextKey
          | _ => exact List.nil_sublist _
  | .str nextKey => by
      unfold assignmentsEntry leafNamesEntry
      cases getRecordValue k records with
      | none => exact List.nil_sublist _
      | some value =>
          by_cases hc : (lib.labelValueIsValid value && lib.labelNameIsValid nextKey) = true
          · simp only [if_pos hc]; exact List.Sublist.refl _
          · simp only [if_neg hc]; exact List.nil_sublist _
  | .nil => List.Sublist.refl _
  | .bool _ => List.Sublist.refl _
  | .int _ => List.Sublist.refl _
  | .bytes _ => List.Sublist.refl _
  | .seq _ => List.Sublist.refl _
  | .rawMap _ => List.Sublist.refl _
  | .nilSeq => List.Sublist.refl _
theorem assignments_sublist (lib : Lib) (records : Fields) :
    (m : Fields) → ((assignments lib records m).map Prod.fst).Sublist (leafNames m)
  | [] => List.Sublist.refl _
  | (k, v) :: rest => by
      rw [assignments, leafNames, List.map_append]
      exact List.Sublist.append (assignmentsEntry_sublist lib records k v)
        (assignments_sublist lib records rest)
end

theorem value_unique_of_count_le_one (ps : List (String × String)) (n v v2 : String)
    (hc : (ps.map Prod.fst).count n ≤ 1) (h1 : (n, v) ∈ ps) (h2 : (n, v2) ∈ ps) : v = v2 := by
  induction ps with
  | nil => cases h1
  | cons p rest ih =>
      obtain ⟨a, b⟩ := p
      by_cases e : a = n
      · subst e
        rw [List.map_cons, List.count_cons_self] at hc
        have h0 : (rest.map Prod.fst).count a = 0 := by omega
        have hno : ∀ w, (a, w) ∉ rest := by
          intro w hw
          have : a ∈ rest.map Prod.fst := List.mem_map.mpr ⟨(a, w), hw, rfl⟩
          exact (List.count_eq_zero.mp h0) this
        rcases List.mem_cons.mp h1 with e1 | e1
        · rcases List.mem_cons.mp h2 with e2 | e2
          · injection e1 with _ e1
            injection e2 with _ e2
            rw [e1, e2]
          · exact absurd e2 (hno _)
        · exact absurd e1 (hno _)
      · rw [List.map_cons, List.count_cons_of_ne (fun h => e h.symm)] at hc
        have m1 : (n, v) ∈ rest := by
          rcases List.mem_cons.mp h1 with e1 | e1
          · injection e1 with e1 _; exact absurd e1.symm e
          · exact e1
        have m2 : (n, v2) ∈ rest := by
          rcases List.mem_cons.mp h2 with e2 | e2
          · injection e2 with e2 _; exact absurd e2.symm e
          · exact e2
        exact ih hc m1 m2

/-- C17: for every mapping tree, record and initial label set, if a string leaf that
designates the label `name` sits below a path of inner-mapping keys each of which is a
nested mapping of the record, the record's mapping at that path has the leaf's key as
a field with string form `value`, `name` is a valid label name, `value` is a valid
label value, and no other leaf of the tree designates `name`, then after `mapLabels`
the label set maps `name` to `value`. -/
theorem C17_leaf_is_assigned (lib : Lib) (records mapping : Fields) (res : LabelSet)
    (name value : String) (hl : LeafAt records mapping name value)
    (hn : lib.labelNameIsValid name = true) (hv : lib.labelValueIsValid value = true)
    (hu : (leafNames mapping).count name = 1) :
    (mapLabels lib records mapping res).lookup name = some value := by
  rw [mapLabels_eq]
  have hm := leafAt_assigned lib hl hn hv
  have hc : ((assignments lib records mapping).map Prod.fst).count name ≤ 1 := by
    rw [← hu]
    exact (assignments_sublist lib records mapping).count_le name
  exact lookup_applyPairs_mem res _ name value hm
    (fun v2 h2 => value_unique_of_count_le_one _ name v2 value hc h2 hm)

/-- C17 at the leaf `kubernetes.pod_name ↦ pod` and a record whose pod name is
`web-1`: the label `pod` is `web-1` afterwards. -/
theorem C17_leaf_is_assigned_witness :
    (mapLabels refLib exRecordPod exLabelMap [("job", "fluent-bit")]).lookup "pod" = some "web-1" :=
  C17_leaf_is_assigned refLib exRecordPod exLabelMap [("job", "fluent-bit")] "pod" "web-1"
    (LeafAt.inSub "kubernetes" [("namespace_name", .str "namespace"), ("pod_name", .str "pod")]
      [("namespace_name", .str "shoot--foo"), ("pod_name", .str "web-1")] "pod" "web-1"
      (List.mem_cons_self _ _) rfl
      (LeafAt.atLeaf "pod_name" "pod" "web-1" (List.mem_cons_of_mem _ (List.mem_cons_self _ _))
        (by decide)))
    (by decide) (by decide) (by decide)

/-! ### Automatic labels -/

theorem autoLabelsInner_eq (ls : Fields) (lbs : LabelSet) :
    autoLabelsInner ls lbs = applyPairs lbs (ls.map (fun e => (replacer e.1, sprintV e.2))) := by
  induction ls generalizing lbs with
  | nil => rfl
  | cons e rest ih =>
      obtain ⟨m, n⟩ := e
      rw [autoLabelsInner, ih, List.map_cons, applyPairs_cons]

theorem autoLabelsLoop_cons (k : String) (v : Value) (rest : Fields) (lbs : LabelSet) :
    autoLabelsLoop ((k, v) :: rest) lbs =
      if k = "labels" then
        match v with
        | .strMap ls => autoLabelsLoop rest (autoLabelsInner ls lbs)
        | _ => none
      else if k = "docker_id" ∨ k = "pod_id" ∨ k = "annotations" then
        autoLabelsLoop rest lbs
      else
        autoLabelsLoop rest (setKey lbs k (sprintV v)) := by
  cases v <;> rfl

theorem autoLabelsLoop_eq (kube : Fields) (lbs : LabelSet)
    (hl : ∀ v, ("labels", v) ∈ kube → ∃ ls, v = Value.strMap ls) :
    autoLabelsLoop kube lbs = some (applyPairs lbs (autoPairs kube)) := by
  induction kube generalizing lbs with
  | nil => rfl
  | cons e rest ih =>
      obtain ⟨k, v⟩ := e
      have hrest : ∀ v, ("labels", v) ∈ rest → ∃ ls, v = Value.strMap ls :=
        fun v hv => hl v (List.mem_cons_of_mem _ hv)
      rw [autoLabelsLoop_cons, autoPairs, applyPairs_append]
      by_cases h1 : k = "labels"
      · subst h1
        obtain ⟨ls, hls⟩ := hl v (List.mem_cons_self _ _)
        subst hls
        simp only [if_true]
        rw [ih _ hrest, autoLabelsInner_eq]
        simp [autoPairsEntry]
      · by_cases h2 : k = "docker_id" ∨ k = "pod_id" ∨ k = "annotations"
        · simp only [if_neg h1, if_pos h2]
          rw [ih _ hrest]
          simp [autoPairsEntry, h1, h2, applyPairs]
        · simp only [if_neg h1, if_neg h2]
          rw [ih _ hrest]
          simp [autoPairsEntry, h1, h2, applyPairs]

/-- C16, the claim refuted: for Kubernetes metadata with the field `host=node-1` and
the pod label `host=edge` the claim asks for the label `host` to be `node-1` (entry
`host`) and `edge` (entry of `labels`); after `autoLabels` it is `edge`. -/
theorem C16_colliding_names_keep_the_later_value :
    autoLabels [("kubernetes", .strMap exKubeHost)] [] = .done [("host", "edge")] ∧
    autoPairs exKubeHost = [("host", "node-1"), ("host", "edge")] ∧
    List.lookup "host" [("host", "edge")] ≠ some "node-1" := by
  decide

/-- C16, amended: when the record has no `kubernetes` field, `autoLabels` returns the
error and leaves the label set untouched.  For every record whose `kubernetes` field is
a mapping whose `labels` entry, if there is one, is a mapping, `autoLabels` returns and
the label set then maps every name that the claim lists for some entry (the replaced
name of an entry of `labels`; nothing for `docker_id`, `pod_id`, `annotations`; the key
otherwise) to the value listed with it, provided every entry that yields this name
yields this value, and no other label is added or changed. -/
theorem C16_autoLabels_pairs (records : Fields) (lbs : LabelSet) :
    (records.lookup "kubernetes" = none →
      autoLabels records lbs = .notFound "kubernetes labels not found, no labels will be added") ∧
    (∀ kube, records.lookup "kubernetes" = some (.strMap kube) →
      (∀ v, ("labels", v) ∈ kube → ∃ ls, v = Value.strMap ls) →
      ∃ lbs2, autoLabels records lbs = .done lbs2 ∧
        (∀ n v, (n, v) ∈ autoPairs kube → (∀ v2, (n, v2) ∈ autoPairs kube → v2 = v) →
          lbs2.lookup n = some v) ∧
        (∀ n, (∀ v, (n, v) ∉ autoPairs kube) → lbs2.lookup n = lbs.lookup n)) := by
  constructor
  · intro h
    simp [autoLabels, h]
  · intro kube hk hl
    refine ⟨applyPairs lbs (autoPairs kube), ?_, ?_, ?_⟩
    · simp [autoLabels, hk, autoLabelsLoop_eq kube lbs hl]
    · intro n v hm hf
      exact lookup_applyPairs_mem lbs _ n v hm hf
    · intro n hno
      apply lookup_applyPairs_other
      intro p hp e
      exact hno p.2 (by rw [← e]; exact hp)

/-- C16 amended, at a record without `kubernetes` and at Scenario A's metadata with a
pod id: the label `app_kubernetes_io_name` is `web`, `namespace_name` is `shoot--foo`,
and the label `pod_id`, which no entry yields, is as before. -/
theorem C16_autoLabels_pairs_witness :
    autoLabels [("message", .str "hello")] [("job", "fluent-bit")] =
      .notFound "kubernetes labels not found, no labels will be added" ∧
    ∃ lbs2, autoLabels [("kubernetes", .strMap exKubeA)] [("job", "fluent-bit")] = .done lbs2 ∧
      (∀ n v, (n, v) ∈ autoPairs exKubeA → (∀ v2, (n, v2) ∈ autoPairs exKubeA → v2 = v) →
        lbs2.lookup n = some v) ∧
      (∀ n, (∀ v, (n, v) ∉ autoPairs exKubeA) → lbs2.lookup n = List.lookup n [("job", "fluent-bit")]) :=
  ⟨(C16_autoLabels_pairs [("message", .str "hello")] [("job", "fluent-bit")]).1 rfl,
   (C16_autoLabels_pairs [("kubernetes", .strMap exKubeA)] [("job", "fluent-bit")]).2 exKubeA rfl
     (by
       intro v hv
       simp only [exKubeA, List.mem_cons, Prod.mk.injEq, List.not_mem_nil, or_false] at hv
       rcases hv with ⟨h, _⟩ | ⟨h, _⟩ | ⟨_, h⟩
       · exact absurd h (by decide)
       · exact absurd h (by decide)
       · exact ⟨_, h⟩)⟩

/-! ### Explicit label keys -/

theorem extractLabelsLoop_eq (lib : Lib) (records : Fields) (keys : List String) (res : LabelSet) :
    extractLabelsLoop lib records keys res =
      applyPairs res (keys.filterMap (extractPair lib records)) := by
  induction keys generalizing res with
  | nil => rfl
  | cons k rest ih =>
      rw [extractLabelsLoop, List.filterMap_cons]
      unfold extractPair
      cases hl : records.lookup k with
      | none => simp only; exact ih res
      | some v =>
          simp only
          by_cases h1 : lib.labelNameIsValid k = true
          · by_cases h2 : lib.labelValueIsValid (sprintV v) = true
            · simp only [h1, h2, Bool.not_true, Bool.false_eq_true, if_false, Bool.and_self, if_true]
              rw [applyPairs_cons]
              exact ih _
            · simp only [Bool.not_eq_true] at h2
              simp only [h1, h2, Bool.not_true, Bool.not_false, Bool.false_eq_true, if_false,
                if_true, Bool.and_false]
              exact ih res
          · simp only [Bool.not_eq_true] at h1
            simp only [h1, Bool.not_false, if_true, Bool.false_and, Bool.false_eq_true, if_false]
            exact ih res

theorem mem_extractPairs (lib : Lib) (records : Fields) (keys : List String) (n s : String) :
    (n, s) ∈ keys.filterMap (extractPair lib records) ↔
      n ∈ keys ∧ ∃ v, records.lookup n = some v ∧ lib.labelNameIsValid n = true ∧
        lib.labelValueIsValid (sprintV v) = true ∧ s = sprintV v := by
  rw [List.mem_filterMap]
  constructor
  · rintro ⟨k, hk, he⟩
    unfold extractPair at he
    cases hl : records.lookup k with
    | none => rw [hl] at he; cases he
    | some v =>
        rw [hl] at he
        simp only at he
        by_cases hc : (lib.labelNameIsValid k && lib.labelValueIsValid (sprintV v)) = true
        · rw [if_pos hc] at he
          injection he with he
          injection he with e1 e2
          subst e1
          rw [Bool.and_eq_true] at hc
          exact ⟨hk, v, hl, hc.1, hc.2, e2.symm⟩
        · rw [if_neg hc] at he; cases he
  · rintro ⟨hk, v, hl, h1, h2, e⟩
    refine ⟨n, hk, ?_⟩
    unfold extractPair
    rw [hl]
    simp [h1, h2, e]

/-- C18: for every record and every list of explicit keys, the label set that
`extractLabels` returns binds a name `n` to a value `s` exactly when `n` is a key of
the list that is present at the top level of the record, is a valid label name, and
the string form of its value is a valid label value and is `s`.  (The function only
reads the record.) -/
theorem C18_extractLabels_exact (lib : Lib) (records : Fields) (keys : List String)
    (n s : String) :
    (extractLabels lib records keys).lookup n = some s ↔
      n ∈ keys ∧ ∃ v, records.lookup n = some v ∧ lib.labelNameIsValid n = true ∧
        lib.labelValueIsValid (sprintV v) = true ∧ s = sprintV v := by
  unfold extractLabels
  rw [extractLabelsLoop_eq, ← mem_extractPairs]
  have hfun : ∀ v v2, (n, v) ∈ keys.filterMap (extractPair lib records) →
      (n, v2) ∈ keys.filterMap (extractPair lib records) → v2 = v := by
    intro v v2 h1 h2
    rw [mem_extractPairs] at h1 h2
    obtain ⟨_, a, ha, _, _, ea⟩ := h1
    obtain ⟨_, b, hb, _, _, eb⟩ := h2
    rw [ha] at hb
    injection hb with hb
    rw [ea, eb, hb]
  constructor
  · intro h
    by_cases hex : ∃ v, (n, v) ∈ keys.filterMap (extractPair lib records)
    · obtain ⟨v, hv⟩ := hex
      rw [lookup_applyPairs_mem [] _ n v hv (fun v2 h2 => hfun v v2 hv h2)] at h
      injection h with h
      rw [← h]; exact hv
    · rw [lookup_applyPairs_other [] _ n (fun p hp e => hex ⟨p.2, by rw [← e]; exact hp⟩)] at h
      cases h
  · intro h
    exact lookup_applyPairs_mem [] _ n s h (fun v2 h2 => hfun s v2 h h2)

/-! ### Line formats -/

theorem char_eq_of_toNat_eq (c d : Char) (h : c.toNat = d.toNat) : c = d := by
  apply Char.ext
  apply UInt32.ext
  exact h

theorem leChars_cons (c d : Char) (cs ds : List Char) :
    leChars (c :: cs) (d :: ds) =
      if c.toNat < d.toNat then true else if d.toNat < c.toNat then false else leChars cs ds := by
  rw [leChars]

theorem leChars_total (a b : List Char) : leChars a b = true ∨ leChars b a = true := by
  induction a generalizing b with
  | nil => left; rw [leChars]
  | cons c cs ih =>
      cases b with
      | nil => right; rw [leChars]
      | cons d ds =>
          rw [leChars_cons, leChars_cons]
          by_cases h1 : c.toNat < d.toNat
          · left; simp [h1]
          · by_cases h2 : d.toNat < c.toNat
            · right; simp [h2]
            · simp only [h1, h2, if_false]
              exact ih ds

theorem leChars_trans (a b c : List Char) (h1 : leChars a b = true) (h2 : leChars b c = true) :
    leChars a c = true := by
  induction a generalizing b c with
  | nil => rw [leChars]
  | cons x xs ih =>
      cases b with
      | nil => rw [leChars] at h1; cases h1
      | cons y ys =>
          cases c with
          | nil => rw [leChars] at h2; cases h2
          | cons z zs =>
              rw [leChars_cons] at h1 h2 ⊢
              by_cases hxy : x.toNat < y.toNat
              · by_cases hyz : y.toNat < z.toNat
                · have : x.toNat < z.toNat := by omega
                  simp [this]
                · by_cases hzy : z.toNat < y.toNat
                  · simp [hyz, hzy] at h2
                  · have : x.toNat < z.toNat := by omega
                    simp [this]
              · by_cases hyx : y.toNat < x.toNat
                · simp [hxy, hyx] at h1
                · simp only [hxy, hyx, if_false] at h1
                  by_cases hyz : y.toNat < z.toNat
                  · have : x.toNat < z.toNat := by omega
                    simp [this]
                  · by_cases hzy : z.toNat < y.toNat
                    · simp [hyz, hzy] at h2
                    · simp only [hyz, hzy, if_false] at h2
                      have e1 : ¬ x.toNat < z.toNat := by omega
                      have e2 : ¬ z.toNat < x.toNat := by omega
                      simp only [e1, e2, if_false]
                      exact ih ys zs h1 h2

theorem leChars_antisymm (a b : List Char) (h1 : leChars a b = true) (h2 : leChars b a = true) :
    a = b := by
  induction a generalizing b with
  | nil =>
      cases b with
      | nil => rfl
      | cons d ds => rw [leChars] at h2; cases h2
  | cons c cs ih =>
      cases b with
      | nil => rw [leChars] at h1; cases h1
      | cons d ds =>
          rw [leChars_cons] at h1 h2
          by_cases hcd : c.toNat < d.toNat
          · have hdc : ¬ d.toNat < c.toNat := by omega
            simp [hcd, hdc] at h2
          · by_cases hdc : d.toNat < c.toNat
            · simp [hcd, hdc] at h1
            · simp only [hcd, hdc, if_false] at h1 h2
              have e : c = d := char_eq_of_toNat_eq c d (by omega)
              rw [e, ih ds h1 h2]

theorem strLe_total (a b : String) : strLe a b = true ∨ strLe b a = true :=
  leChars_total a.data b.data

theorem strLe_trans (a b c : String) (h1 : strLe a b = true) (h2 : strLe b c = true) :
    strLe a c = true :=
  leChars_trans a.data b.data c.data h1 h2

theorem strLe_antisymm (a b : String) (h1 : strLe a b = true) (h2 : strLe b a = true) : a = b := by
  have h := leChars_antisymm a.data b.data h1 h2
  cases a; cases b
  simp only at h
  rw [h]

theorem insertSorted_eq (k : String) (l : List String) :
    insertSorted k l = List.orderedInsert (fun a b => strLe a b = true) k l := by
  induction l with
  | nil => rfl
  | cons x xs ih =>
      rw [insertSorted, List.orderedInsert, ih]

theorem sortStrings_eq (l : List String) :
    sortStrings l = List.insertionSort (fun a b => strLe a b = true) l := by
  induction l with
  | nil => rfl
  | cons x xs ih =>
      rw [sortStrings, List.insertionSort, ih, insertSorted_eq]

theorem sortStrings_perm (l : List String) : (sortStrings l).Perm l := by
  rw [sortStrings_eq]
  exact List.perm_insertionSort _ l

theorem sortStrings_sorted (l : List String) :
    (sortStrings l).Pairwise (fun a b => strLe a b = true) := by
  rw [sortStrings_eq]
  haveI : IsTotal String (fun a b => strLe a b = true) := ⟨strLe_total⟩
  haveI : IsTrans String (fun a b => strLe a b = true) := ⟨strLe_trans⟩
  exact List.sorted_insertionSort _ l

theorem sortStrings_of_perm (l l2 : List String) (h : l.Perm l2) :
    sortStrings l = sortStrings l2 := by
  haveI : IsAntisymm String (fun a b => strLe a b = true) := ⟨strLe_antisymm⟩
  exact List.eq_of_perm_of_sorted
    (((sortStrings_perm l).trans h).trans (sortStrings_perm l2).symm)
    (sortStrings_sorted l) (sortStrings_sorted l2)

theorem kvLoop_cons (lib : Lib) (records : Fields) (k : String) (keys : List String)
    (buf : String) (needSep : Bool) :
    kvLoop lib records (k :: keys) buf needSep =
      match pairText lib records k with
      | some s => kvLoop lib records keys (buf ++ (if needSep then " " else "") ++ s) true
      | none => none := by
  rw [kvLoop]
  unfold pairText
  cases lib.encodeKeyval k ((records.lookup k).getD .nil) with
  | text s => rfl
  | unsupported =>
      simp only
      cases lib.encodeKeyval k (.str (sprintV ((records.lookup k).getD .nil))) <;> rfl
  | failed => rfl

theorem kvLoop_sep (lib : Lib) (records : Fields) (k : String) (keys : List String) (buf : String)
    (hk : ∀ j ∈ k :: keys, (pairText lib records j).isSome = true) :
    kvLoop lib records (k :: keys) buf true =
      some (buf ++ " " ++ joinSpace ((k :: keys).map (fun j => (pairText lib records j).getD ""))) := by
  induction keys generalizing k buf with
  | nil =>
      rw [kvLoop_cons]
      have h := hk k (List.mem_cons_self _ _)
      cases e : pairText lib records k with
      | none => rw [e] at h; cases h
      | some s => simp [kvLoop, joinSpace, e]
  | cons k2 rest ih =>
      rw [kvLoop_cons]
      have h := hk k (List.mem_cons_self _ _)
      cases e : pairText lib records k with
      | none => rw [e] at h; cases h
      | some s =>
          simp only [if_true]
          rw [ih k2 _ (fun j hj => hk j (List.mem_cons_of_mem _ hj))]
          simp only [List.map_cons, joinSpace, e, Option.getD_some, String.append_assoc]

theorem kvLoop_all (lib : Lib) (records : Fields) (keys : List String)
    (hk : ∀ j ∈ keys, (pairText lib records j).isSome = true) :
    kvLoop lib records keys "" false =
      some (joinSpace (keys.map (fun j => (pairText lib records j).getD ""))) := by
  cases keys with
  | nil => rfl
  | cons k rest =>
      rw [kvLoop_cons]
      have h := hk k (List.mem_cons_self _ _)
      cases e : pairText lib records k with
      | none => rw [e] at h; cases h
      | some s =>
          cases rest with
          | nil => simp [kvLoop, joinSpace, e]
          | cons k2 rest2 =>
              simp only [Bool.false_eq_true, if_false]
              rw [kvLoop_sep lib records k2 rest2 _ (fun j hj => hk j (List.mem_cons_of_mem _ hj))]
              simp only [List.map_cons, joinSpace, e, Option.getD_some, String.append_assoc,
                String.empty_append]

theorem createLine_kv (lib : Lib) (records : Fields)
    (hk : ∀ k ∈ records.map Prod.fst, (pairText lib records k).isSome = true) :
    createLine lib records KvPairFormat = .ok (kvLine lib records) := by
  have hs : ∀ j ∈ sortStrings (records.map Prod.fst), (pairText lib records j).isSome = true :=
    fun j hj => hk j ((sortStrings_perm _).mem_iff.mp hj)
  have hne : ¬ (KvPairFormat = JsonFormat) := by decide
  simp only [createLine, hne, if_false, if_true, kvLoop_all lib records _ hs]
  rfl

theorem createLine_json (lib : Lib) (records : Fields) :
    createLine lib records JsonFormat = lib.jsonMarshal records := by
  simp only [createLine, if_true]
  cases lib.jsonMarshal records <;> rfl

theorem lookup_of_perm {β : Type} (l l2 : List (String × β)) (h : l.Perm l2)
    (hn : (l.map Prod.fst).Nodup) (k : String) : l.lookup k = l2.lookup k := by
  induction h with
  | nil => rfl
  | cons p _ ih =>
      obtain ⟨a, b⟩ := p
      rw [List.map_cons, List.nodup_cons] at hn
      by_cases e : k = a
      · subst e; rw [lookup_cons_self, lookup_cons_self]
      · rw [lookup_cons_other _ _ _ _ e, lookup_cons_other _ _ _ _ e]
        exact ih hn.2
  | swap p q l =>
      obtain ⟨a, b⟩ := p
      obtain ⟨c, d⟩ := q
      simp only [List.map_cons, List.nodup_cons, List.mem_cons, not_or] at hn
      have hca : c ≠ a := hn.1.1
      by_cases e1 : k = c
      · subst e1
        rw [lookup_cons_self, lookup_cons_other _ _ _ _ hca, lookup_cons_self]
      · by_cases e2 : k = a
        · subst e2
          rw [lookup_cons_other _ _ _ _ e1, lookup_cons_self, lookup_cons_self]
        · rw [lookup_cons_other _ _ _ _ e1, lookup_cons_other _ _ _ _ e2,
            lookup_cons_other _ _ _ _ e2, lookup_cons_other _ _ _ _ e1]
  | trans h1 _ ih1 ih2 =>
      rw [ih1 hn]
      exact ih2 ((h1.map Prod.fst).nodup_iff.mp hn)

theorem kvLoop_congr (lib : Lib) (records records2 : Fields)
    (h : ∀ k, records.lookup k = records2.lookup k) (keys : List String) (buf : String)
    (needSep : Bool) : kvLoop lib records keys buf needSep = kvLoop lib records2 keys buf needSep := by
  induction keys generalizing buf needSep with
  | nil => rfl
  | cons k rest ih =>
      rw [kvLoop_cons, kvLoop_cons]
      have e : pairText lib records k = pairText lib records2 k := by
        unfold pairText
        rw [h k]
      rw [e]
      cases pairText lib records2 k with
      | none => rfl
      | some s => exact ih _ _

theorem createLine_kv_of_perm (lib : Lib) (records records2 : Fields) (h : records.Perm records2)
    (hn : (records.map Prod.fst).Nodup) :
    createLine lib records2 KvPairFormat = createLine lib records KvPairFormat := by
  have hne : ¬ (KvPairFormat = JsonFormat) := by decide
  simp only [createLine, hne, if_false, if_true]
  rw [sortStrings_of_perm _ _ (h.map Prod.fst),
    kvLoop_congr lib records records2 (lookup_of_perm records records2 h hn)]

/-- C19, the code at the record with the empty key and the key `msg` in
`KvPairFormat`: the record is not empty, and `createLine` returns the empty line with a
nil error (the encoder rejects the empty key and the loop returns `"", nil`). -/
theorem C19_empty_line_for_rejected_key :
    exRecordEmptyKey.length = 2 ∧
    createLine refLib exRecordEmptyKey KvPairFormat = .ok "" :=
  ⟨rfl, rfl⟩

/-- The results of `createLine` by format: the error `invalid line format` when the
format is neither `JsonFormat` nor `KvPairFormat`; in `JsonFormat` what the JSON
encoder returns; in `KvPairFormat`, for every record all of whose keys the logfmt
encoder accepts, a nil error and a line that holds one pair for each key of the
record. -/
theorem createLine_by_format (lib : Lib) (records : Fields) (f : Format) :
    (f ≠ JsonFormat → f ≠ KvPairFormat →
      createLine lib records f = .error ("invalid line format: " ++ toString f)) ∧
    createLine lib records JsonFormat = lib.jsonMarshal records ∧
    ((∃ e, createLine lib records JsonFormat = .error e) ↔
      ∃ e, lib.jsonMarshal records = .error e) ∧
    ((∀ k ∈ records.map Prod.fst, (pairText lib records k).isSome = true) →
      createLine lib records KvPairFormat = .ok (kvLine lib records) ∧
      ((sortStrings (records.map Prod.fst)).map
        (fun k => (pairText lib records k).getD "")).length = records.length) := by
  refine ⟨?_, createLine_json lib records, ?_, ?_⟩
  · intro h1 h2
    simp only [createLine, h1, h2, if_false]
  · rw [createLine_json]
  · intro hk
    refine ⟨createLine_kv lib records hk, ?_⟩
    rw [List.length_map, (sortStrings_perm _).length_eq, List.length_map]

/-- The format value 2 is rejected, and for a record with a string, a number and a
nested mapping the logfmt encoder accepts the three keys and the line in
`KvPairFormat` holds three pairs. -/
theorem createLine_by_format_examples :
    createLine refLib exRecordKv 2 = .error "invalid line format: 2" ∧
    (createLine refLib exRecordKv KvPairFormat = .ok (kvLine refLib exRecordKv) ∧
      ((sortStrings (exRecordKv.map Prod.fst)).map
        (fun k => (pairText refLib exRecordKv k).getD "")).length = exRecordKv.length) :=
  ⟨(createLine_by_format refLib exRecordKv 2).1 (by decide) (by decide),
   (createLine_by_format refLib exRecordKv KvPairFormat).2.2.2 (by decide)⟩

/-- C20, the claim refuted: the record with the keys `1` and `=` has two keys, and in
`KvPairFormat` the output is the empty line, not one pair for each key: the encoder
rejects the key `=` and the loop returns `"", nil`, dropping the pair already written
for `1`. -/
theorem C20_no_pairs_for_rejected_key :
    sortStrings (exRecordEqualsKey.map Prod.fst) = ["1", "="] ∧
    pairText refLib exRecordEqualsKey "1" = some "1=a" ∧
    pairText refLib exRecordEqualsKey "=" = none ∧
    createLine refLib exRecordEqualsKey KvPairFormat = .ok "" :=
  ⟨by decide, by decide, by decide, rfl⟩

/-- C20, amended: for every record all of whose keys the logfmt encoder accepts, the
output of `createLine` in `KvPairFormat` consists of the texts the encoder writes for
the pairs, one for each record key, separated by single spaces, the keys in ascending
byte-wise order; a value whose type the encoder does not support is written as its
`%+v` text; and the output is the same for every order in which a record with pairwise
distinct keys lists its fields. -/
theorem C20_kv_line_sorted_pairs (lib : Lib) (records : Fields)
    (hk : ∀ k ∈ records.map Prod.fst, (pairText lib records k).isSome = true) :
    createLine lib records KvPairFormat =
      .ok (joinSpace ((sortStrings (records.map Prod.fst)).map
        (fun k => (pairText lib records k).getD ""))) ∧
    (sortStrings (records.map Prod.fst)).Perm (records.map Prod.fst) ∧
    (sortStrings (records.map Prod.fst)).Pairwise (fun a b => strLe a b = true) ∧
    (∀ k v s, records.lookup k = some v → lib.encodeKeyval k v = .unsupported →
      lib.encodeKeyval k (.str (sprintV v)) = .text s → pairText lib records k = some s) ∧
    (∀ records2, records.Perm records2 → (records.map Prod.fst).Nodup →
      createLine lib records2 KvPairFormat = createLine lib records KvPairFormat) := by
  refine ⟨createLine_kv lib records hk, sortStrings_perm _, sortStrings_sorted _, ?_, ?_⟩
  · intro k v s h1 h2 h3
    simp [pairText, h1, h2, h3]
  · intro records2 hp hn
    exact createLine_kv_of_perm lib records records2 hp hn

/-- C20 amended, at a record with a string, a number and a nested mapping: the keys
come in the order `code`, `kubernetes`, `msg`, the string with a space is quoted and
the nested mapping is written as its `%+v` text. -/
theorem C20_kv_line_sorted_pairs_witness :
    createLine refLib exRecordKv KvPairFormat =
      .ok "code=7 kubernetes=map[pod_name:web-1] msg=\"hello world\"" :=
  (C20_kv_line_sorted_pairs refLib exRecordKv (by decide)).1.trans rfl



/-! ### The stripped record -/

theorem removeKeys_eq_withoutKeys (records : Fields) (keys : List String) :
    removeKeys records keys = withoutKeys records keys := by
  induction keys generalizing records with
  | nil => simp [removeKeys, withoutKeys]
  | cons k keys ih =>
      rw [removeKeys, ih]
      simp only [withoutKeys, deleteKey, List.filter_filter]
      congr 1
      funext p
      by_cases e : p.1 = k
      · simp [e]
      · have e2 : ¬ k = p.1 := fun h => e h.symm
        simp [e, List.contains_cons, e2]

theorem lookup_withoutKeys (records : Fields) (keys : List String) (k : String) :
    (withoutKeys records keys).lookup k = if k ∈ keys then none else records.lookup k := by
  induction records with
  | nil => simp [withoutKeys]
  | cons p rest ih =>
      obtain ⟨a, v⟩ := p
      unfold withoutKeys at ih ⊢
      by_cases ha : a ∈ keys
      · rw [List.filter_cons_of_neg (by simpa using ha), ih]
        by_cases hk : k ∈ keys
        · simp [hk]
        · have : k ≠ a := fun e => hk (e ▸ ha)
          rw [lookup_cons_other _ _ _ _ this]
      · rw [List.filter_cons_of_pos (by simpa using ha)]
        by_cases e : k = a
        · subst e
          rw [lookup_cons_self, lookup_cons_self]
          simp [ha]
        · rw [lookup_cons_other _ _ _ _ e, lookup_cons_other _ _ _ _ e, ih]

theorem sendLabels_lineFormat (lib : Lib) (cfg : config) (f : Format) (records : Fields) :
    sendLabels lib { cfg with lineFormat := f } records = sendLabels lib cfg records := rfl

theorem SendRecord_skipped (lib : Lib) (l : loki) (r : List (Value × Value)) (ts : Int)
    (lbs : LabelSet) (hl : sendLabels lib l.cfg (toStringMap r) = some lbs)
    (hs : withoutKeys (toStringMap r) (l.cfg.labelKeys ++ l.cfg.removeKeys) = []) :
    SendRecord lib l r ts = .skipped := by
  unfold SendRecord
  simp only [hl, removeKeys_eq_withoutKeys, hs]
  simp

theorem SendRecord_single (lib : Lib) (l : loki) (r : List (Value × Value)) (ts : Int)
    (lbs : LabelSet) (k : String) (v : Value)
    (hl : sendLabels lib l.cfg (toStringMap r) = some lbs)
    (hd : l.cfg.dropSingleKey = true)
    (hs : withoutKeys (toStringMap r) (l.cfg.labelKeys ++ l.cfg.removeKeys) = [(k, v)]) :
    SendRecord lib l r ts = .handled l.client lbs ts (sprintV v) := by
  unfold SendRecord
  simp only [hl, removeKeys_eq_withoutKeys, hs, hd]
  simp

theorem SendRecord_encoded (lib : Lib) (l : loki) (r : List (Value × Value)) (ts : Int)
    (lbs : LabelSet)
    (hl : sendLabels lib l.cfg (toStringMap r) = some lbs)
    (hne : (withoutKeys (toStringMap r) (l.cfg.labelKeys ++ l.cfg.removeKeys)).length ≠ 0)
    (hd : (l.cfg.dropSingleKey &&
      (withoutKeys (toStringMap r) (l.cfg.labelKeys ++ l.cfg.removeKeys)).length == 1) = false) :
    SendRecord lib l r ts =
      match createLine lib (withoutKeys (toStringMap r) (l.cfg.labelKeys ++ l.cfg.removeKeys))
          l.cfg.lineFormat with
      | .error err => .failed ("error creating line: " ++ err)
      | .ok line =>
          match loki.getClient lib l
              (getDynamicHostName (toStringMap r) (l.cfg.dynamicHostPath.getD [])) with
          | none =>
              .failed ("could not found client for " ++
                getDynamicHostName (toStringMap r) (l.cfg.dynamicHostPath.getD []))
          | some client => .handled client lbs ts line := by
  unfold SendRecord
  simp only [hl, removeKeys_eq_withoutKeys, hne, if_false, hd]

/-! ### Normalisation and the structured line -/

/-- C21, the code at a record with an empty sequence and an empty nested mapping:
`toStringSlice` returns a nil slice for the empty sequence (while `toStringMap` keeps
the empty mapping), the JSON encoder writes the nil slice as `null`, and a generic
decoder reads the line back with `tags` bound to nil instead of the empty sequence. -/
theorem C21_empty_sequence_comes_back_as_null :
    toStringMap exRecordEmptySeq = [("tags", .nilSeq), ("meta", .strMap [])] ∧
    createLine refLib (toStringMap exRecordEmptySeq) JsonFormat =
      .ok "\x7b\"meta\":\x7b\x7d,\"tags\":null\x7d" ∧
    jsonDecode "\x7b\"meta\":\x7b\x7d,\"tags\":null\x7d" =
      some (.strMap [("meta", .strMap []), ("tags", .nil)]) ∧
    jsonDecode "\x7b\"meta\":\x7b\x7d,\"tags\":[]\x7d" =
      some (.strMap [("meta", .strMap []), ("tags", .seq [])]) :=
  ⟨rfl, rfl, rfl, rfl⟩

/-- C22, the code at a record whose two fields are both among the remove keys, so that
the stripped record is empty: with automatic labels on and a `kubernetes` field that
is a string, `SendRecord` panics in `autoLabels` before it reaches the check for an
empty record; with automatic labels off it returns without a send. -/
theorem C22_panic_before_the_empty_check :
    (withoutKeys (toStringMap exRecordKubeString)
      (exLokiRemoveAll.cfg.labelKeys ++ exLokiRemoveAll.cfg.removeKeys)).length = 0 ∧
    exLokiRemoveAll.cfg.autoKubernetesLabels = true ∧
    SendRecord refLib exLokiRemoveAll exRecordKubeString 7 = .panicked ∧
    SendRecord refLib exLokiRemoveAllNoAuto exRecordKubeString 7 = .skipped := by
  decide

/-- C23: when drop-single-key is on and exactly one field `(k, v)` of the normalised
record has a key outside the label keys and remove keys, every line `SendRecord` sends
is the `%v` text of `v`; and whenever the label stage returns, `SendRecord` hands that
text to the default client whatever the configured line format is, an unsupported
format included, so the line does not pass through `createLine`. -/
theorem C23_single_field_sent_as_text (lib : Lib) (l : loki) (r : List (Value × Value))
    (ts : Int) (k : String) (v : Value)
    (hd : l.cfg.dropSingleKey = true)
    (hs : withoutKeys (toStringMap r) (l.cfg.labelKeys ++ l.cfg.removeKeys) = [(k, v)]) :
    (∀ (f : Format) (c : Client) (lbs : LabelSet) (t : Int) (line : String),
      SendRecord lib { l with cfg := { l.cfg with lineFormat := f } } r ts = .handled c lbs t line →
        line = sprintV v) ∧
    (∀ (f : Format) (lbs : LabelSet), sendLabels lib l.cfg (toStringMap r) = some lbs →
      SendRecord lib { l with cfg := { l.cfg with lineFormat := f } } r ts =
        .handled l.client lbs ts (sprintV v)) := by
  have key : ∀ (f : Format) (lbs : LabelSet), sendLabels lib l.cfg (toStringMap r) = some lbs →
      SendRecord lib { l with cfg := { l.cfg with lineFormat := f } } r ts =
        .handled l.client lbs ts (sprintV v) := by
    intro f lbs hl
    exact SendRecord_single lib { l with cfg := { l.cfg with lineFormat := f } } r ts lbs k v
      hl hd hs
  refine ⟨?_, key⟩
  intro f c lbs t line h
  cases hl : sendLabels lib l.cfg (toStringMap r) with
  | none =>
      have hp : SendRecord lib { l with cfg := { l.cfg with lineFormat := f } } r ts = .panicked := by
        unfold SendRecord
        have hl2 : sendLabels lib { l.cfg with lineFormat := f } (toStringMap r) = none := hl
        simp only [hl2]
      rw [hp] at h
      cases h
  | some lbs2 =>
      rw [key f lbs2 hl] at h
      injection h with _ _ _ h4
      exact h4.symm

/-- C23 at Scenario C: label keys `[app]`, record `app: x, msg: hi`, drop-single-key
on: the line is `hi`, in the structured format, in the key-value format and for an
unsupported format number. -/
theorem C23_single_field_sent_as_text_witness :
    exLokiC.cfg.dropSingleKey = true ∧
    SendRecord refLib exLokiC exRecordC 7 = .handled exDefaultClient [("app", "x")] 7 "hi" ∧
    SendRecord refLib { exLokiC with cfg := { exLokiC.cfg with lineFormat := KvPairFormat } }
      exRecordC 7 = .handled exDefaultClient [("app", "x")] 7 "hi" ∧
    SendRecord refLib { exLokiC with cfg := { exLokiC.cfg with lineFormat := 5 } }
      exRecordC 7 = .handled exDefaultClient [("app", "x")] 7 "hi" :=
  ⟨rfl,
   (C23_single_field_sent_as_text refLib exLokiC exRecordC 7 "msg" (.str "hi") rfl rfl).2
     JsonFormat [("app", "x")] (by decide),
   (C23_single_field_sent_as_text refLib exLokiC exRecordC 7 "msg" (.str "hi") rfl rfl).2
     KvPairFormat [("app", "x")] (by decide),
   (C23_single_field_sent_as_text refLib exLokiC exRecordC 7 "msg" (.str "hi") rfl rfl).2
     5 [("app", "x")] (by decide)⟩

/-- C24: on the encoded-line path (the label stage returns, the stripped record is not
empty, the drop-single-key branch is not taken and the line is created) `SendRecord`
looks up the client under the key `getDynamicHostName` gives for the normalised record
as it is before any field is stripped, a key that does not mention the label keys or
the remove keys: it sends the line to that client, and returns the `could not found
client` error naming that key when the lookup is nil. -/
theorem C24_destination_from_unstripped_record (lib : Lib) (l : loki)
    (r : List (Value × Value)) (ts : Int) (lbs : LabelSet) (line : String)
    (hl : sendLabels lib l.cfg (toStringMap r) = some lbs)
    (hne : (withoutKeys (toStringMap r) (l.cfg.labelKeys ++ l.cfg.removeKeys)).length ≠ 0)
    (hd : (l.cfg.dropSingleKey &&
      (withoutKeys (toStringMap r) (l.cfg.labelKeys ++ l.cfg.removeKeys)).length == 1) = false)
    (hline : createLine lib (withoutKeys (toStringMap r) (l.cfg.labelKeys ++ l.cfg.removeKeys))
      l.cfg.lineFormat = .ok line) :
    SendRecord lib l r ts =
      match loki.getClient lib l
          (getDynamicHostName (toStringMap r) (l.cfg.dynamicHostPath.getD [])) with
      | none =>
          .failed ("could not found client for " ++
            getDynamicHostName (toStringMap r) (l.cfg.dynamicHostPath.getD []))
      | some client => .handled client lbs ts line := by
  rw [SendRecord_encoded lib l r ts lbs hl hne hd, hline]

/-- C24 at Scenario A with `kubernetes`, the field on the host path, among the remove
keys: the key is still `shoot--foo`, and the line, which no longer holds the field,
goes to the client registered for `shoot--foo`. -/
theorem C24_destination_from_unstripped_record_witness :
    getDynamicHostName (toStringMap exRecordA) (exLokiRemoveKube.cfg.dynamicHostPath.getD []) =
      "shoot--foo" ∧
    exLokiRemoveKube.cfg.removeKeys = ["kubernetes"] ∧
    SendRecord refLib exLokiRemoveKube exRecordA 7 =
      .handled exShootFooClient [] 7 "\x7b\"message\":\"hello\"\x7d" :=
  ⟨by decide, rfl,
   C24_destination_from_unstripped_record refLib exLokiRemoveKube exRecordA 7 []
     "\x7b\"message\":\"hello\"\x7d" (by decide) (by decide) (by decide) rfl⟩

/-- C25: the record `SendRecord` has after `removeKeys` is the normalised record
without the fields whose key is among the label keys and remove keys: such a key has
no field in it and every other key has the field of the normalised record, value
unchanged; and on the encoded-line path (the stripped record is not empty and the
drop-single-key branch is not taken) the line `SendRecord` sends is the line
`createLine` returns for that record in the configured format. -/
theorem C25_line_encodes_the_kept_fields (lib : Lib) (l : loki) (r : List (Value × Value))
    (ts : Int) :
    removeKeys (toStringMap r) (l.cfg.labelKeys ++ l.cfg.removeKeys) =
      withoutKeys (toStringMap r) (l.cfg.labelKeys ++ l.cfg.removeKeys) ∧
    (∀ k, (withoutKeys (toStringMap r) (l.cfg.labelKeys ++ l.cfg.removeKeys)).lookup k =
      if k ∈ l.cfg.labelKeys ++ l.cfg.removeKeys then none else (toStringMap r).lookup k) ∧
    ((l.cfg.dropSingleKey &&
        (withoutKeys (toStringMap r) (l.cfg.labelKeys ++ l.cfg.removeKeys)).length == 1) = false →
      (∀ c lbs t line, SendRecord lib l r ts = .handled c lbs t line →
        createLine lib (withoutKeys (toStringMap r) (l.cfg.labelKeys ++ l.cfg.removeKeys))
          l.cfg.lineFormat = .ok line) ∧
      (∀ lbs line c, sendLabels lib l.cfg (toStringMap r) = some lbs →
        (withoutKeys (toStringMap r) (l.cfg.labelKeys ++ l.cfg.removeKeys)).length ≠ 0 →
        createLine lib (withoutKeys (toStringMap r) (l.cfg.labelKeys ++ l.cfg.removeKeys))
          l.cfg.lineFormat = .ok line →
        loki.getClient lib l
          (getDynamicHostName (toStringMap r) (l.cfg.dynamicHostPath.getD [])) = some c →
        SendRecord lib l r ts = .handled c lbs ts line)) := by
  refine ⟨removeKeys_eq_withoutKeys _ _, lookup_withoutKeys _ _, ?_⟩
  intro hd
  constructor
  · intro c lbs t line h
    cases hl : sendLabels lib l.cfg (toStringMap r) with
    | none =>
        have hp : SendRecord lib l r ts = .panicked := by
          unfold SendRecord
          simp only [hl]
        rw [hp] at h
        cases h
    | some lbs2 =>
        by_cases hne : (withoutKeys (toStringMap r) (l.cfg.labelKeys ++ l.cfg.removeKeys)).length = 0
        · have hsk : SendRecord lib l r ts = .skipped :=
            SendRecord_skipped lib l r ts lbs2 hl (List.length_eq_zero.mp hne)
          rw [hsk] at h
          cases h
        · rw [SendRecord_encoded lib l r ts lbs2 hl hne hd] at h
          cases hc : createLine lib (withoutKeys (toStringMap r) (l.cfg.labelKeys ++ l.cfg.removeKeys))
              l.cfg.lineFormat with
          | error e =>
              rw [hc] at h
              cases h
          | ok line2 =>
              rw [hc] at h
              cases hg : loki.getClient lib l
                  (getDynamicHostName (toStringMap r) (l.cfg.dynamicHostPath.getD [])) with
              | none =>
                  rw [hg] at h
                  cases h
              | some c2 =>
                  rw [hg] at h
                  injection h with _ _ _ h4
                  rw [h4]
  · intro lbs line c hl hne hline hg
    rw [SendRecord_encoded lib l r ts lbs hl hne hd, hline, hg]

/-- C25 at Scenario A with `kubernetes` among the remove keys and drop-single-key
off: the stripped record has no field `kubernetes`, keeps the field `message`, and the
line sent is the encoding of that record. -/
theorem C25_line_encodes_the_kept_fields_witness :
    (withoutKeys (toStringMap exRecordA)
      (exLokiRemoveKube.cfg.labelKeys ++ exLokiRemoveKube.cfg.removeKeys)).lookup "kubernetes" =
      none ∧
    createLine refLib (withoutKeys (toStringMap exRecordA)
      (exLokiRemoveKube.cfg.labelKeys ++ exLokiRemoveKube.cfg.removeKeys)) JsonFormat =
      .ok "\x7b\"message\":\"hello\"\x7d" ∧
    SendRecord refLib exLokiRemoveKube exRecordA 7 =
      .handled exShootFooClient [] 7 "\x7b\"message\":\"hello\"\x7d" :=
  ⟨((C25_line_encodes_the_kept_fields refLib exLokiRemoveKube exRecordA 7).2.1 "kubernetes").trans
     rfl,
   ((C25_line_encodes_the_kept_fields refLib exLokiRemoveKube exRecordA 7).2.2 (by decide)).1
     exShootFooClient [] 7 "\x7b\"message\":\"hello\"\x7d" (by decide),
   ((C25_line_encodes_the_kept_fields refLib exLokiRemoveKube exRecordA 7).2.2 (by decide)).2
     [] "\x7b\"message\":\"hello\"\x7d" exShootFooClient (by decide) (by decide) rfl (by decide)⟩

/-- C26, the claim refuted: in Scenario A no line equal to the encoding of the field
`message` alone is sent to the client of `shoot--foo`, whatever the label set. -/
theorem C26_scenario_A_line_is_not_message_only :
    ¬ ∃ lbs, SendRecord refLib exLokiA exRecordA 7 =
      .handled exShootFooClient lbs 7 "\x7b\"message\":\"hello\"\x7d" := by
  intro h
  obtain ⟨lbs, h⟩ := h
  have e : SendRecord refLib exLokiA exRecordA 7 =
      .handled exShootFooClient [] 7
        "\x7b\"kubernetes\":\x7b\"labels\":\x7b\"tier\":\"x\"\x7d,\"namespace_name\":\"shoot--foo\"\x7d,\"message\":\"hello\"\x7d" := by
    decide
  rw [e] at h
  injection h with _ _ _ h4
  revert h4
  decide

/-- C26 as amended: in Scenario A the destination key is `shoot--foo`, the lookup
gives the client registered for `shoot--foo`, and the line sent to that client is the
encoding of the whole normalised record, the field `kubernetes` included; the line is
the encoding of the field `message` alone when `kubernetes` is among the remove keys
(and drop-single-key is off). -/
theorem C26_scenario_A_line_is_the_whole_record :
    getDynamicHostName (toStringMap exRecordA) exHostPath = "shoot--foo" ∧
    loki.getClient refLib exLokiA "shoot--foo" = some exShootFooClient ∧
    exLokiA.cfg.removeKeys = [] ∧ exLokiA.cfg.labelKeys = [] ∧
    createLine refLib (toStringMap exRecordA) JsonFormat =
      .ok "\x7b\"kubernetes\":\x7b\"labels\":\x7b\"tier\":\"x\"\x7d,\"namespace_name\":\"shoot--foo\"\x7d,\"message\":\"hello\"\x7d" ∧
    (∃ lbs, SendRecord refLib exLokiA exRecordA 7 =
      .handled exShootFooClient lbs 7
        "\x7b\"kubernetes\":\x7b\"labels\":\x7b\"tier\":\"x\"\x7d,\"namespace_name\":\"shoot--foo\"\x7d,\"message\":\"hello\"\x7d") ∧
    (∃ lbs, SendRecord refLib exLokiRemoveKube exRecordA 7 =
      .handled exShootFooClient lbs 7 "\x7b\"message\":\"hello\"\x7d") :=
  ⟨by decide, by decide, rfl, rfl, rfl, ⟨[], by decide⟩, ⟨[], by decide⟩⟩

/-! ### Client configurations of the controller -/

theorem addClient_registered (lib : Lib) (ctl : Controller) (w : World) (n u : String)
    (hu : lib.urlSet (ctl.dynamicHostPrefix ++ n ++ ctl.dynamicHostSulfix) = some u)
    (hn : lib.clientNewFails (confFor ctl u) = false) :
    Registered ctl w n u (addClient lib ctl w n) := by
  rw [addClient_eq lib ctl w n u hu hn]
  refine ⟨?_, rfl, rfl, rfl, rfl, rfl, rfl, rfl, rfl, ?_⟩
  · exact lookup_setKey_self _ _ _
  · intro j hj
    exact lookup_setKey_other _ _ _ _ hj

theorem addClient_skipped (lib : Lib) (ctl : Controller) (w : World) (n : String)
    (hu : lib.urlSet (ctl.dynamicHostPrefix ++ n ++ ctl.dynamicHostSulfix) = none) :
    Skipped ctl w (addClient lib ctl w n) := by
  simp [addClient, getClientConfig, hu, Skipped]

/-- C27, the claim refuted: the host string of `shoot--foo` parses as a URL, yet when
`lokiclient.New` returns an error for the configuration built from it, `addFunc` (of
cmd/controller.go and of pkg/controller) leaves the registry without an entry for
`shoot--foo` and creates no client. -/
theorem C27_no_entry_when_client_construction_fails :
    nameMatches exLibNewFails exController "shoot--foo" ∧
    exLibNewFails.urlSet
        (exController.dynamicHostPrefix ++ "shoot--foo" ++ exController.dynamicHostSulfix) =
      some "http://loki.shoot--foo.svc:3100/loki/api/v1/push" ∧
    (Cmd.addFunc exLibNewFails exController exWorld exShootFoo).1.clients.lookup "shoot--foo" = none ∧
    (Cmd.addFunc exLibNewFails exController exWorld exShootFoo).2.created = [] ∧
    (Pkg.addFunc exLibNewFails exController exWorld exShootFoo).1.clients.lookup "shoot--foo" = none ∧
    (Pkg.addFunc exLibNewFails exController exWorld exShootFoo).2.created = [] := by
  refine ⟨⟨by decide, by decide⟩, by decide, by decide, by decide, by decide, by decide⟩

/-- C27 as amended: for every namespace that passes the gate of `addFunc` (the name
pattern in cmd/controller.go, the selector in pkg/controller): if prefix + name +
suffix parses to the URL `u` and `lokiclient.New` returns no error for the
configuration, the registry gains an entry for the name bound to a new client built
from a copy of the template with `URL` set to `u` and every other field equal to the
template, the other entries and the stored template being unchanged; if the string
does not parse, the controller is unchanged, no client is created and the error is
logged. -/
theorem C27_addFunc_registers_client (lib : Lib) (ctl : Controller) (w : World) (ns : Namespace) :
    (nameMatches lib ctl ns.Name →
      (∀ u, lib.urlSet (ctl.dynamicHostPrefix ++ ns.Name ++ ctl.dynamicHostSulfix) = some u →
        lib.clientNewFails (confFor ctl u) = false →
        Registered ctl w ns.Name u (Cmd.addFunc lib ctl w (.ns ns))) ∧
      (lib.urlSet (ctl.dynamicHostPrefix ++ ns.Name ++ ctl.dynamicHostSulfix) = none →
        Skipped ctl w (Cmd.addFunc lib ctl w (.ns ns)))) ∧
    (selectorMatches [("gardener.cloud/role", "shoot")] ns.Labels = true →
      (∀ u, lib.urlSet (ctl.dynamicHostPrefix ++ ns.Name ++ ctl.dynamicHostSulfix) = some u →
        lib.clientNewFails (confFor ctl u) = false →
        Registered ctl w ns.Name u (Pkg.addFunc lib ctl w (.ns ns))) ∧
      (lib.urlSet (ctl.dynamicHostPrefix ++ ns.Name ++ ctl.dynamicHostSulfix) = none →
        Skipped ctl w (Pkg.addFunc lib ctl w (.ns ns)))) := by
  constructor
  · intro hm
    rw [cmd_addFunc_of_match lib ctl w ns hm]
    exact ⟨fun u hu hn => addClient_registered lib ctl w ns.Name u hu hn,
      fun hu => addClient_skipped lib ctl w ns.Name hu⟩
  · intro hm
    rw [pkg_addFunc_of_match lib ctl w ns hm]
    exact ⟨fun u hu hn => addClient_registered lib ctl w ns.Name u hu hn,
      fun hu => addClient_skipped lib ctl w ns.Name hu⟩

/-- C27 at the namespace `shoot--foo`, whose host string parses, for both `addFunc`,
and at a namespace whose name holds a line feed, whose host string does not parse. -/
theorem C27_addFunc_registers_client_witness :
    Registered exController exWorld "shoot--foo" "http://loki.shoot--foo.svc:3100/loki/api/v1/push"
      (Cmd.addFunc refLib exController exWorld exShootFoo) ∧
    Registered exController exWorld "shoot--foo" "http://loki.shoot--foo.svc:3100/loki/api/v1/push"
      (Pkg.addFunc refLib exController exWorld exShootFoo) ∧
    Skipped exController exWorld (Cmd.addFunc refLib exController exWorld (.ns exBadHost)) ∧
    Skipped exController exWorld (Pkg.addFunc refLib exController exWorld (.ns exBadHost)) :=
  ⟨((C27_addFunc_registers_client refLib exController exWorld
        { Name := "shoot--foo", Labels := [("gardener.cloud/role", "shoot")] }).1
      ⟨by decide, by decide⟩).1 _ (by decide) (by decide),
   ((C27_addFunc_registers_client refLib exController exWorld
        { Name := "shoot--foo", Labels := [("gardener.cloud/role", "shoot")] }).2
      (by decide)).1 _ (by decide) (by decide),
   ((C27_addFunc_registers_client refLib exController exWorld exBadHost).1
      ⟨by decide, by decide⟩).2 (by decide),
   ((C27_addFunc_registers_client refLib exController exWorld exBadHost).2
      (by decide)).2 (by decide)⟩

/-! ### The configuration parser -/

theorem bind_error_of_error {α : Type} (x : Except String Config) (f : Config → Except String α)
    (h : ∃ e, x = .error e) : ∃ e, x.bind f = .error e := by
  obtain ⟨e, he⟩ := h
  exact ⟨e, by rw [he]; rfl⟩

theorem bind_error_of_all {α : Type} (x : Except String Config) (f : Config → Except String α)
    (h : ∀ r, ∃ e, f r = .error e) : ∃ e, x.bind f = .error e := by
  cases x with
  | error e => exact ⟨e, rfl⟩
  | ok r => exact h r

theorem parseLineFormat_error (cfg : String → String) (res : Config)
    (h : cfg "LineFormat" ≠ "" ∧ cfg "LineFormat" ≠ "json" ∧ cfg "LineFormat" ≠ "key_value") :
    ∃ e, parseLineFormat cfg res = .error e := by
  obtain ⟨h1, h2, h3⟩ := h
  simp [parseLineFormat, h1, h2, h3]

theorem parseDropSingleKey_error (cfg : String → String) (res : Config)
    (h : cfg "DropSingleKey" ≠ "" ∧ cfg "DropSingleKey" ≠ "true" ∧ cfg "DropSingleKey" ≠ "false") :
    ∃ e, parseDropSingleKey cfg res = .error e := by
  obtain ⟨h1, h2, h3⟩ := h
  simp [parseDropSingleKey, h1, h2, h3]

theorem parseAuto_error (cfg : String → String) (res : Config)
    (h : cfg "AutoKubernetesLabels" ≠ "" ∧ cfg "AutoKubernetesLabels" ≠ "true" ∧
      cfg "AutoKubernetesLabels" ≠ "false") :
    ∃ e, parseAuto cfg res = .error e := by
  obtain ⟨h1, h2, h3⟩ := h
  simp [parseAuto, h1, h2, h3]

theorem atoi_none (s : String) (h : isDecimalInteger s = false) : atoi s = none := by
  simp [atoi, h]

theorem parseBatch_error_wait (cfg : String → String) (res : Config)
    (h : cfg "BatchWait" ≠ "" ∧ isDecimalInteger (cfg "BatchWait") = false) :
    ∃ e, parseBatch cfg res = .error e := by
  obtain ⟨h1, h2⟩ := h
  simp [parseBatch, h1, atoi_none _ h2]

theorem parseBatch_error_size (cfg : String → String) (res : Config)
    (h : cfg "BatchSize" ≠ "" ∧ isDecimalInteger (cfg "BatchSize") = false) :
    ∃ e, parseBatch cfg res = .error e := by
  obtain ⟨h1, h2⟩ := h
  unfold parseBatch
  simp only [h1, if_false, atoi_none _ h2]
  split
  · exact ⟨_, rfl⟩
  · exact ⟨_, rfl⟩

theorem parseDynamicHost_error (env : ConfEnv) (cfg : String → String) (res : Config)
    (h : cfg "DynamicHostPath" ≠ "" ∧ env.unmarshalMap (cfg "DynamicHostPath") = none) :
    ∃ e, parseDynamicHost env cfg res = .error e := by
  obtain ⟨h1, h2⟩ := h
  simp [parseDynamicHost, h1, h2]

/-- C28, the code at the empty configuration: `ParseConfig` succeeds with line format
json, drop-single-key true, automatic labels false, no remove keys, no label map and
empty prefix and suffix, but the dynamic-host pattern it yields is `*`, not the empty
pattern that the `defaults` tests expect. -/
theorem C28_default_pattern_is_an_asterisk :
    ∃ c, ParseConfig refLib refEnv exEmptyConf = .ok c ∧
      c.LineFormat = JsonFormat ∧ c.DropSingleKey = true ∧ c.AutoKubernetesLabels = false ∧
      c.RemoveKeys = [] ∧ c.LabelMap.isNone = true ∧
      c.DynamicHostPrefix = "" ∧ c.DynamicHostSulfix = "" ∧
      c.DynamicHostRegex = "*" ∧ c.DynamicHostRegex ≠ "" := by
  refine ⟨_, rfl, ?_⟩
  decide

/-- C29, the claim refuted: the text `null` is not empty and is not a JSON object, yet
`ParseConfig` succeeds for the configuration whose `DynamicHostPath` is `null`
(decoding `null` into a map is no error), leaving the host path nil. -/
theorem C29_null_host_path_is_accepted :
    exNullPathConf "DynamicHostPath" ≠ "" ∧
    isJsonObject (exNullPathConf "DynamicHostPath") = false ∧
    ∃ c, ParseConfig refLib refEnv exNullPathConf = .ok c ∧ c.DynamicHostPath.isNone = true := by
  refine ⟨by decide, by decide, _, rfl, ?_⟩
  decide

/-- C29 as amended: `ParseConfig` returns an error (and no configuration) for every
configuration in which `LineFormat` is not one of the empty string, `json`,
`key_value`, or `DropSingleKey` or `AutoKubernetesLabels` is not one of the empty
string, `true`, `false`, or `BatchWait` or `BatchSize` is not empty and not a decimal
integer, or `DynamicHostPath` is not empty and the JSON decoder reads it neither as an
object nor as the value `null`. -/
theorem C29_bad_entries_are_rejected (lib : Lib) (env : ConfEnv) (cfg : String → String)
    (hbad :
      (cfg "LineFormat" ≠ "" ∧ cfg "LineFormat" ≠ "json" ∧ cfg "LineFormat" ≠ "key_value") ∨
      (cfg "DropSingleKey" ≠ "" ∧ cfg "DropSingleKey" ≠ "true" ∧ cfg "DropSingleKey" ≠ "false") ∨
      (cfg "AutoKubernetesLabels" ≠ "" ∧ cfg "AutoKubernetesLabels" ≠ "true" ∧
        cfg "AutoKubernetesLabels" ≠ "false") ∨
      (cfg "BatchWait" ≠ "" ∧ isDecimalInteger (cfg "BatchWait") = false) ∨
      (cfg "BatchSize" ≠ "" ∧ isDecimalInteger (cfg "BatchSize") = false) ∨
      (cfg "DynamicHostPath" ≠ "" ∧ env.unmarshalMap (cfg "DynamicHostPath") = none)) :
    ∃ e, ParseConfig lib env cfg = .error e := by
  unfold ParseConfig
  rcases hbad with h | h | h | h | h | h
  · apply bind_error_of_all; intro r1
    apply bind_error_of_all; intro r2
    apply bind_error_of_all; intro r3
    apply bind_error_of_all; intro r4
    apply bind_error_of_all; intro r5
    apply bind_error_of_error
    exact parseLineFormat_error cfg r5 h
  · apply bind_error_of_all; intro r1
    apply bind_error_of_all; intro r2
    apply bind_error_of_all; intro r3
    apply bind_error_of_all; intro r4
    apply bind_error_of_error
    exact parseDropSingleKey_error cfg _ h
  · apply bind_error_of_all; intro r1
    apply bind_error_of_all; intro r2
    apply bind_error_of_all; intro r3
    apply bind_error_of_error
    exact parseAuto_error cfg r3 h
  · apply bind_error_of_all; intro r1
    apply bind_error_of_error
    exact parseBatch_error_wait cfg r1 h
  · apply bind_error_of_all; intro r1
    apply bind_error_of_error
    exact parseBatch_error_size cfg r1 h
  · apply bind_error_of_all; intro r1
    apply bind_error_of_all; intro r2
    apply bind_error_of_all; intro r3
    apply bind_error_of_all; intro r4
    apply bind_error_of_all; intro r5
    apply bind_error_of_all; intro r6
    apply bind_error_of_all; intro r7
    exact parseDynamicHost_error env cfg _ h

/-- C29 at the bad entries of the tests: `LineFormat`, `DropSingleKey`, `BatchWait`,
`BatchSize` or `DynamicHostPath` set to `a`, and `AutoKubernetesLabels` set to `a`:
an error each time. -/
theorem C29_bad_entries_are_rejected_witness :
    (∃ e, ParseConfig refLib refEnv (exBadConf "LineFormat") = .error e) ∧
    (∃ e, ParseConfig refLib refEnv (exBadConf "DropSingleKey") = .error e) ∧
    (∃ e, ParseConfig refLib refEnv (exBadConf "AutoKubernetesLabels") = .error e) ∧
    (∃ e, ParseConfig refLib refEnv (exBadConf "BatchWait") = .error e) ∧
    (∃ e, ParseConfig refLib refEnv (exBadConf "BatchSize") = .error e) ∧
    (∃ e, ParseConfig refLib refEnv (exBadConf "DynamicHostPath") = .error e) :=
  ⟨C29_bad_entries_are_rejected refLib refEnv (exBadConf "LineFormat")
     (Or.inl ⟨by decide, by decide, by decide⟩),
   C29_bad_entries_are_rejected refLib refEnv (exBadConf "DropSingleKey")
     (Or.inr (Or.inl ⟨by decide, by decide, by decide⟩)),
   C29_bad_entries_are_rejected refLib refEnv (exBadConf "AutoKubernetesLabels")
     (Or.inr (Or.inr (Or.inl ⟨by decide, by decide, by decide⟩))),
   C29_bad_entries_are_rejected refLib refEnv (exBadConf "BatchWait")
     (Or.inr (Or.inr (Or.inr (Or.inl ⟨by decide, by decide⟩)))),
   C29_bad_entries_are_rejected refLib refEnv (exBadConf "BatchSize")
     (Or.inr (Or.inr (Or.inr (Or.inr (Or.inl ⟨by decide, by decide⟩))))),
   C29_bad_entries_are_rejected refLib refEnv (exBadConf "DynamicHostPath")
     (Or.inr (Or.inr (Or.inr (Or.inr (Or.inr ⟨by decide, rfl⟩)))))⟩

/-! ### Normalisation of raw records -/

theorem toStringMap_cons (k v : Value) (rest : List (Value × Value)) :
    toStringMap ((k, v) :: rest) =
      match stringEntry (k, v) with
      | some e => e :: toStringMap rest
      | none => toStringMap rest := by
  cases k <;> rfl

theorem toStringMap_eq_filterMap (r : List (Value × Value)) :
    toStringMap r = r.filterMap stringEntry := by
  induction r with
  | nil => rfl
  | cons p rest ih =>
      obtain ⟨k, v⟩ := p
      rw [toStringMap_cons, List.filterMap_cons, ih]
      cases stringEntry (k, v) <;> rfl

theorem toStringSlice_eq_map (xs : List Value) : toStringSlice xs = xs.map toStringValue := by
  induction xs with
  | nil => rfl
  | cons v rest ih => rw [toStringSlice, ih, List.map_cons]

theorem seqLength_sliceOf (ys : List Value) : seqLength (sliceOf ys) = ys.length := by
  cases ys <;> rfl

theorem normalValue_sliceOf (ys : List Value) : normalValue (sliceOf ys) = normalSeq ys := by
  cases ys with
  | nil => rfl
  | cons y rest => simp [sliceOf, normalValue]

mutual
theorem normal_toStringValue :
    (v : Value) → isRawValue v = true → normalValue (toStringValue v) = true
  | .seq xs, h => by
      have h2 : isRawSeq xs = true := by simpa [isRawValue] using h
      have e : toStringValue (.seq xs) = sliceOf (toStringSlice xs) := by simp [toStringValue]
      rw [e, normalValue_sliceOf]
      exact normal_toStringSlice xs h2
  | .rawMap kvs, h => by
      have h2 : isRawMap kvs = true := by simpa [isRawValue] using h
      have e : toStringValue (.rawMap kvs) = .strMap (toStringMap kvs) := by simp [toStringValue]
      rw [e]
      simp only [normalValue]
      exact normal_toStringMap kvs h2
  | .strMap _, h => by simp [isRawValue] at h
  | .bytes _, _ => rfl
  | .nil, _ => rfl
  | .bool _, _ => rfl
  | .int _, _ => rfl
  | .str _, _ => rfl
  | .nilSeq, _ => rfl
theorem normal_toStringSlice :
    (xs : List Value) → isRawSeq xs = true → normalSeq (toStringSlice xs) = true
  | [], _ => rfl
  | v :: rest, h => by
      have h2 : isRawValue v = true ∧ isRawSeq rest = true := by simpa [isRawSeq] using h
      simp only [toStringSlice, normalSeq, Bool.and_eq_true]
      exact ⟨normal_toStringValue v h2.1, normal_toStringSlice rest h2.2⟩
theorem normal_toStringMap :
    (kvs : List (Value × Value)) → isRawMap kvs = true → normalFields (toStringMap kvs) = true
  | [], _ => rfl
  | (k, v) :: rest, h => by
      have h2 : isRawValue v = true ∧ isRawMap rest = true := by simpa [isRawMap] using h
      rw [toStringMap_cons]
      cases hk : stringEntry (k, v) with
      | none => exact normal_toStringMap rest h2.2
      | some e =>
          have he : e.2 = toStringValue v := by
            cases k <;> simp [stringEntry] at hk
            rw [← hk]
          obtain ⟨a, b⟩ := e
          simp only at he
          subst he
          simp only [normalFields, Bool.and_eq_true]
          exact ⟨normal_toStringValue v h2.1, normal_toStringMap rest h2.2⟩
end

/-- C30: for every raw record, `toStringMap` returns one field for each entry whose
key is a string, under that key and in the same order, and none for the other entries;
the value of a field is the value of the entry with a byte slice replaced by the
string of the same bytes, a nested raw mapping replaced by its `toStringMap`, a
sequence replaced by the sequence of its elements treated the same way (same length,
same order), and nil, booleans, numbers and strings unchanged; and when the record is
built from the decoder types, no byte slice and no raw mapping is left in the result
at any depth. -/
theorem C30_toStringMap_normalises (r : List (Value × Value)) :
    toStringMap r = r.filterMap stringEntry ∧
    (toStringMap r).map Prod.fst =
      r.filterMap (fun e => match e.1 with | .str key => some key | _ => none) ∧
    (∀ s, toStringValue (.bytes s) = .str s) ∧
    (∀ kvs, toStringValue (.rawMap kvs) = .strMap (toStringMap kvs)) ∧
    (∀ xs, toStringValue (.seq xs) = sliceOf (xs.map toStringValue) ∧
      seqLength (toStringValue (.seq xs)) = xs.length) ∧
    (∀ b i s, toStringValue .nil = .nil ∧ toStringValue (.bool b) = .bool b ∧
      toStringValue (.int i) = .int i ∧ toStringValue (.str s) = .str s) ∧
    (isRawMap r = true → normalFields (toStringMap r) = true) := by
  refine ⟨toStringMap_eq_filterMap r, ?_, fun _ => rfl, ?_, ?_, fun _ _ _ => ⟨rfl, rfl, rfl, rfl⟩,
    normal_toStringMap r⟩
  · rw [toStringMap_eq_filterMap, List.map_filterMap]
    congr 1
    funext e
    obtain ⟨k, v⟩ := e
    cases k <;> rfl
  · intro kvs
    simp [toStringValue]
  · intro xs
    have e : toStringValue (.seq xs) = sliceOf (xs.map toStringValue) := by
      simp [toStringValue, toStringSlice_eq_map]
    rw [e, seqLength_sliceOf, List.length_map]
    exact ⟨rfl, rfl⟩

/-- C30 at a record with a byte slice at the top, a byte slice inside a sequence
inside a nested mapping, and an entry with a number as key: the result is in normal
form and is the record with both byte slices turned into strings and that entry
dropped. -/
theorem C30_toStringMap_normalises_witness :
    isRawMap exRecordBytes = true ∧
    normalFields (toStringMap exRecordBytes) = true ∧
    toStringMap exRecordBytes =
      [("log", .str "hi"), ("k", .strMap [("tags", .seq [.str "a", .int 1])])] :=
  ⟨by decide, (C30_toStringMap_normalises exRecordBytes).2.2.2.2.2.2 (by decide), rfl⟩

/-! ### What `mapLabels` leaves alone -/

theorem lookup_applyPairs_cases (res : LabelSet) (ps : List (String × String)) (n : String) :
    (applyPairs res ps).lookup n = res.lookup n ∨
      ∃ v, (n, v) ∈ ps ∧ (applyPairs res ps).lookup n = some v := by
  induction ps generalizing res with
  | nil => exact Or.inl rfl
  | cons p rest ih =>
      rw [applyPairs_cons]
      rcases ih (setKey res p.1 p.2) with h | ⟨v, hv, h⟩
      · by_cases e : p.1 = n
        · right
          refine ⟨p.2, ?_, ?_⟩
          · obtain ⟨a, b⟩ := p
            simp only at e
            subst e
            exact List.mem_cons_self _ _
          · rw [h, ← e]
            exact lookup_setKey_self _ _ _
        · left
          rw [h]
          exact lookup_setKey_other _ _ _ _ (fun h2 => e h2.symm)
      · exact Or.inr ⟨v, List.mem_cons_of_mem _ hv, h⟩

theorem leafAt_cons {records rest : Fields} {name value : String} (e : String × Value)
    (h : LeafAt records rest name value) : LeafAt records (e :: rest) name value := by
  cases h with
  | atLeaf k _ _ hm hv => exact LeafAt.atLeaf k name value (List.mem_cons_of_mem _ hm) hv
  | inSub k sub r _ _ hm hr h2 =>
      exact LeafAt.inSub k sub r name value (List.mem_cons_of_mem _ hm) hr h2

mutual
theorem leafAt_of_mem_assignmentsEntry (lib : Lib) (records : Fields) (k : String) :
    (v : Value) → (p : String × String) → p ∈ assignmentsEntry lib records k v →
      (∀ mapping : Fields, (k, v) ∈ mapping → LeafAt records mapping p.1 p.2) ∧
        lib.labelNameIsValid p.1 = true ∧ lib.labelValueIsValid p.2 = true
  | .strMap nextKey, p, hp => by
      unfold assignmentsEntry at hp
      cases hl : records.lookup k with
      | none => rw [hl] at hp; cases hp
      | some x =>
          cases x with
          | strMap nextValue =>
              rw [hl] at hp
              simp only at hp
              have h := leafAt_of_mem_assignments lib nextValue nextKey p hp
              exact ⟨fun mapping hm => LeafAt.inSub k nextKey nextValue p.1 p.2 hm hl h.1, h.2⟩
          | _ => rw [hl] at hp; cases hp
  | .str nextKey, p, hp => by
      unfold assignmentsEntry at hp
      cases hg : getRecordValue k records with
      | none => rw [hg] at hp; cases hp
      | some value =>
          rw [hg] at hp
          simp only at hp
          by_cases hc : (lib.labelValueIsValid value && lib.labelNameIsValid nextKey) = true
          · rw [if_pos hc] at hp
            have e : p = (nextKey, value) := by simpa using hp
            subst e
            have hc2 : lib.labelValueIsValid value = true ∧ lib.labelNameIsValid nextKey = true := by
              simpa using hc
            exact ⟨fun mapping hm => LeafAt.atLeaf k nextKey value hm hg, hc2.2, hc2.1⟩
          · rw [if_neg hc] at hp
            cases hp
  | .nil, _, hp => by cases hp
  | .bool _, _, hp => by cases hp
  | .int _, _, hp => by cases hp
  | .bytes _, _, hp => by cases hp
  | .seq _, _, hp => by cases hp
  | .rawMap _, _, hp => by cases hp
  | .nilSeq, _, hp => by cases hp
theorem leafAt_of_mem_assignments (lib : Lib) (records : Fields) :
    (m : Fields) → (p : String × String) → p ∈ assignments lib records m →
      LeafAt records m p.1 p.2 ∧
        lib.labelNameIsValid p.1 = true ∧ lib.labelValueIsValid p.2 = true
  | [], _, hp => by cases hp
  | (k, v) :: rest, p, hp => by
      rw [assignments] at hp
      rcases List.mem_append.mp hp with h | h
      · have h2 := leafAt_of_mem_assignmentsEntry lib records k v p h
        exact ⟨h2.1 _ (List.mem_cons_self _ _), h2.2⟩
      · have h2 := leafAt_of_mem_assignments lib records rest p h
        exact ⟨leafAt_cons (k, v) h2.1, h2.2⟩
end

theorem mapLabelsEntry_of_no_mapping (lib : Lib) (records : Fields) (k : String) (sub : Fields)
    (res : LabelSet) (h : ∀ r, records.lookup k ≠ some (.strMap r)) :
    mapLabelsEntry lib records k (.strMap sub) res = res := by
  unfold mapLabelsEntry
  cases hl : records.lookup k with
  | none => rfl
  | some x =>
      cases x with
      | strMap r => exact absurd hl (h r)
      | _ => rfl

/-- C31: for every mapping tree, record and initial label set, `mapLabels` returns the
label set and nothing else, and in that set: a label whose entry differs from the
initial set is bound to the string form of the record's field at the path of some
string leaf that designates this label and whose whole path resolves in the record,
name and value being valid; a label that no resolving leaf with valid name and value
designates, in particular one that no leaf of the tree names, keeps its entry; an inner
mapping whose key is absent from the record or is not a mapping there changes
nothing; and in `SendRecord` the initial set is the set of automatic labels, whose
labels not named by a leaf therefore reach the result unchanged. -/
theorem C31_mapLabels_adds_only_designated_labels (lib : Lib) (records mapping : Fields)
    (res : LabelSet) :
    (∀ n, (mapLabels lib records mapping res).lookup n ≠ res.lookup n →
      ∃ value, (mapLabels lib records mapping res).lookup n = some value ∧
        LeafAt records mapping n value ∧
        lib.labelNameIsValid n = true ∧ lib.labelValueIsValid value = true) ∧
    (∀ n, (¬ ∃ value, LeafAt records mapping n value ∧
        lib.labelNameIsValid n = true ∧ lib.labelValueIsValid value = true) →
      (mapLabels lib records mapping res).lookup n = res.lookup n) ∧
    (∀ n, n ∉ leafNames mapping →
      (mapLabels lib records mapping res).lookup n = res.lookup n) ∧
    (∀ k sub rest, (∀ r, records.lookup k ≠ some (.strMap r)) →
      mapLabelsEntry lib records k (.strMap sub) res = res ∧
      mapLabels lib records ((k, .strMap sub) :: rest) res = mapLabels lib records rest res) ∧
    (∀ (cfg : config) (lbs0 : LabelSet), cfg.labelMap = some mapping →
      cfg.autoKubernetesLabels = true → autoLabels records [] = .done lbs0 →
      sendLabels lib cfg records = some (mapLabels lib records mapping lbs0) ∧
      ∀ n, n ∉ leafNames mapping →
        (mapLabels lib records mapping lbs0).lookup n = lbs0.lookup n) := by
  have first : ∀ (res : LabelSet) (n : String),
      (mapLabels lib records mapping res).lookup n ≠ res.lookup n →
      ∃ value, (mapLabels lib records mapping res).lookup n = some value ∧
        LeafAt records mapping n value ∧
        lib.labelNameIsValid n = true ∧ lib.labelValueIsValid value = true := by
    intro res n hne
    rw [mapLabels_eq] at hne ⊢
    rcases lookup_applyPairs_cases res (assignments lib records mapping) n with h | ⟨v, hv, h⟩
    · exact absurd h hne
    · have h2 := leafAt_of_mem_assignments lib records mapping (n, v) hv
      exact ⟨v, h, h2.1, h2.2.1, h2.2.2⟩
  have names : ∀ (res : LabelSet) (n : String), n ∉ leafNames mapping →
      (mapLabels lib records mapping res).lookup n = res.lookup n := by
    intro res n hn
    rw [mapLabels_eq]
    apply lookup_applyPairs_other
    intro p hp e
    apply hn
    apply (assignments_sublist lib records mapping).subset
    rw [← e]
    exact List.mem_map_of_mem Prod.fst hp
  refine ⟨first res, ?_, names res, ?_, ?_⟩
  · intro n hno
    by_contra hne
    exact hno ((first res n hne).imp fun _ h => h.2)
  · intro k sub rest hk
    have e := mapLabelsEntry_of_no_mapping lib records k sub res hk
    refine ⟨e, ?_⟩
    rw [mapLabels, e]
  · intro cfg lbs0 hm ha hl
    refine ⟨?_, names lbs0⟩
    simp [sendLabels, ha, hl, hm]

/-- C31 at the tree `kubernetes.namespace_name ↦ namespace`, `kubernetes.pod_name ↦
pod`, `stream ↦ stream`, the initial set `tier = x`, `namespace = old`: for the record
with Kubernetes metadata the label `namespace` changes to the namespace name of the
record, which a resolving leaf designates, and `tier`, which no leaf names, keeps its
value; for a record whose `kubernetes` field is a string the subtree below
`kubernetes` changes nothing. -/
theorem C31_mapLabels_adds_only_designated_labels_witness :
    (∃ value,
      (mapLabels refLib exRecordPod exLabelMap [("tier", "x"), ("namespace", "old")]).lookup
        "namespace" = some value ∧
      LeafAt exRecordPod exLabelMap "namespace" value ∧
      refLib.labelNameIsValid "namespace" = true ∧ refLib.labelValueIsValid value = true) ∧
    (mapLabels refLib exRecordPod exLabelMap [("tier", "x"), ("namespace", "old")]).lookup "tier" =
      some "x" ∧
    mapLabels refLib [("kubernetes", .str "x"), ("stream", .str "stderr")] exLabelMap
        [("tier", "x"), ("namespace", "old")] =
      mapLabels refLib [("kubernetes", .str "x"), ("stream", .str "stderr")]
        [("stream", .str "stream")] [("tier", "x"), ("namespace", "old")] :=
  ⟨(C31_mapLabels_adds_only_designated_labels refLib exRecordPod exLabelMap
      [("tier", "x"), ("namespace", "old")]).1 "namespace" (by decide),
   ((C31_mapLabels_adds_only_designated_labels refLib exRecordPod exLabelMap
      [("tier", "x"), ("namespace", "old")]).2.2.1 "tier" (by decide)).trans (by decide),
   ((C31_mapLabels_adds_only_designated_labels refLib
      [("kubernetes", .str "x"), ("stream", .str "stderr")] exLabelMap
      [("tier", "x"), ("namespace", "old")]).2.2.2.1 "kubernetes"
      [("namespace_name", .str "namespace"), ("pod_name", .str "pod")]
      [("stream", .str "stream")] (by intro r h; cases h)).2⟩

end FluentBit
